import Mathlib

/-!
# ADAM: VA-file index, priority queue and bound computation

Shallow embedding of the C sources

* `src/backend/utils/misc/adam_utils_priorityqueue.c`
* `src/backend/utils/adt/adam_index_va.c`
* `src/backend/utils/adt/adam_index_marks.c`
* `src/backend/utils/adt/adam_retrieval_minkowski.c`
* `src/backend/utils/adt/adam_retrieval_normalization.c`
* `src/backend/utils/adt/adam_retrieval_aggregation.c`

`float8` values are modelled by an ordered field (evaluated over `ℚ`), C arrays by
lists or by functions from (integer) offsets, and host functions that are not part of
the repository (`qsort_arg`, `btfloat8cmp`, `dpow`) are either modelled by their
documented behaviour or taken as parameters.
-/

set_option linter.unusedVariables false

namespace ADAM

/-! ## Priority queue (`adam_utils_priorityqueue.c`) -/

/-- Three-way comparison of the host (`btfloat8cmp`): -1, 0 or 1. -/
def btfloat8cmp {α : Type} [LinearOrder α] (a b : α) : Int :=
  if a < b then -1 else if b < a then 1 else 0

/-- Host routine `qsort_arg(base, nel, ..., cmp, arg)`: sorts the first `nel` slots of
the array ascending with respect to the three-way comparator and leaves the other
slots untouched. -/
def qsort_arg {α : Type} (cmp : α → α → Int) (base : List α) (nel : Nat) : List α :=
  List.insertionSort (fun a b => cmp a b ≤ 0) (base.take nel) ++ base.drop nel

/-- The struct `PriorityQueue`: `queue` is the block of `maxSize` slots that follows
the header. -/
structure PriorityQueue (α : Type) where
  maxSize : Nat
  currentSize : Nat
  queue : List α
deriving Repr, DecidableEq

/-- The function `createQueue`: the slots are allocated, not initialised (`junk`). -/
def createQueue {α : Type} (numOfElements : Nat) (junk : α) : PriorityQueue α :=
  { maxSize := numOfElements, currentSize := 0, queue := List.replicate numOfElements junk }

/-- The function `insertIntoQueueCheck`. -/
def insertIntoQueueCheck {α : Type} [Inhabited α] (cmp : α → α → Int)
    (q : PriorityQueue α) (comparableElement : α) : Bool :=
  if q.currentSize < q.maxSize then true
  else if cmp comparableElement (q.queue.getD (q.maxSize - 1) default) ≤ 0 then true
  else false

/-- The function `insertIntoQueue`: note that `qsort_arg` is called with the value of
`currentSize` from before the increment. The returned flag is always `true`. -/
def insertIntoQueue {α : Type} [Inhabited α] (cmp : α → α → Int)
    (q : PriorityQueue α) (comparableElement insertedElement : α) : PriorityQueue α × Bool :=
  if q.currentSize < q.maxSize then
    let queue1 := q.queue.set q.currentSize insertedElement
    let queue2 := qsort_arg cmp queue1 q.currentSize
    ({ q with queue := queue2, currentSize := q.currentSize + 1 }, true)
  else if cmp insertedElement (q.queue.getD (q.maxSize - 1) default) ≤ 0 then
    let queue1 := q.queue.set (q.maxSize - 1) insertedElement
    let queue2 := qsort_arg cmp queue1 q.currentSize
    ({ q with queue := queue2 }, true)
  else (q, true)

/-- The function `getElement`. -/
def getElement {α : Type} (q : PriorityQueue α) (i : Nat) : Option α :=
  if i < q.currentSize then q.queue.get? i else none

/-- The function `getMaximumElement`: the slot `currentSize - 1`. -/
def getMaximumElement {α : Type} [Inhabited α] (q : PriorityQueue α) : α :=
  q.queue.getD (q.currentSize - 1) default

/-- The slots `0 .. currentSize - 1` of a queue. -/
def contents {α : Type} (q : PriorityQueue α) : List α :=
  q.queue.take q.currentSize

/-- Inserting a sequence of elements one by one (each element is its own sort key). -/
def insertAll {α : Type} [Inhabited α] (cmp : α → α → Int)
    (q : PriorityQueue α) (xs : List α) : PriorityQueue α :=
  xs.foldl (fun acc x => (insertIntoQueue cmp acc x x).1) q

/-- The `min(cap, n)` smallest elements of a sequence in ascending order. -/
def smallest {α : Type} [LinearOrder α] (cap : Nat) (xs : List α) : List α :=
  (List.insertionSort (fun a b => a ≤ b) xs).take cap

/-! ## Constants (`adam_index_marks.h`, `adam_retrieval_minkowski.h`, `adam_index_va.h`) -/

/-- The constant `MAX_MARKS`: marks per dimension. -/
def MAX_MARKS : Nat := 64

/-- The macro `MAX_PARTITIONS`, defined as `MAX_MARKS - 1`, where it is used as a whole
expression. -/
def MAX_PARTITIONS : Nat := MAX_MARKS - 1

/-- The sentinel `MINKOWSKI_MAX_NORM` of the maximum norm. -/
def MINKOWSKI_MAX_NORM {α : Type} [LinearOrderedField α] : α := -1

/-- The constant `EPSILON`. -/
def EPSILON {α : Type} [LinearOrderedField α] : α := 1 / 1000

/-! ## Approximation codec (`set_bitstring`) -/

/-- Inner `while` loop of `set_bitstring` over the marks of one dimension: `j` counts
the marks passed; at the first mark that is not `<` the component, `j` is decremented
and the loop is left (`goto setBits`). -/
def scanMarks {α : Type} [LinearOrderedField α] (f_val : α) : List α → Int → Int
  | [], j => j
  | mmarks_val :: rest, j =>
    if ¬ (mmarks_val < f_val) then j - 1 else scanMarks f_val rest (j + 1)

/-- The two clamps after the label `setBits` and the cast to `BitStringElement`. -/
def setBits (j : Int) : Nat :=
  let j1 := if j < 0 then 0 else j
  let j2 := if j1 > 255 then 255 else j1
  j2.toNat

/-- The cell written for one dimension by `set_bitstring`. -/
def cellOf {α : Type} [LinearOrderedField α] (f_val : α) (mmarks : List α) : Nat :=
  setBits (scanMarks f_val mmarks 0)

/-- The function `set_bitstring`: the outer loop runs over the feature components and
the rows of marks in parallel and writes `result[i]`; the other bytes of `result`
keep their value. -/
def set_bitstring {α : Type} [LinearOrderedField α] :
    List α → List (List α) → List Nat → List Nat
  | f_val :: fs, mdim_val :: ms, _ :: result => cellOf f_val mdim_val :: set_bitstring fs ms result
  | _, _, result => result

/-! ## Partial distances (`precompute_differences_*`) and bounds (`get_bound`) -/

/-- The entry computed in the body of the inner loop of
`precompute_differences_lbound_lnorm` from the query component and two consecutive
marks. The host function `dpow` is a parameter. -/
def lboundEntry {α : Type} [LinearOrderedField α] (dpow : α → α → α) (norm : α)
    (f_f8 m_f8 mp1_f8 : α) : α :=
  if f_f8 < m_f8 then dpow (m_f8 - f_f8) norm
  else if f_f8 > mp1_f8 then dpow (f_f8 - mp1_f8) norm
  else 0

/-- The entry computed in the body of the inner loop of
`precompute_differences_ubound_lnorm`. -/
def uboundEntry {α : Type} [LinearOrderedField α] (dpow : α → α → α) (num_norm : α)
    (f_val m_val mp1_val : α) : α :=
  let b_val := (m_val + mp1_val) / 2
  if f_val ≤ b_val then dpow (mp1_val - f_val) num_norm
  else dpow (f_val - m_val) num_norm

/-- Inner `for` loop shared by the two `precompute_differences_*_lnorm` functions:
`m_ptr` and `mp1_ptr` walk over consecutive marks, and `results[base + i]` is written
for `i < i_max - 1`, where `base = j * i_max`. -/
def rowLoop {α : Type} (entry : α → α → α) (base : Int) :
    List α → Int → (Int → α) → (Int → α)
  | m :: mp1 :: rest, i, results =>
    rowLoop entry base (mp1 :: rest) (i + 1) (Function.update results (base + i) (entry m mp1))
  | _, _, results => results

/-- Outer `while` loop shared by the two `precompute_differences_*_lnorm` functions:
it runs over the query components and the rows of marks in parallel, with the row
counter `j`; after the inner loop it executes
`results[j * i_max + i_max - 1] = results[j * i_max - 2]`. -/
def tableLoop {α : Type} (entry : α → α → α → α) :
    List α → List (List α) → Int → (Int → α) → (Int → α)
  | f_val :: fs, marks :: ms, j, results =>
    let i_max : Int := marks.length
    let results1 := rowLoop (entry f_val) (j * i_max) marks 0 results
    let results2 :=
      Function.update results1 (j * i_max + i_max - 1) (results1 (j * i_max - 2))
    tableLoop entry fs ms (j + 1) results2
  | _, _, _, results => results

/-- The function `precompute_differences_lbound_lnorm`; `results` is the content of
the freshly allocated memory around the table. -/
def precompute_differences_lbound_lnorm {α : Type} [LinearOrderedField α]
    (dpow : α → α → α) (f : List α) (marks_full : List (List α)) (norm : α)
    (results : Int → α) : Int → α :=
  tableLoop (lboundEntry dpow norm) f marks_full 0 results

/-- The conversion `i4tod(Int32GetDatum(norm))` of a `double` norm in `[0, 2^31)`:
the norm is cut to its integer part. -/
def i4tod_Int32GetDatum {α : Type} [LinearOrderedField α] [FloorRing α] (norm : α) : α :=
  ((Nat.floor norm : Nat) : α)

/-- The function `precompute_differences_ubound_lnorm`: the exponent handed to `dpow`
is `num_norm = i4tod(Int32GetDatum(norm))`. -/
def precompute_differences_ubound_lnorm {α : Type} [LinearOrderedField α] [FloorRing α]
    (dpow : α → α → α) (f : List α) (marks_full : List (List α)) (norm : α)
    (results : Int → α) : Int → α :=
  tableLoop (uboundEntry dpow (i4tod_Int32GetDatum norm)) f marks_full 0 results

/-- The function `precompute_differences_lbound`. -/
def precompute_differences_lbound {α : Type} [LinearOrderedField α]
    (dpow : α → α → α) (query : List α) (marks : List (List α)) (norm : α)
    (results : Int → α) : Int → α :=
  if norm = MINKOWSKI_MAX_NORM then precompute_differences_lbound_lnorm dpow query marks 1 results
  else precompute_differences_lbound_lnorm dpow query marks norm results

/-- The function `precompute_differences_ubound`. -/
def precompute_differences_ubound {α : Type} [LinearOrderedField α] [FloorRing α]
    (dpow : α → α → α) (query : List α) (marks : List (List α)) (norm : α)
    (results : Int → α) : Int → α :=
  if norm = MINKOWSKI_MAX_NORM then precompute_differences_ubound_lnorm dpow query marks 1 results
  else precompute_differences_ubound_lnorm dpow query marks norm results

/-- The index `dim * partitions + MIN(GET_WORD(apx, dim), partitions - 1)` read by
`get_bound` for dimension `dim`. -/
def boundIndex (apx : List Nat) (partitions : Int) (dim : Nat) : Int :=
  (dim : Int) * partitions + min ((apx.getD dim 0 : Nat) : Int) (partitions - 1)

/-- The function `get_bound`. -/
def get_bound {α : Type} [LinearOrderedField α] (apx : List Nat) (differences : Int → α)
    (dimensions partitions : Int) (norm : α) : α :=
  if norm < 100 ∧ norm ≠ MINKOWSKI_MAX_NORM then
    (List.range dimensions.toNat).foldl
      (fun trans_result dim => trans_result + differences (boundIndex apx partitions dim)) 0
  else if norm = MINKOWSKI_MAX_NORM then
    (List.range dimensions.toNat).foldl
      (fun trans_result dim =>
        let difference := differences (boundIndex apx partitions dim)
        if trans_result < difference then difference else trans_result) 0
  else 0

/-! ## Minkowski distance (`adam_retrieval_minkowski.c`) -/

/-- The function `calculateMinkowskiL1`. -/
def calculateMinkowskiL1 {α : Type} [LinearOrderedField α] (f1 f2 : List α) : α :=
  (List.zip f1 f2).foldl (fun transResult p => transResult + |p.1 - p.2|) 0

/-- The function `calculateMinkowskiLn`. -/
def calculateMinkowskiLn {α : Type} [LinearOrderedField α] (dpow : α → α → α)
    (f1 f2 : List α) (n : α) : α :=
  (List.zip f1 f2).foldl (fun transResult p => transResult + dpow |p.1 - p.2| n) 0

/-- The function `calculateMinkowskiLmax`. -/
def calculateMinkowskiLmax {α : Type} [LinearOrderedField α] (f1 f2 : List α) : α :=
  (List.zip f1 f2).foldl
    (fun maxResult p => if |p.1 - p.2| > maxResult then |p.1 - p.2| else maxResult) 0

/-- The function `calculateMinkowski` (for `float8` features). -/
def calculateMinkowski {α : Type} [LinearOrderedField α] (dpow : α → α → α)
    (f1 f2 : List α) (n : α) : α :=
  if n - 1 < EPSILON ∧ n > 0 then calculateMinkowskiL1 f1 f2
  else if n < EPSILON ∧ n > 0 then calculateMinkowskiLmax f1 f2
  else calculateMinkowskiLn dpow f1 f2 n

/-! ## Page store (`adam_index_va.c`) -/

/-- A heap TID (`ItemPointerData`), opaque to the index. -/
abbrev ItemPointer := Nat

/-- The struct `Tuple`: heap TID and one byte per dimension. -/
structure Tuple where
  heapPtr : ItemPointer
  apx : List Nat
deriving Repr, DecidableEq

/-- The flag `VA_META`. -/
def VA_META : Nat := 1

/-- The flag `VA_DELETED`. -/
def VA_DELETED : Nat := 2

/-- The magic number `VA_MAGICK_NUMBER` (0xDBAC0DED). -/
def VA_MAGICK_NUMBER : Nat := 0xDBAC0DED

/-- A data page: the opaque trailer (`maxoff`, `flags`) and the tuple slots of the
content area; the valid tuples are the first `maxoff` slots. -/
structure Page where
  maxoff : Nat
  flags : Nat
  data : List Tuple
deriving Repr, DecidableEq

/-- The macro `isDeleted`. -/
def isDeleted (page : Page) : Bool := page.flags &&& VA_DELETED != 0

/-- The tuples between `getData(page)` and `itupEnd`. -/
def pageTuples (page : Page) : List Tuple := page.data.take page.maxoff

/-- The struct `MetaPageData`. -/
structure MetaPageData where
  magickNumber : Nat
  nChanges : Nat
  nStart : Nat
  nEnd : Nat
  notFullPage : List Nat
deriving Repr, DecidableEq

/-- The struct `StateOptions` (without the stored relation options). -/
structure StateOptions (α : Type) where
  sizeOfTuple : Nat
  marks : List (List α)
  dimensions : Nat
  partitions : Nat

/-- Size of the struct `Tuple` in C: a 6-byte `ItemPointerData` and `apx[1]`, padded
to the 2-byte alignment. -/
def sizeof_Tuple : Nat := 8

/-- The function `initStateOptions`: `dimensions` and `partitions` are the two
extents of the array of marks. -/
def initStateOptions {α : Type} (marks : List (List α)) : StateOptions α :=
  { sizeOfTuple := sizeof_Tuple + marks.length * 1
    marks := marks
    dimensions := marks.length
    partitions := (marks.headD []).length }

/-- The index relation: the meta page (block 0), the data pages (blocks 1, 2, ...)
and the tuple count `reltuples` of its catalog entry. -/
structure IndexRel (α : Type) where
  metaPage : MetaPageData
  blocks : List Page
  reltuples : α

/-- The fields of `AdamScanClause` read by the scan. -/
structure AdamScanClause (α : Type) where
  check_tid : Bool
  nn_limit : Int
  nn_minkowski : α

/-- The scan key: the `SK_ISNULL` flag and the query vector. -/
structure ScanKey (α : Type) where
  isnull : Bool
  sk_argument : List α

/-- The fields of `IndexScanDesc` read by the scan. -/
structure IndexScanDesc (α : Type) where
  adamScanClause : AdamScanClause α
  numberOfKeys : Nat
  keyData : ScanKey α
  state : StateOptions α
  indexRelation : IndexRel α

/-- The errors raised by the scan with `ereport(ERROR, ...)`. -/
inductive ScanError where
  | notMinkowski
  | corrupted
deriving Repr, DecidableEq

/-- What a scan leaves behind: the returned count, the TIDs handed to `tbm_add_tuples`
(in call order, after the TIDs already in the bitmap) and whether the warning for a
stale index was raised. -/
structure ScanResult where
  ntids : Nat
  tbm : List ItemPointer
  staleWarning : Bool
deriving Repr, DecidableEq

/-- The norm test of `bitmapSingleSearch` and `bitmapMultiSearch` that raises
"VA indexing can only be used with Minkowski distances". -/
def normCheckFails {α : Type} [LinearOrderedField α] (norm : α) : Bool :=
  decide (norm < 0 ∨ norm > 100)

/-- The test for a stale index in the scans. -/
def staleCheck {α : Type} [LinearOrderedField α] (meta_data : MetaPageData) (reltuples : α) :
    Bool :=
  decide (meta_data.nChanges > 1000 ∨ (meta_data.nChanges : α) > reltuples * (2 / 10))

/-- Body of the first `while` loop of `bitmapSingleSearch` for one tuple when the
queue exists: the lower bound is tested, the upper bound is inserted. -/
def firstPassTuple {α : Type} [LinearOrderedField α] [Inhabited α]
    (lb ub : Tuple → α) (q : PriorityQueue α) (itup : Tuple) : PriorityQueue α :=
  let l_bound := lb itup
  if insertIntoQueueCheck btfloat8cmp q l_bound then
    (insertIntoQueue btfloat8cmp q l_bound (ub itup)).1
  else q

/-- The tuples visited by one pass over the blocks `VA_HEAD_BLKNO .. npages - 1`, in
page order: deleted pages are skipped. -/
def liveTuples (blocks : List Page) : List Tuple :=
  (blocks.filter (fun page => !isDeleted page)).flatMap pageTuples

/-- First pass of the limited scan: the queue after all tuples. -/
def firstPass {α : Type} [LinearOrderedField α] [Inhabited α]
    (lb ub : Tuple → α) (q : PriorityQueue α) (blocks : List Page) : PriorityQueue α :=
  (liveTuples blocks).foldl (firstPassTuple lb ub) q

/-- Second pass of the limited scan: the tuples whose TID is added to the bitmap. -/
def secondPass {α : Type} [LinearOrderedField α] [Inhabited α]
    (lb : Tuple → α) (q : PriorityQueue α) (blocks : List Page) : List Tuple :=
  (liveTuples blocks).filter (fun itup => insertIntoQueueCheck btfloat8cmp q (lb itup))

/-- The function `bitmapSingleSearch`. `junk` is the content of the memory in which
the two tables of partial distances are allocated. -/
def bitmapSingleSearch {α : Type} [LinearOrderedField α] [FloorRing α] [Inhabited α]
    (dpow : α → α → α) (junk : Int → α) (scan : IndexScanDesc α) (tbm : List ItemPointer) :
    Except ScanError ScanResult :=
  let adamOptions := scan.adamScanClause
  let skey := scan.keyData
  let numResults := adamOptions.nn_limit
  let norm := adamOptions.nn_minkowski
  if normCheckFails norm then Except.error ScanError.notMinkowski
  else if decide (scan.numberOfKeys > 0) && skey.isnull then
    Except.ok { ntids := 0, tbm := tbm, staleWarning := false }
  else
    let dimensions : Int := min (scan.state.dimensions : Int) (skey.sk_argument.length : Int)
    let meta_data := scan.indexRelation.metaPage
    if meta_data.magickNumber ≠ VA_MAGICK_NUMBER then Except.error ScanError.corrupted
    else
      let stale := staleCheck meta_data scan.indexRelation.reltuples
      let blocks := scan.indexRelation.blocks
      if numResults > 0 then
        let l_bounds :=
          precompute_differences_lbound dpow skey.sk_argument scan.state.marks norm junk
        let u_bounds :=
          precompute_differences_ubound dpow skey.sk_argument scan.state.marks norm junk
        let lb := fun (itup : Tuple) =>
          get_bound itup.apx l_bounds dimensions scan.state.partitions norm
        let ub := fun (itup : Tuple) =>
          get_bound itup.apx u_bounds dimensions scan.state.partitions norm
        let q := firstPass lb ub (createQueue numResults.toNat (junk 0)) blocks
        let emitted := secondPass lb q blocks
        Except.ok { ntids := emitted.length, tbm := tbm ++ emitted.map Tuple.heapPtr,
                    staleWarning := stale }
      else
        let emitted := liveTuples blocks
        Except.ok { ntids := emitted.length, tbm := tbm ++ emitted.map Tuple.heapPtr,
                    staleWarning := stale }

/-- The function `formTuple`: the tuple is zero-filled, then `set_bitstring` writes the
cells of a non-null feature. -/
def formTuple {α : Type} [LinearOrderedField α] (state : StateOptions α) (iptr : ItemPointer)
    (value : Option (List α)) : Tuple :=
  let zero := List.replicate state.dimensions 0
  match value with
  | some f => { heapPtr := iptr, apx := set_bitstring f state.marks zero }
  | none => { heapPtr := iptr, apx := zero }

/-- The function `bitmapMultiSearch`: only tuples whose TID is in the input bitmap are
considered; `nentries` is the value of the host function `tbm_nentries(tbm)`. -/
def bitmapMultiSearch {α : Type} [LinearOrderedField α] [FloorRing α] [Inhabited α]
    (dpow : α → α → α) (junk : Int → α) (nentries : Int) (scan : IndexScanDesc α)
    (tbm : List ItemPointer) : Except ScanError ScanResult :=
  let adamOptions := scan.adamScanClause
  let skey := scan.keyData
  let numResults := max adamOptions.nn_limit nentries
  let norm := adamOptions.nn_minkowski
  if normCheckFails norm then Except.error ScanError.notMinkowski
  else if decide (scan.numberOfKeys > 0) && skey.isnull then
    Except.ok { ntids := 0, tbm := tbm, staleWarning := false }
  else
    let dimensions : Int := min (scan.state.dimensions : Int) (skey.sk_argument.length : Int)
    let meta_data := scan.indexRelation.metaPage
    if meta_data.magickNumber ≠ VA_MAGICK_NUMBER then Except.error ScanError.corrupted
    else
      let stale := staleCheck meta_data scan.indexRelation.reltuples
      let blocks := scan.indexRelation.blocks
      let inBitmap := (liveTuples blocks).filter (fun itup => decide (itup.heapPtr ∈ tbm))
      if numResults > 0 then
        let l_bounds :=
          precompute_differences_lbound dpow skey.sk_argument scan.state.marks norm junk
        let u_bounds :=
          precompute_differences_ubound dpow skey.sk_argument scan.state.marks norm junk
        let lb := fun (itup : Tuple) =>
          get_bound itup.apx l_bounds dimensions scan.state.partitions norm
        let ub := fun (itup : Tuple) =>
          get_bound itup.apx u_bounds dimensions scan.state.partitions norm
        let q := inBitmap.foldl (firstPassTuple lb ub) (createQueue numResults.toNat (junk 0))
        let emitted :=
          inBitmap.filter (fun itup => insertIntoQueueCheck btfloat8cmp q (lb itup))
        Except.ok { ntids := emitted.length, tbm := tbm ++ emitted.map Tuple.heapPtr,
                    staleWarning := stale }
      else
        Except.ok { ntids := inBitmap.length, tbm := tbm ++ inBitmap.map Tuple.heapPtr,
                    staleWarning := stale }

/-- The function `vaGetBitmap`. -/
def vaGetBitmap {α : Type} [LinearOrderedField α] [FloorRing α] [Inhabited α]
    (dpow : α → α → α) (junk : Int → α) (nentries : Int) (scan : IndexScanDesc α)
    (tbm : List ItemPointer) : Except ScanError ScanResult :=
  if scan.adamScanClause.check_tid && decide (scan.adamScanClause.nn_limit > 0)
      && !tbm.isEmpty then
    bitmapMultiSearch dpow junk nentries scan tbm
  else bitmapSingleSearch dpow junk scan tbm

/-! ## Build (`vaBuild`, `buildCallback`, `addItem`) -/

/-- Block size `BLCKSZ` of the host (default build). -/
def BLCKSZ : Int := 8192

/-- The value of `MAXALIGN(SizeOfPageHeaderData)` in the host. -/
def pageHeaderSize : Int := 24

/-- The value of `MAXALIGN(sizeof(OpaqueData))`. -/
def opaqueSize : Int := 8

/-- The macro `GetFreePageSpace`, evaluated in unsigned 64-bit arithmetic. -/
def GetFreePageSpace {α : Type} (state : StateOptions α) (page : Page) : Nat :=
  ((BLCKSZ - pageHeaderSize - (page.maxoff : Int) * (state.sizeOfTuple : Int) - opaqueSize)
    % (2 : Int) ^ 64).toNat

/-- The function `initPage`: the page is zeroed, `maxoff` and `flags` are set. -/
def initPage (f maxoff : Nat) : Page := { maxoff := maxoff, flags := f, data := [] }

/-- The function `addItem`: the tuple is copied to slot `maxoff` when the page has
room for it. -/
def addItem {α : Type} (state : StateOptions α) (p : Page) (t : Tuple) : Page × Bool :=
  if GetFreePageSpace state p < state.sizeOfTuple then (p, false)
  else
    ({ p with data := p.data.take p.maxoff ++ [t] ++ p.data.drop (p.maxoff + 1)
              maxoff := p.maxoff + 1 }, true)

/-- The struct `BuildState`: `blocks` are the data pages already released,
`currentPage` is the page of `currentBuffer` (`none` for `InvalidBuffer`). -/
structure BuildState (α : Type) where
  blstate : StateOptions α
  blocks : List Page
  currentPage : Option Page

/-- The errors raised by the build. -/
inductive BuildError where
  | alreadyContainsData
  | corrupted
deriving Repr, DecidableEq

/-- The function `buildCallback` for one heap tuple (its TID and its feature value,
`none` for SQL NULL). A new page comes from `newBuffer`, which extends the relation
of a fresh index by one block. -/
def buildCallback {α : Type} [LinearOrderedField α] (buildstate : BuildState α)
    (htup : ItemPointer × Option (List α)) : Except BuildError (BuildState α) :=
  let itup := formTuple buildstate.blstate htup.1 htup.2
  let fresh : Except BuildError (BuildState α) :=
    let released := buildstate.blocks ++ buildstate.currentPage.toList
    let r := addItem buildstate.blstate (initPage 0 0) itup
    if r.2 = false then Except.error BuildError.corrupted
    else Except.ok { buildstate with blocks := released, currentPage := some r.1 }
  match buildstate.currentPage with
  | none => fresh
  | some page =>
    let r := addItem buildstate.blstate page itup
    if r.2 = false then fresh
    else Except.ok { buildstate with currentPage := some r.1 }

/-- The heap scan `IndexBuildHeapScan` calling `buildCallback` for every tuple. -/
def buildHeapScan {α : Type} [LinearOrderedField α] :
    BuildState α → List (ItemPointer × Option (List α)) → Except BuildError (BuildState α)
  | buildstate, [] => Except.ok buildstate
  | buildstate, htup :: rest =>
    match buildCallback buildstate htup with
    | Except.error e => Except.error e
    | Except.ok buildstate1 => buildHeapScan buildstate1 rest

/-- The function `initMetabuffer`. -/
def initMetabuffer : MetaPageData :=
  { magickNumber := VA_MAGICK_NUMBER, nChanges := 0, nStart := 0, nEnd := 0, notFullPage := [] }

/-- The build state at the start of the heap scan in `vaBuild`. -/
def initBuildState {α : Type} (marks : List (List α)) : BuildState α :=
  { blstate := initStateOptions marks, blocks := [], currentPage := none }

/-- The function `vaBuild` on an index relation of `nblocks` blocks: `marks` is the
result of `calculateMarks`, `heap` the live heap tuples in scan order. The built
relation carries the tuple count returned in `IndexBuildResult`. -/
def vaBuild {α : Type} [LinearOrderedField α] (nblocks : Nat) (marks : List (List α))
    (heap : List (ItemPointer × Option (List α))) : Except BuildError (IndexRel α) :=
  if nblocks ≠ 0 then Except.error BuildError.alreadyContainsData
  else
    match buildHeapScan (initBuildState marks) heap with
    | Except.error e => Except.error e
    | Except.ok final =>
      Except.ok { metaPage := initMetabuffer
                  blocks := final.blocks ++ final.currentPage.toList
                  reltuples := (heap.length : α) }

/-- The scan descriptor after `vaBeginScan` and `vaReScan` on an index with the given
marks. -/
def mkScan {α : Type} (index : IndexRel α) (marks : List (List α))
    (adamOptions : AdamScanClause α) (numberOfKeys : Nat) (key : ScanKey α) :
    IndexScanDesc α :=
  { adamScanClause := adamOptions, numberOfKeys := numberOfKeys, keyData := key
    state := initStateOptions marks, indexRelation := index }

/-! ## Mark builder (`adam_index_marks.c`, `feature_min`, `feature_max`) -/

/-- The constant `SAMPLING_FREQUENCY`: cells of the histogram of one dimension. -/
def SAMPLING_FREQUENCY : Nat := 10000

/-- The constant `N_SAMPLES`: rows requested from the sampler. -/
def N_SAMPLES : Nat := 10000

/-- The writes of `getEquidistantMarks` for one dimension, at `base = dim_ctr * MAX_MARKS`:
`MAX_PARTITIONS` stands for `MAX_MARKS - 1` in the index, in the loop bound and in
`partitions_dat`. -/
def equidistantRow {α : Type} [LinearOrderedField α] (min_val max_val : α) (base : Nat)
    (result : Nat → α) : Nat → α :=
  let partitions_dat : α := ((MAX_MARKS - 1 : Nat) : α)
  let result1 := Function.update result (base + 0) min_val
  let result2 := Function.update result1 (base + MAX_MARKS - 1) max_val
  let max_sub_min := max_val - min_val
  (List.range' 1 (MAX_MARKS - 1 - 1)).foldl
    (fun res mark_ctr =>
      Function.update res (base + mark_ctr)
        (min_val + max_sub_min * ((mark_ctr : α) / partitions_dat)))
    result2

/-- The `while` loop of `getEquidistantMarks` over the dimensions. -/
def equidistantRows {α : Type} [LinearOrderedField α] :
    List α → List α → Nat → (Nat → α) → (Nat → α)
  | min_val :: mins, max_val :: maxs, dim_ctr, result =>
    equidistantRows mins maxs (dim_ctr + 1)
      (equidistantRow min_val max_val (dim_ctr * MAX_MARKS) result)
  | _, _, _, result => result

/-- The function `getEquidistantMarks`; `result` is the content of the allocated
memory. -/
def getEquidistantMarks {α : Type} [LinearOrderedField α] (dimensions : Nat)
    (min max : List α) (result : Nat → α) : Nat → α :=
  equidistantRows min max 0 result

/-- The host function `construct_md_array` for a two-dimensional array. -/
def construct_md_array {α : Type} (marks : Nat → α) (dims0 dims1 : Nat) : List (List α) :=
  List.map (fun (d : Nat) => List.map (fun (k : Nat) => marks (d * dims1 + k)) (List.range dims1))
    (List.range dims0)

/-- The loop `while (sum < n) { sum += frequencies[...]; k++; }` over the cells that
follow the current position; `none` when the walk leaves the histogram. -/
def walk (n : Int) : List Int → Int → Int → Option (List Int × Int × Int)
  | [], sum, k => if sum < n then none else some ([], sum, k)
  | c :: cells, sum, k =>
    if sum < n then walk n cells (sum + c) (k + 1) else some (c :: cells, sum, k)

/-- The values of `k` after the walk of each partition index `mark_ctr`, for the
thresholds `thr mark_ctr`; the walk continues from the state of the previous index. -/
def cutsLoop (thr : Nat → Int) : List Nat → List Int → Int → Int → Option (List Int)
  | [], _, _, _ => some []
  | mark_ctr :: rest, cells, sum, k =>
    match walk (thr mark_ctr) cells sum k with
    | none => none
    | some (cells1, sum1, k1) =>
      match cutsLoop thr rest cells1 sum1 k1 with
      | none => none
      | some ks => some (k1 :: ks)

/-- The threshold `int n = (mark_ctr * numRowsUsed) / MAX_PARTITIONS` of
`getEquifrequentMarks` after macro expansion: `(mark_ctr * numRowsUsed) / MAX_MARKS - 1`. -/
def markThreshold (numRowsUsed : Int) (mark_ctr : Nat) : Int :=
  Int.tdiv ((mark_ctr : Int) * numRowsUsed) (MAX_MARKS : Int) - 1

/-- The cells `frequencies[pos .. size - 1]` of a histogram of `size` cells. -/
def cellsFrom (frequencies : Nat → Int) (pos size : Nat) : List Int :=
  List.map frequencies (List.range' pos (size - pos))

/-- The values of `k` computed by `getEquifrequentMarks` for the partition indices
`1 .. MAX_MARKS - 2` of dimension `dim_ctr`. -/
def equifrequentCuts (numRowsUsed : Int) (frequencies : Nat → Int) (size dim_ctr : Nat) :
    Option (List Int) :=
  cutsLoop (markThreshold numRowsUsed) (List.range' 1 (MAX_MARKS - 1 - 1))
    (cellsFrom frequencies (dim_ctr * SAMPLING_FREQUENCY) size) 0 0

/-- The writes of `getEquifrequentMarks` for one dimension, at
`base = dim_ctr * MAX_MARKS`, the values of `k` being `ks`. -/
def equifrequentRow {α : Type} [LinearOrderedField α] (min_val max_val : α) (base : Nat)
    (ks : List Int) (result : Nat → α) : Nat → α :=
  let nfreq_dat : α := (SAMPLING_FREQUENCY : α)
  let result1 := Function.update result (base + 0) min_val
  let result2 := Function.update result1 (base + MAX_MARKS - 1) max_val
  (List.zip (List.range' 1 (MAX_MARKS - 1 - 1)) ks).foldl
    (fun res p =>
      Function.update res (base + p.1)
        (min_val + ((p.2 : Int) : α) * ((max_val - min_val) / nfreq_dat)))
    result2

/-- The `while` loop of `getEquifrequentMarks` over the dimensions. -/
def equifrequentRows {α : Type} [LinearOrderedField α] (numRowsUsed : Int)
    (frequencies : Nat → Int) (size : Nat) :
    List α → List α → Nat → (Nat → α) → Option (Nat → α)
  | min_val :: mins, max_val :: maxs, dim_ctr, result =>
    match equifrequentCuts numRowsUsed frequencies size dim_ctr with
    | none => none
    | some ks =>
      equifrequentRows numRowsUsed frequencies size mins maxs (dim_ctr + 1)
        (equifrequentRow min_val max_val (dim_ctr * MAX_MARKS) ks result)
  | _, _, _, result => some result

/-- The function `getEquifrequentMarks`; the histogram has `dimensions *
SAMPLING_FREQUENCY` cells. -/
def getEquifrequentMarks {α : Type} [LinearOrderedField α] (numRowsUsed : Int)
    (dimensions : Nat) (min max : List α) (frequencies : Nat → Int) (result : Nat → α) :
    Option (Nat → α) :=
  equifrequentRows numRowsUsed frequencies (dimensions * SAMPLING_FREQUENCY) min max 0 result

/-- The thresholds of the equal-population partition in the words of the
specification: `p * n / P` with `P = 63`, in integer division. -/
def specThreshold (n : Int) (p : Nat) : Int :=
  Int.tdiv ((p : Int) * n) 63

/-- The values of `k` of the specification: the cumulative walk with the thresholds
`specThreshold`. -/
def specCuts (n : Int) (frequencies : Nat → Int) (size dim_ctr : Nat) : Option (List Int) :=
  cutsLoop (specThreshold n) (List.range' 1 (MAX_MARKS - 1 - 1))
    (cellsFrom frequencies (dim_ctr * SAMPLING_FREQUENCY) size) 0 0

/-! ## Maintenance (`vaInsert`, `vaBulkDelete`, `vaVacuumCleanup`) -/

/-- The block number `VA_METAPAGE_BLKNO` of the meta page. -/
def VA_METAPAGE_BLKNO : Nat := 0

/-- The block number `VA_HEAD_BLKNO` of the first data page: data block `blkno` is
`blocks[blkno - VA_HEAD_BLKNO]` of an `IndexRel`. -/
def VA_HEAD_BLKNO : Nat := 1

/-- The constant `MetaBlockN`: the number of slots of `FreeBlockNumberArray` in the default
build, `MAXALIGN_DOWN(8192 - 24 - 8 - 16) / 4`. -/
def MetaBlockN : Nat := 2036

/-- The host constant `InvalidBlockNumber`. -/
def InvalidBlockNumber : Nat := 0xFFFFFFFF

/-- The error of the host when a block that is not a data block of the relation is
read. -/
inductive InsertError where
  | badBlock
deriving Repr, DecidableEq

/-- The function `addItemToBlock`: the page of block `blkno` is read and `addItem` is
applied to it. -/
def addItemToBlock {α : Type} (state : StateOptions α) (blocks : List Page) (itup : Tuple)
    (blkno : Nat) : Except InsertError (List Page × Bool) :=
  if blkno < VA_HEAD_BLKNO then Except.error InsertError.badBlock
  else
    match blocks.get? (blkno - VA_HEAD_BLKNO) with
    | none => Except.error InsertError.badBlock
    | some page =>
      let r := addItem state page itup
      if r.2 then Except.ok (blocks.set (blkno - VA_HEAD_BLKNO) r.1, true)
      else Except.ok (blocks, false)

/-- The function `newBuffer`: `fsm` lists the block numbers recorded as free, in the order
in which `GetFreeIndexPage` hands them out; a recorded block is taken when its page is
flagged deleted, otherwise the relation is extended by one (zeroed) block. The result is
the block number, the blocks and the rest of `fsm`. -/
def newBuffer (blocks : List Page) : List Nat → Nat × List Page × List Nat
  | [] => (blocks.length + VA_HEAD_BLKNO, blocks ++ [{ maxoff := 0, flags := 0, data := [] }], [])
  | blkno :: fsm =>
    if blkno < VA_HEAD_BLKNO then newBuffer blocks fsm
    else
      match blocks.get? (blkno - VA_HEAD_BLKNO) with
      | none => newBuffer blocks fsm
      | some page => if isDeleted page then (blkno, blocks, fsm) else newBuffer blocks fsm

/-- The loop `while (metaData->nEnd > metaData->nStart)` of `vaInsert`; the flag tells
whether the tuple was stored. Each round without success advances `nStart`, so
`nEnd - nStart` rounds are enough. -/
def insertRing {α : Type} (state : StateOptions α) (itup : Tuple) :
    Nat → MetaPageData → List Page → Except InsertError (MetaPageData × List Page × Bool)
  | 0, metaData, blocks => Except.ok (metaData, blocks, false)
  | fuel + 1, metaData, blocks =>
    if metaData.nEnd > metaData.nStart then
      let blkno := metaData.notFullPage.getD metaData.nStart 0
      match addItemToBlock state blocks itup blkno with
      | Except.error e => Except.error e
      | Except.ok (blocks1, true) =>
        Except.ok ({ metaData with nChanges := (metaData.nChanges + 1) % 2 ^ 32 }, blocks1, true)
      | Except.ok (_, false) =>
        insertRing state itup fuel { metaData with nStart := metaData.nStart + 1 } blocks
    else Except.ok (metaData, blocks, false)

/-- The function `vaInsert`: `state` is the result of `initStateOptions` for the index,
`fsm` the free space map. The result is the index and the free space map afterwards. -/
def vaInsert {α : Type} [LinearOrderedField α] (state : StateOptions α) (index : IndexRel α)
    (fsm : List Nat) (ht_ctid : ItemPointer) (value : Option (List α)) :
    Except InsertError (IndexRel α × List Nat) :=
  let itup := formTuple state ht_ctid value
  let metaData := index.metaPage
  let first : Except InsertError (Nat × Option (List Page)) :=
    if metaData.nEnd > metaData.nStart then
      let blkno := metaData.notFullPage.getD metaData.nStart 0
      match addItemToBlock state index.blocks itup blkno with
      | Except.error e => Except.error e
      | Except.ok (blocks1, true) => Except.ok (blkno, some blocks1)
      | Except.ok (_, false) => Except.ok (blkno, none)
    else Except.ok (InvalidBlockNumber, none)
  match first with
  | Except.error e => Except.error e
  | Except.ok (_, some blocks1) =>
    Except.ok ({ index with
                 metaPage := { metaData with nChanges := (metaData.nChanges + 1) % 2 ^ 32 }
                 blocks := blocks1 }, fsm)
  | Except.ok (blkno, none) =>
    let meta1 :=
      if metaData.nEnd > metaData.nStart ∧ blkno = metaData.notFullPage.getD metaData.nStart 0
      then { metaData with nStart := metaData.nStart + 1 } else metaData
    match insertRing state itup (meta1.nEnd - meta1.nStart) meta1 index.blocks with
    | Except.error e => Except.error e
    | Except.ok (meta2, blocks2, true) =>
      Except.ok ({ index with metaPage := meta2, blocks := blocks2 }, fsm)
    | Except.ok (meta2, blocks2, false) =>
      let nb := newBuffer blocks2 fsm
      let page := (addItem state (initPage 0 0) itup).1
      Except.ok ({ index with
                   metaPage := { meta2 with nStart := 0, nEnd := 1
                                            notFullPage := nb.1 :: meta2.notFullPage.drop 1 }
                   blocks := nb.2.1.set (nb.1 - VA_HEAD_BLKNO) page }, nb.2.2)

/-- The struct `IndexBulkDeleteResult` of the host. -/
structure IndexBulkDeleteResult where
  num_pages : Nat
  pages_removed : Nat
  estimated_count : Bool
  num_index_tuples : Nat
  tuples_removed : Nat
  pages_deleted : Nat
  pages_free : Nat
deriving Repr, DecidableEq

/-- A zeroed `IndexBulkDeleteResult`, as returned by `palloc0`. -/
def palloc0Stats : IndexBulkDeleteResult :=
  { num_pages := 0, pages_removed := 0, estimated_count := false, num_index_tuples := 0,
    tuples_removed := 0, pages_deleted := 0, pages_free := 0 }

/-- The variables of the tuple loop of `vaBulkDelete` on one page: the slots of the page,
the slot index of `itupPtr`, the `maxoff` of the page and the statistics. -/
structure SweepState where
  data : List Tuple
  itupPtr : Nat
  maxoff : Nat
  stats : IndexBulkDeleteResult

/-- One round of the tuple loop of `vaBulkDelete`, `itup` being the index of the slot
read; a slot outside the modelled content of the page is passed over. -/
def sweepStep (callback : ItemPointer → Bool) (st : SweepState) (itup : Nat) : SweepState :=
  match st.data.get? itup with
  | none => st
  | some t =>
    if callback t.heapPtr then
      { st with stats := { st.stats with tuples_removed := st.stats.tuples_removed + 1 }
                maxoff := st.maxoff - 1 }
    else
      { st with data := if st.itupPtr ≠ itup then st.data.set st.itupPtr t else st.data
                stats := { st.stats with num_index_tuples := st.stats.num_index_tuples + 1 }
                itupPtr := st.itupPtr + 1 }

/-- The body of the block loop of `vaBulkDelete` for a page that is not flagged deleted,
up to the flagging of an emptied page. -/
def bulkDeletePage (callback : ItemPointer → Bool) (page : Page)
    (stats : IndexBulkDeleteResult) : Page × IndexBulkDeleteResult :=
  let st := (List.range page.maxoff).foldl (sweepStep callback)
    { data := page.data, itupPtr := 0, maxoff := page.maxoff, stats := stats }
  let flags :=
    if st.itupPtr ≠ page.maxoff then
      if st.itupPtr = 0 then page.flags ||| VA_DELETED else page.flags
    else page.flags
  ({ maxoff := st.maxoff, flags := flags, data := st.data }, st.stats)

/-- The variables of the block loop of `vaBulkDelete`: the pages already visited, the
local array `notFullPage` up to `countPage`, and the statistics. -/
structure BulkDeleteState where
  blocks : List Page
  notFullPage : List Nat
  stats : IndexBulkDeleteResult

/-- One round of the block loop of `vaBulkDelete`. -/
def bulkDeleteBlock {α : Type} (state : StateOptions α) (callback : ItemPointer → Bool)
    (acc : BulkDeleteState) (page : Page) : BulkDeleteState :=
  let blkno := acc.blocks.length + VA_HEAD_BLKNO
  if isDeleted page then { acc with blocks := acc.blocks ++ [page] }
  else
    let r := bulkDeletePage callback page acc.stats
    if !isDeleted r.1 && decide (GetFreePageSpace state r.1 > state.sizeOfTuple)
        && decide (acc.notFullPage.length < MetaBlockN) then
      { blocks := acc.blocks ++ [r.1], notFullPage := acc.notFullPage ++ [blkno], stats := r.2 }
    else { blocks := acc.blocks ++ [r.1], notFullPage := acc.notFullPage, stats := r.2 }

/-- The function `vaBulkDelete`: `stats` is `none` for a null pointer. The slots of the
ring from `countPage` on, which receive the unset part of the local array, are left
out: no code reads a slot outside `nStart .. nEnd - 1`. -/
def vaBulkDelete {α : Type} (state : StateOptions α) (index : IndexRel α)
    (stats : Option IndexBulkDeleteResult) (callback : ItemPointer → Bool) :
    IndexRel α × IndexBulkDeleteResult :=
  let stats0 := stats.getD palloc0Stats
  let final := index.blocks.foldl (bulkDeleteBlock state callback)
    { blocks := [], notFullPage := [], stats := stats0 }
  let countPage := final.notFullPage.length
  let metaData := index.metaPage
  let metaData1 :=
    if countPage > 0 then
      { metaData with notFullPage := final.notFullPage
                      nChanges := (metaData.nChanges + final.stats.tuples_removed) % 2 ^ 32
                      nStart := 0
                      nEnd := countPage }
    else metaData
  ({ index with metaPage := metaData1, blocks := final.blocks }, final.stats)

/-- The variables of the block loop of `vaVacuumCleanup`. -/
structure CleanupState where
  blkno : Nat
  fsm : List Nat
  totFreePages : Nat
  lastFilledBlock : Nat
  stats : IndexBulkDeleteResult

/-- One round of the block loop of `vaVacuumCleanup`. -/
def cleanupBlock (acc : CleanupState) (page : Page) : CleanupState :=
  if isDeleted page then
    { acc with blkno := acc.blkno + 1, fsm := acc.fsm ++ [acc.blkno]
               totFreePages := acc.totFreePages + 1 }
  else
    { acc with blkno := acc.blkno + 1, lastFilledBlock := acc.blkno
               stats := { acc.stats with
                          num_index_tuples := acc.stats.num_index_tuples + page.maxoff
                          estimated_count := acc.stats.estimated_count || decide (page.maxoff ≠ 0) } }

/-- The function `vaVacuumCleanup`: the index, the free space map and the returned
statistics (`none` for a null pointer). -/
def vaVacuumCleanup {α : Type} (analyze_only : Bool) (index : IndexRel α) (fsm : List Nat)
    (stats : Option IndexBulkDeleteResult) :
    IndexRel α × List Nat × Option IndexBulkDeleteResult :=
  if analyze_only then (index, fsm, stats)
  else
    let stats0 := stats.getD palloc0Stats
    let npages := index.blocks.length + VA_HEAD_BLKNO
    let final := index.blocks.foldl cleanupBlock
      { blkno := VA_HEAD_BLKNO, fsm := fsm, totFreePages := 0, lastFilledBlock := VA_HEAD_BLKNO,
        stats := stats0 }
    let lastBlock := npages - 1
    if lastBlock > final.lastFilledBlock then
      let pages_removed := lastBlock - final.lastFilledBlock
      let blocks1 := index.blocks.take (final.lastFilledBlock + 1 - VA_HEAD_BLKNO)
      ({ index with blocks := blocks1 },
        final.fsm.filter (fun b => decide (b < final.lastFilledBlock + 1)),
        some { final.stats with pages_removed := pages_removed
                                pages_free := final.totFreePages - pages_removed
                                num_pages := final.lastFilledBlock + 1 })
    else
      (index, final.fsm,
        some { final.stats with pages_free := final.totFreePages, num_pages := npages })

/-- The page left by `vaBulkDelete` in the place of `page`: a page flagged deleted is not
touched. -/
def sweptPage (callback : ItemPointer → Bool) (page : Page) : Page :=
  if isDeleted page then page else (bulkDeletePage callback page palloc0Stats).1

/-- The state of the tuple loop after the slots `0 .. i - 1` of a page with the slots
`data0`. -/
def SweepInv (callback : ItemPointer → Bool) (data0 : List Tuple) (m : Nat)
    (stats0 : IndexBulkDeleteResult) (i : Nat) (st : SweepState) : Prop :=
  st.data.length = data0.length ∧
  st.itupPtr = ((data0.take i).filter (fun t => !callback t.heapPtr)).length ∧
  st.data.take st.itupPtr = (data0.take i).filter (fun t => !callback t.heapPtr) ∧
  st.data.drop i = data0.drop i ∧
  st.maxoff + i = m + st.itupPtr ∧
  st.stats = { stats0 with
    tuples_removed := stats0.tuples_removed + (i - st.itupPtr)
    num_index_tuples := stats0.num_index_tuples + st.itupPtr }

/-- A page as the build leaves it: no flag set and every slot written is valid. -/
def pageOK (p : Page) : Prop := p.flags = 0 ∧ p.maxoff = p.data.length

/-- The invariant of the build: the pages written so far are intact and hold exactly
the tuples `T`, in order. -/
def buildInv {α : Type} (bs : BuildState α) (T : List Tuple) : Prop :=
  (∀ p ∈ bs.blocks ++ bs.currentPage.toList, pageOK p) ∧
    liveTuples (bs.blocks ++ bs.currentPage.toList) = T

/-- The value `l_bound` computed for a tuple in the two passes of `bitmapSingleSearch`. -/
def scanLowerBound {α : Type} [LinearOrderedField α] (dpow : α → α → α) (junk : Int → α)
    (scan : IndexScanDesc α) (itup : Tuple) : α :=
  get_bound itup.apx
    (precompute_differences_lbound dpow scan.keyData.sk_argument scan.state.marks
      scan.adamScanClause.nn_minkowski junk)
    (min (scan.state.dimensions : Int) (scan.keyData.sk_argument.length : Int))
    scan.state.partitions scan.adamScanClause.nn_minkowski

/-- The value `u_bound` computed for a tuple in the first pass of `bitmapSingleSearch`. -/
def scanUpperBound {α : Type} [LinearOrderedField α] [FloorRing α] (dpow : α → α → α)
    (junk : Int → α) (scan : IndexScanDesc α) (itup : Tuple) : α :=
  get_bound itup.apx
    (precompute_differences_ubound dpow scan.keyData.sk_argument scan.state.marks
      scan.adamScanClause.nn_minkowski junk)
    (min (scan.state.dimensions : Int) (scan.keyData.sk_argument.length : Int))
    scan.state.partitions scan.adamScanClause.nn_minkowski

/-! ## Weighted distance, normalisation and aggregation
(`adam_retrieval_minkowski.c`, `adam_retrieval_normalization.c`,
`adam_retrieval_aggregation.c`) -/

/-- The function `calculateWeightedMinkowskiL1`: the three iterators advance together. -/
def calculateWeightedMinkowskiL1 {α : Type} [LinearOrderedField α] (f1 f2 weights : List α) :
    α :=
  (List.zip f1 (List.zip f2 weights)).foldl
    (fun transResult p =>
      let diff := p.1 - p.2.1
      transResult + p.2.2 * (if diff < 0 then -diff else diff)) 0

/-- The function `calculateWeightedMinkowskiLn`: `dpow` is applied to the difference
itself. -/
def calculateWeightedMinkowskiLn {α : Type} [LinearOrderedField α] (dpow : α → α → α)
    (f1 f2 weights : List α) (n : α) : α :=
  (List.zip f1 (List.zip f2 weights)).foldl
    (fun transResult p =>
      let diff := p.1 - p.2.1
      let pow := dpow diff n
      transResult + p.2.2 * pow) 0

/-- The function `calculateWeightedMinkowskiLmax`. -/
def calculateWeightedMinkowskiLmax {α : Type} [LinearOrderedField α] (f1 f2 weights : List α) :
    α :=
  (List.zip f1 (List.zip f2 weights)).foldl
    (fun maxResult p =>
      let transResult := p.2.2 * |p.1 - p.2.1|
      if transResult > maxResult then transResult else maxResult) 0

/-- The function `calculateWeightedMinkowski` (for `float8` features). -/
def calculateWeightedMinkowski {α : Type} [LinearOrderedField α] (dpow : α → α → α)
    (f1 f2 : List α) (n : α) (weights : List α) : α :=
  if n - 1 < EPSILON ∧ n > 0 then calculateWeightedMinkowskiL1 f1 f2 weights
  else if n < EPSILON ∧ n > 0 then calculateWeightedMinkowskiLmax f1 f2 weights
  else calculateWeightedMinkowskiLn dpow f1 f2 weights n

/-- The errors of the host functions on `numeric` values. -/
inductive NumericError where
  | divisionByZero
deriving Repr, DecidableEq

/-- The host function `numeric_div` on values that are not NaN, in exact arithmetic. -/
def numeric_div {α : Type} [LinearOrderedField α] (a b : α) : Except NumericError α :=
  if b = 0 then Except.error NumericError.divisionByZero else Except.ok (a / b)

/-- The function `normalizeMinMax` on `numeric` values that are not NaN. -/
def normalizeMinMax {α : Type} [LinearOrderedField α] (distance max_distance : α) :
    Except NumericError α :=
  let first : Except NumericError α :=
    if distance ≥ max_distance then Except.ok 1
    else
      match numeric_div 1 max_distance with
      | Except.error e => Except.error e
      | Except.ok r => Except.ok (r * distance)
  match first with
  | Except.error e => Except.error e
  | Except.ok result =>
    let result1 := if result > 1 then 1 else result
    let result2 := if result1 < 0 then 0 else result1
    Except.ok result2

/-- The function `distance_to_similarity`. -/
def distance_to_similarity {α : Type} [LinearOrderedField α] (distance : α) : α :=
  let distance1 := if distance > 1 then 1 else distance
  let distance2 := if distance1 < 0 then 0 else distance1
  1 - distance2

/-- The function `similarity_to_distance`. -/
def similarity_to_distance {α : Type} [LinearOrderedField α] (similarity : α) : α :=
  let similarity1 := if similarity > 1 then 1 else similarity
  let similarity2 := if similarity1 < 0 then 0 else similarity1
  1 - similarity2

/-- The errors raised by the complement functions. -/
inductive AggregationError where
  | wrongNumberOfParameters
deriving Repr, DecidableEq

/-- The function `sugeno_except` called with the arguments `args` (`PG_NARGS()` is their
number); the division is that of the field, so a zero denominator is outside the
model. -/
def sugeno_except {α : Type} [LinearOrderedField α] (args : List α) :
    Except AggregationError α :=
  match args with
  | [arg0, arg1] =>
    let num := distance_to_similarity arg0
    let param := arg1
    let result := (1 - num) / (1 + param * num)
    Except.ok (similarity_to_distance result)
  | _ => Except.error AggregationError.wrongNumberOfParameters

/-! ## Data for the examples -/

/-- A stand-in for the host function `dpow` on rationals, exact for exponents that are
natural numbers (the exponent is cut to its integer part otherwise). -/
def qpow (x s : ℚ) : ℚ := x ^ (Nat.floor s)

/-- The marks `0, 1, ..., 63` of one dimension. -/
def unitMarks : List ℚ := List.map (fun (k : Nat) => (k : ℚ)) (List.range 64)

/-- A one-dimensional index page over `unitMarks` holding the approximations of the
vectors `(11)`, `(1)` and `(3)` with the heap TIDs 101, 102 and 103. -/
def demoBlocks : List Page :=
  [ { maxoff := 3, flags := 0,
      data := [formTuple (initStateOptions [unitMarks]) 101 (some [11]),
               formTuple (initStateOptions [unitMarks]) 102 (some [1]),
               formTuple (initStateOptions [unitMarks]) 103 (some [3])] } ]

/-- A scan of `demoBlocks` for the `k` nearest neighbours of the query `(0)` under the
norm `s`. -/
def demoScan (k : Int) (s : ℚ) : IndexScanDesc ℚ :=
  mkScan { metaPage := initMetabuffer, blocks := demoBlocks, reltuples := 3 } [unitMarks]
    { check_tid := false, nn_limit := k, nn_minkowski := s } 1
    { isnull := false, sk_argument := [0] }

/-- A scan without limit of `demoBlocks` over a meta page with the given `nChanges`, for
an index of `reltuples` tuples. -/
def staleScan (nChanges : Nat) (reltuples : ℚ) : IndexScanDesc ℚ :=
  mkScan { metaPage := { initMetabuffer with nChanges := nChanges }, blocks := demoBlocks,
           reltuples := reltuples } [unitMarks]
    { check_tid := false, nn_limit := 0, nn_minkowski := 2 } 1
    { isnull := false, sk_argument := [0] }

/-- A histogram of one dimension for 630 rows: 8 rows in cell 0, 2 rows in cell 1 and
620 rows in cell 2. -/
def demoHist : Nat → Int :=
  fun i => if i = 0 then 8 else if i = 1 then 2 else if i = 2 then 620 else 0

/-- The index over `demoBlocks` as the build leaves it. -/
def demoIndex : IndexRel ℚ :=
  { metaPage := initMetabuffer, blocks := demoBlocks, reltuples := 3 }

/-- A heap of 1000 tuples with the TIDs 0 to 999, each with the one-dimensional
vector `(1)`. -/
def heap1000 : List (ItemPointer × Option (List ℚ)) :=
  List.map (fun (k : Nat) => (k, some [(1 : ℚ)])) (List.range 1000)

/-- A deletion callback that reports every other tuple of `heap1000` as dead: those with
an even TID. -/
def everyOther (tid : ItemPointer) : Bool := tid % 2 == 0

theorem unitMarks_length : unitMarks.length = 64 := by
  simp only [unitMarks, List.length_map, List.length_range]

theorem unitMarks_rows : ∀ r ∈ [unitMarks], r.length = 64 := by
  intro r hr
  rw [List.mem_singleton] at hr
  rw [hr, unitMarks_length]

theorem unitMarks_get (c : Nat) (hc : c < 64) : unitMarks.get? c = some (c : ℚ) := by
  unfold unitMarks
  rw [List.get?_eq_getElem?, List.getElem?_map, List.getElem?_range hc]
  rfl

theorem qpow_one (x : ℚ) : qpow x 1 = x := by
  simp [qpow]

theorem unitMarks_sorted : unitMarks.Sorted (fun a b => a ≤ b) := by
  decide

/-! ### Priority queue -/

/-- C1 (violated by the code): with capacity 2, after inserting the keys 5, 1, 3 one by
one the slots `0 .. currentSize - 1` hold 5, 1, which are neither the two smallest keys
(1, 3) nor in ascending order, because `insertIntoQueue` sorts the slots counted before
the increment of `currentSize`. -/
theorem insertIntoQueue_keeps_unsorted_slots :
    contents (insertAll btfloat8cmp (createQueue 2 (0 : ℚ)) [5, 1, 3]) = [5, 1] ∧
    smallest 2 [(5 : ℚ), 1, 3] = [1, 3] := by
  decide

/-! ### Approximation codec -/

theorem scanMarks_all {α : Type} [LinearOrderedField α] (f : α) :
    ∀ (l : List α) (j : Int), (∀ m ∈ l, m < f) → scanMarks f l j = j + l.length := by
  intro l
  induction l with
  | nil => intro j _; simp [scanMarks]
  | cons m tl ih =>
    intro j h
    have hm : m < f := h m (List.mem_cons_self _ _)
    simp only [scanMarks, not_not.mpr hm, if_false]
    rw [ih (j + 1) (fun x hx => h x (List.mem_cons_of_mem _ hx))]
    simp only [List.length_cons]
    push_cast
    ring

theorem scanMarks_stop {α : Type} [LinearOrderedField α] (f : α) :
    ∀ (l : List α) (j : Int) (k : Nat), k < l.length → (∀ i < k, l.getD i 0 < f) →
      ¬ (l.getD k 0 < f) → scanMarks f l j = j + k - 1 := by
  intro l
  induction l with
  | nil => intro j k hk; simp at hk
  | cons m tl ih =>
    intro j k hk hlt hge
    cases k with
    | zero =>
      simp only [List.getD_cons_zero] at hge
      simp [scanMarks, hge]
    | succ k' =>
      have hm : m < f := by simpa using hlt 0 (Nat.succ_pos _)
      simp only [scanMarks, not_not.mpr hm, if_false]
      rw [ih (j + 1) k' (by simpa using hk)
        (fun i hi => by simpa using hlt (i + 1) (Nat.succ_lt_succ hi))
        (by simpa using hge)]
      push_cast
      ring

theorem setBits_of_nonneg (j : Nat) (hj : j ≤ 255) : setBits (j : Int) = j := by
  have h1 : ¬ ((j : Int) < 0) := by omega
  have h2 : ¬ ((j : Int) > 255) := by omega
  simp [setBits, h1, h2]

theorem cellOf_all {α : Type} [LinearOrderedField α] (f : α) (l : List α)
    (hlen : l.length ≤ 255) (h : ∀ m ∈ l, m < f) : cellOf f l = l.length := by
  unfold cellOf
  rw [scanMarks_all f l 0 h, zero_add, setBits_of_nonneg _ hlen]

theorem cellOf_stop {α : Type} [LinearOrderedField α] (f : α) (l : List α) (k : Nat)
    (hk : k < l.length) (hlen : l.length ≤ 255) (hlt : ∀ i < k, l.getD i 0 < f)
    (hge : ¬ (l.getD k 0 < f)) : cellOf f l = k - 1 := by
  unfold cellOf
  rw [scanMarks_stop f l 0 k hk hlt hge]
  cases k with
  | zero => simp [setBits]
  | succ k' =>
    have : (0 : Int) + ((k' + 1 : Nat) : Int) - 1 = (k' : Int) := by push_cast; ring
    rw [this, setBits_of_nonneg _ (by omega)]
    rfl

theorem set_bitstring_get {α : Type} [LinearOrderedField α] :
    ∀ (f : List α) (marks : List (List α)) (result : List Nat) (d : Nat) (F : α)
      (M : List α), f.get? d = some F → marks.get? d = some M → d < result.length →
      (set_bitstring f marks result).getD d 0 = cellOf F M := by
  intro f
  induction f with
  | nil => intro marks result d F M h; simp at h
  | cons f0 fs ih =>
    intro marks result d F M hf hm hr
    cases marks with
    | nil => simp at hm
    | cons m0 ms =>
      cases result with
      | nil => simp at hr
      | cons r0 rs =>
        cases d with
        | zero =>
          simp only [List.get?_cons_zero, Option.some.injEq] at hf hm
          subst hf hm
          simp [set_bitstring]
        | succ d' =>
          simp only [List.get?_cons_succ] at hf hm
          simp only [set_bitstring, List.getD_cons_succ]
          exact ih ms rs d' F M hf hm (by simpa using hr)

/-- C4 (counterexample): for the marks 0, 1, ..., 63 and the component 5, which equals
the mark of index 5, `set_bitstring` stores cell 4: not the largest `p` with
`M[p] <= F` (index 5 qualifies), and `F < M[apx + 1]` fails. -/
theorem set_bitstring_component_on_mark :
    set_bitstring [(5 : ℚ)] [unitMarks] [0] = [4] ∧ unitMarks.getD 5 0 ≤ (5 : ℚ) ∧
      ¬ ((5 : ℚ) < unitMarks.getD (4 + 1) 0) := by
  decide

/-- C4 (amended): for a non-decreasing row `M` of 64 marks and a component `F`,
`set_bitstring` stores 0 when `F <= M[0]`, and when `M[0] < F <= M[63]` it stores the
largest `p` with `M[p] < F` (strictly); this cell is at most 62 and satisfies
`M[apx] < F <= M[apx + 1]`. -/
theorem set_bitstring_cell_strict {α : Type} [LinearOrderedField α]
    (f : List α) (marks : List (List α)) (result : List Nat) (d : Nat) (F : α) (M : List α)
    (hf : f.get? d = some F) (hm : marks.get? d = some M) (hr : d < result.length)
    (hlen : M.length = 64) (hM : M.Sorted (fun a b => a ≤ b)) :
    (F ≤ M.getD 0 0 → (set_bitstring f marks result).getD d 0 = 0) ∧
    (M.getD 0 0 < F → F ≤ M.getD 63 0 →
      (set_bitstring f marks result).getD d 0 ≤ 62 ∧
      M.getD ((set_bitstring f marks result).getD d 0) 0 < F ∧
      F ≤ M.getD ((set_bitstring f marks result).getD d 0 + 1) 0 ∧
      ∀ p, p ≤ 63 → M.getD p 0 < F → p ≤ (set_bitstring f marks result).getD d 0) := by
  rw [set_bitstring_get f marks result d F M hf hm hr]
  constructor
  · intro h0
    rw [cellOf_stop F M 0 (by omega) (by omega) (fun i hi => absurd hi (Nat.not_lt_zero i))
      (not_lt.mpr h0)]
  · intro h0 h63
    have hex : ∃ k, k < 64 ∧ ¬ (M.getD k 0 < F) := ⟨63, by omega, not_lt.mpr h63⟩
    classical
    have hk := Nat.find_spec hex
    have hmin := fun i (hi : i < Nat.find hex) => Nat.find_min hex hi
    generalize Nat.find hex = k at hk hmin
    have hlt : ∀ i < k, M.getD i 0 < F := by
      intro i hi
      by_contra hcon
      exact hmin i hi ⟨by omega, hcon⟩
    have hk0 : k ≠ 0 := by
      intro h; rw [h] at hk; exact hk.2 h0
    rw [cellOf_stop F M k (by omega) (by omega) hlt hk.2]
    refine ⟨by omega, hlt _ (by omega), ?_, ?_⟩
    · have : k - 1 + 1 = k := by omega
      rw [this]
      exact not_lt.mp hk.2
    · intro p hp hpF
      by_contra hcon
      have hkp : k ≤ p := by omega
      have hle : M.getD k 0 ≤ M.getD p 0 := by
        rw [List.getD_eq_getElem _ _ (show k < M.length by omega),
          List.getD_eq_getElem _ _ (show p < M.length by omega)]
        exact hM.rel_get_of_le (a := ⟨k, by omega⟩) (b := ⟨p, by omega⟩) hkp
      exact hk.2 (lt_of_le_of_lt hle hpF)

/-- C4 (amended), at the marks 0, 1, ..., 63 and the component 5. -/
theorem set_bitstring_cell_strict_witness :
    (set_bitstring [(5 : ℚ)] [unitMarks] [0]).getD 0 0 ≤ 62 ∧
    unitMarks.getD ((set_bitstring [(5 : ℚ)] [unitMarks] [0]).getD 0 0) 0 < 5 ∧
    (5 : ℚ) ≤ unitMarks.getD ((set_bitstring [(5 : ℚ)] [unitMarks] [0]).getD 0 0 + 1) 0 ∧
    ∀ p, p ≤ 63 → unitMarks.getD p 0 < (5 : ℚ) →
      p ≤ (set_bitstring [(5 : ℚ)] [unitMarks] [0]).getD 0 0 :=
  (set_bitstring_cell_strict [5] [unitMarks] [0] 0 5 unitMarks rfl rfl (by decide)
    unitMarks_length unitMarks_sorted).2 (by decide) (by decide)

/-- C5 (counterexample): for the marks 0, 1, ..., 63 and the component 100, larger than
the last mark, `set_bitstring` writes the byte 64, which exceeds `P - 1 = 62`. -/
theorem set_bitstring_beyond_last_mark :
    set_bitstring [(100 : ℚ)] [unitMarks] [0] = [64] ∧ ¬ (64 ≤ MAX_PARTITIONS - 1) := by
  decide

/-- C5 (amended): for a row `M` of 64 marks and any component `F`, the byte written by
`set_bitstring` is at most 64 (the number of marks); it is at most `P - 1 = 62` whenever
some mark is not below `F` (in particular when `F` is at most the last mark), and it is
64 when `F` is larger than every mark. -/
theorem set_bitstring_byte_le_marks {α : Type} [LinearOrderedField α]
    (f : List α) (marks : List (List α)) (result : List Nat) (d : Nat) (F : α) (M : List α)
    (hf : f.get? d = some F) (hm : marks.get? d = some M) (hr : d < result.length)
    (hlen : M.length = 64) :
    (set_bitstring f marks result).getD d 0 ≤ MAX_MARKS ∧
    ((∃ m ∈ M, ¬ (m < F)) → (set_bitstring f marks result).getD d 0 ≤ MAX_PARTITIONS - 1) ∧
    ((∀ m ∈ M, m < F) → (set_bitstring f marks result).getD d 0 = MAX_MARKS) := by
  rw [set_bitstring_get f marks result d F M hf hm hr]
  have hall : (∀ m ∈ M, m < F) → cellOf F M = MAX_MARKS := by
    intro h
    rw [cellOf_all F M (by omega) h, hlen]
    rfl
  have hsome : (∃ m ∈ M, ¬ (m < F)) → cellOf F M ≤ MAX_PARTITIONS - 1 := by
    rintro ⟨m, hmM, hmF⟩
    obtain ⟨i, hi, hget⟩ := List.getElem_of_mem hmM
    have hex : ∃ k, k < 64 ∧ ¬ (M.getD k 0 < F) := by
      refine ⟨i, by omega, ?_⟩
      rw [List.getD_eq_getElem _ _ hi, hget]
      exact hmF
    classical
    have hk := Nat.find_spec hex
    have hmin := fun i (hi : i < Nat.find hex) => Nat.find_min hex hi
    generalize Nat.find hex = k at hk hmin
    have hlt : ∀ i < k, M.getD i 0 < F := by
      intro i hi
      by_contra hcon
      exact hmin i hi ⟨by omega, hcon⟩
    rw [cellOf_stop F M k (by omega) (by omega) hlt hk.2]
    have : MAX_PARTITIONS - 1 = 62 := by decide
    omega
  refine ⟨?_, hsome, hall⟩
  by_cases h : ∀ m ∈ M, m < F
  · rw [hall h]
  · push_neg at h
    obtain ⟨m, hmM, hmF⟩ := h
    have := hsome ⟨m, hmM, not_lt.mpr hmF⟩
    have h1 : MAX_PARTITIONS - 1 = 62 := by decide
    have h2 : MAX_MARKS = 64 := by decide
    omega

/-- C5 (amended), at the marks 0, 1, ..., 63 and the component 100. -/
theorem set_bitstring_byte_le_marks_witness :
    (set_bitstring [(100 : ℚ)] [unitMarks] [0]).getD 0 0 ≤ MAX_MARKS ∧
    ((∃ m ∈ unitMarks, ¬ (m < (100 : ℚ))) →
      (set_bitstring [(100 : ℚ)] [unitMarks] [0]).getD 0 0 ≤ MAX_PARTITIONS - 1) ∧
    ((∀ m ∈ unitMarks, m < (100 : ℚ)) →
      (set_bitstring [(100 : ℚ)] [unitMarks] [0]).getD 0 0 = MAX_MARKS) :=
  set_bitstring_byte_le_marks [100] [unitMarks] [0] 0 100 unitMarks rfl rfl (by decide)
    unitMarks_length

/-! ### Tables of partial distances -/

theorem rowLoop_frame {α : Type} (entry : α → α → α) (base : Int) :
    ∀ (marks : List α) (i : Int) (results : Int → α) (k : Int),
      (k < base + i ∨ base + i + ((marks.length : Int) - 1) ≤ k) →
      rowLoop entry base marks i results k = results k := by
  intro marks
  induction marks with
  | nil => intro i results k _; rfl
  | cons m tl ih =>
    intro i results k hk
    cases tl with
    | nil => rfl
    | cons mp1 rest =>
      simp only [rowLoop]
      rw [ih (i + 1) _ k]
      · have hne : k ≠ base + i := by
          rcases hk with h | h
          · omega
          · simp only [List.length_cons] at h
            push_cast at h
            omega
        simp [Function.update, hne]
      · rcases hk with h | h
        · left; omega
        · right
          simp only [List.length_cons] at h ⊢
          push_cast at h ⊢
          omega

theorem rowLoop_get {α : Type} (entry : α → α → α) (base : Int) :
    ∀ (marks : List α) (i : Int) (results : Int → α) (n : Nat) (m mp1 : α),
      marks.get? n = some m → marks.get? (n + 1) = some mp1 →
      rowLoop entry base marks i results (base + i + n) = entry m mp1 := by
  intro marks
  induction marks with
  | nil => intro i results n m mp1 h; simp at h
  | cons m0 tl ih =>
    intro i results n m mp1 h1 h2
    cases tl with
    | nil => simp at h2
    | cons m1 rest =>
      simp only [rowLoop]
      cases n with
      | zero =>
        simp only [List.get?_cons_zero, Option.some.injEq] at h1
        simp only [zero_add, List.get?_cons_succ, List.get?_cons_zero, Option.some.injEq] at h2
        subst h1 h2
        have h0 : base + i + ((0 : Nat) : Int) = base + i := by omega
        rw [h0, rowLoop_frame entry base _ _ _ _ (Or.inl (by omega))]
        exact Function.update_same _ _ _
      | succ n' =>
        simp only [List.get?_cons_succ] at h1 h2
        have := ih (i + 1) (Function.update results (base + i) (entry m0 m1)) n' m mp1 h1 h2
        rw [← this]
        congr 1
        push_cast
        ring

theorem tableLoop_frame {α : Type} (entry : α → α → α → α) (n : Nat) (hn : 1 ≤ n) :
    ∀ (fs : List α) (ms : List (List α)) (j : Int) (results : Int → α) (k : Int),
      (∀ row ∈ ms, row.length = n) → k < j * n →
      tableLoop entry fs ms j results k = results k := by
  intro fs
  induction fs with
  | nil => intro ms j results k _ _; simp [tableLoop]
  | cons f fs ih =>
    intro ms j results k hrows hk
    cases ms with
    | nil => simp [tableLoop]
    | cons row ms =>
      have hlen : row.length = n := hrows row (List.mem_cons_self _ _)
      simp only [tableLoop, hlen]
      rw [ih ms (j + 1) _ k (fun r hr => hrows r (List.mem_cons_of_mem _ hr))
        (by have : (0 : Int) ≤ n := Int.natCast_nonneg n
            linarith)]
      have hne : k ≠ j * (n : Int) + n - 1 := by
        have : (1 : Int) ≤ n := by exact_mod_cast hn
        omega
      rw [Function.update_noteq hne]
      exact rowLoop_frame _ _ _ _ _ _ (Or.inl (by omega))

theorem tableLoop_get {α : Type} (entry : α → α → α → α) (n : Nat) :
    ∀ (fs : List α) (ms : List (List α)) (j : Int) (results : Int → α) (d i : Nat)
      (f : α) (row : List α) (m mp1 : α),
      (∀ r ∈ ms, r.length = n) → fs.get? d = some f → ms.get? d = some row →
      row.get? i = some m → row.get? (i + 1) = some mp1 →
      tableLoop entry fs ms j results ((j + d) * n + i) = entry f m mp1 := by
  intro fs
  induction fs with
  | nil => intro ms j results d i f row m mp1 _ h; simp at h
  | cons f0 fs ih =>
    intro ms j results d i f row m mp1 hrows hf hrow hm hmp1
    cases ms with
    | nil => simp at hrow
    | cons row0 ms =>
      have hlen0 : row0.length = n := hrows row0 (List.mem_cons_self _ _)
      have hrows1 : ∀ r ∈ ms, r.length = n := fun r hr => hrows r (List.mem_cons_of_mem _ hr)
      have hin : i + 1 < n := by
        have h1 : i + 1 < row.length := by
          rcases Nat.lt_or_ge (i + 1) row.length with h | h
          · exact h
          · rw [List.get?_eq_none.mpr h] at hmp1; cases hmp1
        have h2 : row.length = n := hrows row (List.get?_mem hrow)
        omega
      simp only [tableLoop, hlen0]
      cases d with
      | zero =>
        simp only [List.get?_cons_zero, Option.some.injEq] at hf hrow
        subst hf hrow
        rw [tableLoop_frame entry n (by omega) fs ms (j + 1) _ _ hrows1
          (by push_cast; have : (i : Int) + 1 < n := by exact_mod_cast hin
              nlinarith)]
        have hne : (j + ((0 : Nat) : Int)) * (n : Int) + i ≠ j * (n : Int) + n - 1 := by
          have : (i : Int) + 1 < n := by exact_mod_cast hin
          push_cast
          nlinarith
        rw [Function.update_noteq hne]
        have := rowLoop_get (entry f0) (j * (n : Int)) row0 0 results i m mp1 hm hmp1
        rw [← this]
        congr 1
        push_cast
        ring
      | succ d' =>
        simp only [List.get?_cons_succ] at hf hrow
        have := ih ms (j + 1) (Function.update
          (rowLoop (entry f0) (j * (n : Int)) row0 0 results) (j * (n : Int) + n - 1)
          (rowLoop (entry f0) (j * (n : Int)) row0 0 results (j * (n : Int) - 2)))
          d' i f row m mp1 hrows1 hf hrow hm hmp1
        rw [← this]
        congr 1
        push_cast
        ring

/-! ### Limited scan -/

theorem firstPass_congr {α : Type} [LinearOrderedField α] [Inhabited α]
    (lb ub lb1 ub1 : Tuple → α) (q : PriorityQueue α) (blocks : List Page)
    (h : ∀ t ∈ liveTuples blocks, lb t = lb1 t ∧ ub t = ub1 t) :
    firstPass lb ub q blocks = firstPass lb1 ub1 q blocks := by
  unfold firstPass
  apply List.foldl_ext
  intro a b hb
  simp only [firstPassTuple, (h b hb).1, (h b hb).2]

theorem secondPass_congr {α : Type} [LinearOrderedField α] [Inhabited α]
    (lb lb1 : Tuple → α) (q : PriorityQueue α) (blocks : List Page)
    (h : ∀ t ∈ liveTuples blocks, lb t = lb1 t) :
    secondPass lb q blocks = secondPass lb1 q blocks := by
  unfold secondPass
  apply List.filter_congr
  intro t ht
  rw [h t ht]

theorem unit_lbound (junk : Int → ℚ) (c : Nat) (hc : c ≤ 62) :
    get_bound [c] (precompute_differences_lbound qpow [0] [unitMarks] 1 junk) 1 64 1
      = (c : ℚ) := by
  have hidx : boundIndex [c] 64 0 = ((0 : Int) + (0 : Nat)) * (64 : Nat) + c := by
    simp only [boundIndex, List.getD_cons_zero]
    have : ((c : Nat) : Int) ≤ 62 := by exact_mod_cast hc
    rw [min_eq_left (by omega)]
    simp
  have hnorm : ((1 : ℚ) < 100 ∧ (1 : ℚ) ≠ MINKOWSKI_MAX_NORM) := by
    unfold MINKOWSKI_MAX_NORM; constructor <;> norm_num
  have hmax : ¬ ((1 : ℚ) = MINKOWSKI_MAX_NORM) := hnorm.2
  simp only [get_bound, if_pos hnorm, precompute_differences_lbound, if_neg hmax,
    precompute_differences_lbound_lnorm]
  have hr : List.range (Int.toNat 1) = [0] := by decide
  rw [hr]
  simp only [List.foldl_cons, List.foldl_nil, zero_add]
  rw [hidx, tableLoop_get (lboundEntry qpow 1) 64 [0] [unitMarks] 0 junk 0 c 0 unitMarks
    (c : ℚ) ((c + 1 : Nat) : ℚ) unitMarks_rows rfl rfl
    (unitMarks_get c (by omega)) (unitMarks_get (c + 1) (by omega))]
  unfold lboundEntry
  have h0 : (0 : ℚ) ≤ c := Nat.cast_nonneg c
  by_cases h : (0 : ℚ) < c
  · simp [h, qpow_one]
  · have hc0 : (c : ℚ) = 0 := le_antisymm (not_lt.mp h) h0
    have : ¬ ((0 : ℚ) > ((c + 1 : Nat) : ℚ)) := by
      push_cast; rw [hc0]; norm_num
    simp [h, this, hc0]

theorem unit_ubound (junk : Int → ℚ) (c : Nat) (hc : c ≤ 62) :
    get_bound [c] (precompute_differences_ubound qpow [0] [unitMarks] 1 junk) 1 64 1
      = ((c + 1 : Nat) : ℚ) := by
  have hidx : boundIndex [c] 64 0 = ((0 : Int) + (0 : Nat)) * (64 : Nat) + c := by
    simp only [boundIndex, List.getD_cons_zero]
    have : ((c : Nat) : Int) ≤ 62 := by exact_mod_cast hc
    rw [min_eq_left (by omega)]
    simp
  have hnorm : ((1 : ℚ) < 100 ∧ (1 : ℚ) ≠ MINKOWSKI_MAX_NORM) := by
    unfold MINKOWSKI_MAX_NORM; constructor <;> norm_num
  have hmax : ¬ ((1 : ℚ) = MINKOWSKI_MAX_NORM) := hnorm.2
  simp only [get_bound, if_pos hnorm, precompute_differences_ubound, if_neg hmax,
    precompute_differences_ubound_lnorm]
  have hr : List.range (Int.toNat 1) = [0] := by decide
  rw [hr]
  simp only [List.foldl_cons, List.foldl_nil, zero_add]
  rw [hidx, tableLoop_get (uboundEntry qpow (i4tod_Int32GetDatum 1)) 64 [0] [unitMarks] 0 junk
    0 c 0 unitMarks (c : ℚ) ((c + 1 : Nat) : ℚ) unitMarks_rows rfl rfl
    (unitMarks_get c (by omega)) (unitMarks_get (c + 1) (by omega))]
  have h0 : (0 : ℚ) ≤ c := Nat.cast_nonneg c
  have hle : (0 : ℚ) ≤ ((c : ℚ) + ((c + 1 : Nat) : ℚ)) / 2 := by
    push_cast; linarith
  simp only [uboundEntry, if_pos hle, i4tod_Int32GetDatum, Nat.floor_one, Nat.cast_one,
    qpow_one, sub_zero]

theorem bitmapSingleSearch_limited {α : Type} [LinearOrderedField α] [FloorRing α]
    [Inhabited α] (dpow : α → α → α) (junk : Int → α) (scan : IndexScanDesc α)
    (tbm : List ItemPointer) (lb1 ub1 : Tuple → α)
    (hnorm : normCheckFails scan.adamScanClause.nn_minkowski = false)
    (hkey : (decide (scan.numberOfKeys > 0) && scan.keyData.isnull) = false)
    (hmagic : scan.indexRelation.metaPage.magickNumber = VA_MAGICK_NUMBER)
    (hk : scan.adamScanClause.nn_limit > 0)
    (hb : ∀ t ∈ liveTuples scan.indexRelation.blocks,
      get_bound t.apx
        (precompute_differences_lbound dpow scan.keyData.sk_argument scan.state.marks
          scan.adamScanClause.nn_minkowski junk)
        (min (scan.state.dimensions : Int) (scan.keyData.sk_argument.length : Int))
        scan.state.partitions scan.adamScanClause.nn_minkowski = lb1 t ∧
      get_bound t.apx
        (precompute_differences_ubound dpow scan.keyData.sk_argument scan.state.marks
          scan.adamScanClause.nn_minkowski junk)
        (min (scan.state.dimensions : Int) (scan.keyData.sk_argument.length : Int))
        scan.state.partitions scan.adamScanClause.nn_minkowski = ub1 t) :
    bitmapSingleSearch dpow junk scan tbm =
      Except.ok
        { ntids := (secondPass lb1 (firstPass lb1 ub1
              (createQueue scan.adamScanClause.nn_limit.toNat (junk 0))
              scan.indexRelation.blocks) scan.indexRelation.blocks).length
          tbm := tbm ++ (secondPass lb1 (firstPass lb1 ub1
              (createQueue scan.adamScanClause.nn_limit.toNat (junk 0))
              scan.indexRelation.blocks) scan.indexRelation.blocks).map Tuple.heapPtr
          staleWarning := staleCheck scan.indexRelation.metaPage scan.indexRelation.reltuples } := by
  unfold bitmapSingleSearch
  simp only [hnorm, hkey, hmagic, ne_eq, not_true_eq_false, if_false, if_pos hk, Bool.false_eq_true]
  rw [firstPass_congr _ _ lb1 ub1 _ _ hb, secondPass_congr _ lb1 _ _ (fun t ht => (hb t ht).1)]

/-- C2 (violated by the code): on a one-dimensional index over the marks 0, 1, ..., 63
holding the vectors 11, 1, 3 (TIDs 101, 102, 103; bounds L/U = 10/11, 0/1, 2/3), the scan
for the k = 2 nearest neighbours of the query 0 under the norm 1 emits only TID 102,
although the vector 3 of TID 103 is the second nearest (distance 3 < 11) and its lower
bound 2 is below the second smallest upper bound 3 and below the largest upper bound 11
held in the queue. -/
theorem bitmapSingleSearch_misses_second_neighbour :
    bitmapSingleSearch qpow (fun _ => 0) (demoScan 2 1) [] =
        Except.ok { ntids := 1, tbm := [102], staleWarning := false } ∧
      calculateMinkowski qpow [3] [0] 1 = 3 ∧ calculateMinkowski qpow [11] [0] 1 = 11 := by
  refine ⟨?_, ?_, ?_⟩
  · have hlive : liveTuples demoBlocks = [⟨101, [10]⟩, ⟨102, [0]⟩, ⟨103, [2]⟩] := by decide
    have hst : staleCheck initMetabuffer (3 : ℚ) = false := by
      simp only [staleCheck, initMetabuffer]
      norm_num
    rw [bitmapSingleSearch_limited qpow (fun _ => 0) (demoScan 2 1) []
      (fun t => ((t.apx.headD 0 : Nat) : ℚ)) (fun t => ((t.apx.headD 0 + 1 : Nat) : ℚ))
      (by decide) (by decide) (by decide) (by decide)
      (by
        intro t ht
        have h1 : (min (((demoScan 2 1).state.dimensions : Nat) : Int)
            (((demoScan 2 1).keyData.sk_argument.length : Nat) : Int)) = 1 := by decide
        have h2 : (((demoScan 2 1).state.partitions : Nat) : Int) = 64 := by
          simp [demoScan, mkScan, initStateOptions, unitMarks_length]
        rw [h1, h2]
        have ht1 : t ∈ liveTuples demoBlocks := ht
        rw [hlive] at ht1
        simp only [List.mem_cons, List.mem_singleton, List.not_mem_nil, or_false] at ht1
        rcases ht1 with h | h | h <;> subst h
        · exact ⟨unit_lbound _ 10 (by omega), unit_ubound _ 10 (by omega)⟩
        · exact ⟨unit_lbound _ 0 (by omega), unit_ubound _ 0 (by omega)⟩
        · exact ⟨unit_lbound _ 2 (by omega), unit_ubound _ 2 (by omega)⟩)]
    have hsec : secondPass (fun t => ((t.apx.headD 0 : Nat) : ℚ))
        (firstPass (fun t => ((t.apx.headD 0 : Nat) : ℚ))
          (fun t => ((t.apx.headD 0 + 1 : Nat) : ℚ))
          (createQueue (demoScan 2 1).adamScanClause.nn_limit.toNat 0)
          (demoScan 2 1).indexRelation.blocks) (demoScan 2 1).indexRelation.blocks
        = [⟨102, [0]⟩] := by decide
    rw [hsec]
    simp only [demoScan, mkScan, hst]
    rfl
  · simp [calculateMinkowski, calculateMinkowskiL1, EPSILON]
  · simp [calculateMinkowski, calculateMinkowskiL1, EPSILON]

/-! ### Entries of the two tables -/

/-- C6: for rows of `n` marks, a query component `q[d]`, a cell `p` with marks
`M[d][p] <= M[d][p+1]` and a norm `s` in (0,100), the entry `d * n + p` of the table
built by `precompute_differences_lbound_lnorm` is
`(max(0, M[d][p] - q[d], q[d] - M[d][p+1]))^s`, the power being the host function
`dpow` (which returns 0 for the base 0 and a positive exponent). -/
theorem lbound_entry_formula {α : Type} [LinearOrderedField α] (dpow : α → α → α)
    (q : List α) (marks : List (List α)) (s : α) (junk : Int → α) (n d p : Nat)
    (qd : α) (row : List α) (m mp1 : α)
    (hrows : ∀ r ∈ marks, r.length = n) (hq : q.get? d = some qd)
    (hrow : marks.get? d = some row) (hm : row.get? p = some m)
    (hmp1 : row.get? (p + 1) = some mp1) (hle : m ≤ mp1)
    (hs0 : 0 < s) (hs100 : s < 100) (hzero : dpow 0 s = 0) :
    precompute_differences_lbound_lnorm dpow q marks s junk ((d : Int) * n + p) =
      dpow (max 0 (max (m - qd) (qd - mp1))) s := by
  unfold precompute_differences_lbound_lnorm
  have h := tableLoop_get (lboundEntry dpow s) n q marks 0 junk d p qd row m mp1 hrows hq hrow
    hm hmp1
  rw [zero_add] at h
  rw [h]
  unfold lboundEntry
  by_cases h1 : qd < m
  · rw [if_pos h1]
    congr 1
    rw [max_eq_right (le_max_of_le_left (by linarith)), max_eq_left (by linarith)]
  · rw [if_neg h1]
    by_cases h2 : qd > mp1
    · rw [if_pos h2]
      congr 1
      rw [max_eq_right (le_max_of_le_right (by linarith)), max_eq_right (by linarith)]
    · rw [if_neg h2]
      have : max 0 (max (m - qd) (qd - mp1)) = 0 :=
        max_eq_left (max_le (by linarith [not_lt.mp h1]) (by linarith [not_lt.mp h2]))
      rw [this, hzero]

/-- C6, at the marks 0, 1, ..., 63, the query component 10, the cell 3 and the norm 2:
the entry is `(10 - 4)^2`. -/
theorem lbound_entry_formula_witness :
    precompute_differences_lbound_lnorm qpow [10] [unitMarks] 2 (fun _ => 0)
        (((0 : Nat) : Int) * (64 : Nat) + (3 : Nat)) =
      qpow (max 0 (max (((3 : Nat) : ℚ) - 10) (10 - ((3 + 1 : Nat) : ℚ)))) 2 :=
  lbound_entry_formula qpow [10] [unitMarks] 2 (fun _ => 0) 64 0 3 10 unitMarks
    ((3 : Nat) : ℚ) ((3 + 1 : Nat) : ℚ) unitMarks_rows rfl rfl
    (unitMarks_get 3 (by decide)) (unitMarks_get 4 (by decide))
    (by norm_num) (by norm_num) (by norm_num) (by simp [qpow])

theorem ubound_entry_eq {α : Type} [LinearOrderedField α] [FloorRing α] (dpow : α → α → α)
    (q : List α) (marks : List (List α)) (s : α) (junk : Int → α) (n d p : Nat)
    (qd : α) (row : List α) (m mp1 : α)
    (hrows : ∀ r ∈ marks, r.length = n) (hq : q.get? d = some qd)
    (hrow : marks.get? d = some row) (hm : row.get? p = some m)
    (hmp1 : row.get? (p + 1) = some mp1) :
    precompute_differences_ubound_lnorm dpow q marks s junk ((d : Int) * n + p) =
      uboundEntry dpow ((Nat.floor s : Nat) : α) qd m mp1 := by
  unfold precompute_differences_ubound_lnorm
  have h := tableLoop_get (uboundEntry dpow (i4tod_Int32GetDatum s)) n q marks 0 junk d p qd
    row m mp1 hrows hq hrow hm hmp1
  rw [zero_add] at h
  rw [h]
  rfl

/-- C7 (violated by the code): for the marks 0, 1, ..., 63, the query component 0, the
cell 3 (marks 3 and 4) and the norm `s = 3/2`, the entry of the table built by
`precompute_differences_ubound_lnorm` is `dpow(4, 1)` for every power function `dpow`:
the exponent is the integer part of `s`, while the entry of the lower-bound table for
the query component 10 is `dpow(6, 3/2)` with the exponent `s` itself. -/
theorem ubound_entry_truncates_norm (dpow : ℚ → ℚ → ℚ) (junk : Int → ℚ) :
    precompute_differences_ubound_lnorm dpow [0] [unitMarks] (3 / 2) junk 3 = dpow 4 1 ∧
    precompute_differences_lbound_lnorm dpow [10] [unitMarks] (3 / 2) junk 3
      = dpow 6 (3 / 2) := by
  constructor
  · have h := ubound_entry_eq dpow [0] [unitMarks] (3 / 2) junk 64 0 3 0 unitMarks
      ((3 : Nat) : ℚ) ((3 + 1 : Nat) : ℚ) unitMarks_rows rfl rfl
      (unitMarks_get 3 (by decide)) (unitMarks_get 4 (by decide))
    have hidx : (((0 : Nat) : Int) * ((64 : Nat) : Int) + ((3 : Nat) : Int)) = 3 := by decide
    rw [hidx] at h
    rw [h]
    have hfl : Nat.floor ((3 : ℚ) / 2) = 1 := by
      rw [Nat.floor_eq_iff (by norm_num)]
      constructor <;> norm_num
    have hmid : (0 : ℚ) ≤ (((3 : Nat) : ℚ) + ((3 + 1 : Nat) : ℚ)) / 2 := by norm_num
    simp only [uboundEntry, hfl, if_pos hmid]
    norm_num
  · have h := tableLoop_get (lboundEntry dpow (3 / 2)) 64 [10] [unitMarks] 0 junk 0 3 10
      unitMarks ((3 : Nat) : ℚ) ((3 + 1 : Nat) : ℚ) unitMarks_rows rfl rfl
      (unitMarks_get 3 (by decide)) (unitMarks_get 4 (by decide))
    have hidx : ((0 : Int) + ((0 : Nat) : Int)) * ((64 : Nat) : Int) + ((3 : Nat) : Int) = 3 := by
      decide
    rw [hidx] at h
    unfold precompute_differences_lbound_lnorm
    rw [h]
    have h1 : ¬ ((10 : ℚ) < ((3 : Nat) : ℚ)) := by norm_num
    have h2 : (10 : ℚ) > ((3 + 1 : Nat) : ℚ) := by norm_num
    simp only [lboundEntry, if_neg h1, if_pos h2]
    norm_num

/-! ### The bound of one tuple -/

theorem foldl_add_eq_sum {α β : Type} [LinearOrderedField α] (g : β → α) :
    ∀ (l : List β) (a : α), l.foldl (fun acc x => acc + g x) a = a + (l.map g).sum := by
  intro l
  induction l with
  | nil => intro a; simp
  | cons x tl ih =>
    intro a
    simp only [List.foldl_cons, List.map_cons, List.sum_cons]
    rw [ih]
    ring

theorem foldl_max_eq {α β : Type} [LinearOrderedField α] (g : β → α) :
    ∀ (l : List β) (a : α),
      l.foldl (fun acc x => if acc < g x then g x else acc) a = (l.map g).foldl max a := by
  intro l
  induction l with
  | nil => intro a; rfl
  | cons x tl ih =>
    intro a
    simp only [List.foldl_cons, List.map_cons]
    rw [ih]
    congr 1
    by_cases h : a < g x
    · rw [if_pos h, max_eq_right (le_of_lt h)]
    · rw [if_neg h, max_eq_left (not_lt.mp h)]

theorem get_bound_sum {α : Type} [LinearOrderedField α] (apx : List Nat)
    (differences : Int → α) (dimensions partitions : Int) (norm : α)
    (h : norm < 100 ∧ norm ≠ MINKOWSKI_MAX_NORM) :
    get_bound apx differences dimensions partitions norm =
      ((List.range dimensions.toNat).map
        (fun dim => differences (boundIndex apx partitions dim))).sum := by
  unfold get_bound
  rw [if_pos h, foldl_add_eq_sum, zero_add]

/-- C8 (counterexample): with one dimension, 64 slots per row, the byte `apx[0] = 64`
(as written by `set_bitstring` for a component beyond the last mark) and a table that
holds 1 at offset 64 and 0 elsewhere, `get_bound` returns the entry at offset 63, which
is 0, and not `table[0][apx[0]]`, the entry at offset `0 * 64 + 64`, which is 1. -/
theorem get_bound_clamps_cell :
    get_bound [64] (fun i => if i = 64 then (1 : ℚ) else 0) 1 64 2 = 0 ∧
    (fun i => if i = 64 then (1 : ℚ) else 0) ((0 : Int) * 64 + 64) = 1 := by
  constructor
  · rw [get_bound_sum _ _ _ _ _ (by unfold MINKOWSKI_MAX_NORM; constructor <;> norm_num)]
    have hr : List.range (1 : Int).toNat = [0] := by decide
    have hi : boundIndex [64] 64 0 = 63 := by decide
    rw [hr]
    simp only [List.map_cons, List.map_nil, List.sum_cons, List.sum_nil, hi]
    norm_num
  · norm_num

/-- C8 (amended): `get_bound` reads for every dimension `d < D` the entry
`table[d * partitions + min(apx[d], partitions - 1)]`; it returns the sum of these
entries when the norm is in (0,100), and the maximum of 0 and these entries when the
norm is the sentinel `MINKOWSKI_MAX_NORM`. -/
theorem get_bound_clamped {α : Type} [LinearOrderedField α] (apx : List Nat)
    (differences : Int → α) (dimensions partitions : Int) (norm : α) :
    (0 < norm → norm < 100 →
      get_bound apx differences dimensions partitions norm =
        ((List.range dimensions.toNat).map (fun (d : Nat) =>
          differences ((d : Int) * partitions
            + min ((apx.getD d 0 : Nat) : Int) (partitions - 1)))).sum) ∧
    (norm = MINKOWSKI_MAX_NORM →
      get_bound apx differences dimensions partitions norm =
        ((List.range dimensions.toNat).map (fun (d : Nat) =>
          differences ((d : Int) * partitions
            + min ((apx.getD d 0 : Nat) : Int) (partitions - 1)))).foldl max 0) := by
  constructor
  · intro h0 h100
    have hne : norm ≠ MINKOWSKI_MAX_NORM := by
      unfold MINKOWSKI_MAX_NORM
      intro h
      rw [h] at h0
      linarith
    rw [get_bound_sum _ _ _ _ _ ⟨h100, hne⟩]
    rfl
  · intro hmax
    unfold get_bound
    have h1 : ¬ (norm < 100 ∧ norm ≠ MINKOWSKI_MAX_NORM) := fun h => h.2 hmax
    rw [if_neg h1, if_pos hmax]
    exact foldl_max_eq (fun d => differences (boundIndex apx partitions d)) _ 0

/-- C8 (amended), for two dimensions, 64 slots per row, the cells 64 and 5 and the table
that holds its own offset: under the norm 2 the entries at the offsets 63 and
`64 + 5` are added. -/
theorem get_bound_clamped_witness :
    get_bound [64, 5] (fun i => (i : ℚ)) 2 64 2 =
      ((List.range (2 : Int).toNat).map (fun (d : Nat) =>
        (fun i : Int => (i : ℚ)) ((d : Int) * 64
          + min ((([64, 5] : List Nat).getD d 0 : Nat) : Int) (64 - 1)))).sum :=
  (get_bound_clamped [64, 5] (fun i => (i : ℚ)) 2 64 2).1 (by norm_num) (by norm_num)

/-! ### The norm test of the scans -/

theorem normCheckFails_iff {α : Type} [LinearOrderedField α] (norm : α) :
    normCheckFails norm = true ↔ (norm < 0 ∨ norm > 100) := by
  simp [normCheckFails]

theorem bitmapSingleSearch_norm_error {α : Type} [LinearOrderedField α] [FloorRing α]
    [Inhabited α] (dpow : α → α → α) (junk : Int → α) (scan : IndexScanDesc α)
    (tbm : List ItemPointer) (h : normCheckFails scan.adamScanClause.nn_minkowski = true) :
    bitmapSingleSearch dpow junk scan tbm = Except.error ScanError.notMinkowski := by
  unfold bitmapSingleSearch
  simp only [h, if_true]

theorem bitmapMultiSearch_norm_error {α : Type} [LinearOrderedField α] [FloorRing α]
    [Inhabited α] (dpow : α → α → α) (junk : Int → α) (nentries : Int)
    (scan : IndexScanDesc α) (tbm : List ItemPointer)
    (h : normCheckFails scan.adamScanClause.nn_minkowski = true) :
    bitmapMultiSearch dpow junk nentries scan tbm = Except.error ScanError.notMinkowski := by
  unfold bitmapMultiSearch
  simp only [h, if_true]

/-- C9 (violated by the code): the norm test of the scans rejects the sentinel
`MINKOWSKI_MAX_NORM = -1` of the maximum norm, so a scan of the index over the marks
0, 1, ..., 63 requested with `s = MAX` and `k = 1` raises the error instead of producing
candidates, in `bitmapSingleSearch` and in `bitmapMultiSearch`; the norms 0 and 100 pass
the test. -/
theorem scan_rejects_max_norm (dpow : ℚ → ℚ → ℚ) (junk : Int → ℚ) (nentries : Int)
    (tbm : List ItemPointer) :
    normCheckFails (MINKOWSKI_MAX_NORM : ℚ) = true ∧
    bitmapSingleSearch dpow junk (demoScan 1 MINKOWSKI_MAX_NORM) tbm
      = Except.error ScanError.notMinkowski ∧
    bitmapMultiSearch dpow junk nentries (demoScan 1 MINKOWSKI_MAX_NORM) tbm
      = Except.error ScanError.notMinkowski ∧
    normCheckFails (0 : ℚ) = false ∧ normCheckFails (100 : ℚ) = false := by
  have h : normCheckFails (MINKOWSKI_MAX_NORM : ℚ) = true := by decide
  exact ⟨h, bitmapSingleSearch_norm_error dpow junk _ tbm h,
    bitmapMultiSearch_norm_error dpow junk nentries _ tbm h, by decide, by decide⟩

/-! ### Build followed by a scan without limit -/

theorem liveTuples_append (a b : List Page) :
    liveTuples (a ++ b) = liveTuples a ++ liveTuples b := by
  simp [liveTuples, List.filter_append, List.flatMap_append]

theorem liveTuples_single (p : Page) (hp : pageOK p) : liveTuples [p] = p.data := by
  obtain ⟨hflags, hmax⟩ := hp
  have hdel : isDeleted p = false := by
    unfold isDeleted
    rw [hflags]
    decide
  simp [liveTuples, hdel, pageTuples, hmax]

theorem addItem_ok {α : Type} (state : StateOptions α) (p : Page) (t : Tuple)
    (hp : pageOK p) (h : (addItem state p t).2 ≠ false) :
    pageOK (addItem state p t).1 ∧ (addItem state p t).1.data = p.data ++ [t] := by
  obtain ⟨hflags, hmax⟩ := hp
  unfold addItem at h ⊢
  by_cases hfree : GetFreePageSpace state p < state.sizeOfTuple
  · rw [if_pos hfree] at h
    exact absurd rfl h
  · rw [if_neg hfree]
    have hd : p.data.take p.maxoff ++ [t] ++ p.data.drop (p.maxoff + 1) = p.data ++ [t] := by
      rw [hmax, List.take_length, List.drop_eq_nil_of_le (by omega), List.append_nil]
    refine ⟨⟨hflags, ?_⟩, hd⟩
    show p.maxoff + 1
      = (p.data.take p.maxoff ++ [t] ++ p.data.drop (p.maxoff + 1)).length
    rw [hd, hmax, List.length_append, List.length_singleton]

theorem initPage_ok : pageOK (initPage 0 0) := ⟨rfl, rfl⟩

theorem buildCallback_inv {α : Type} [LinearOrderedField α] (bs bs1 : BuildState α)
    (htup : ItemPointer × Option (List α)) (T : List Tuple) (hinv : buildInv bs T)
    (h : buildCallback bs htup = Except.ok bs1) :
    bs1.blstate = bs.blstate ∧ buildInv bs1 (T ++ [formTuple bs.blstate htup.1 htup.2]) := by
  obtain ⟨hok, hlive⟩ := hinv
  have hfresh : ∀ b : BuildState α,
      (if (addItem bs.blstate (initPage 0 0) (formTuple bs.blstate htup.1 htup.2)).2 = false
        then Except.error BuildError.corrupted
        else Except.ok { bs with blocks := bs.blocks ++ bs.currentPage.toList,
                                 currentPage := some (addItem bs.blstate (initPage 0 0)
                                   (formTuple bs.blstate htup.1 htup.2)).1 }) = Except.ok b →
      b.blstate = bs.blstate ∧ buildInv b (T ++ [formTuple bs.blstate htup.1 htup.2]) := by
    intro b hb
    by_cases hadd : (addItem bs.blstate (initPage 0 0)
        (formTuple bs.blstate htup.1 htup.2)).2 = false
    · rw [if_pos hadd] at hb
      cases hb
    · rw [if_neg hadd] at hb
      injection hb with hb
      subst hb
      obtain ⟨hpok, hdata⟩ := addItem_ok bs.blstate (initPage 0 0)
        (formTuple bs.blstate htup.1 htup.2) initPage_ok hadd
      refine ⟨rfl, ?_, ?_⟩
      · intro p hp
        change p ∈ (bs.blocks ++ bs.currentPage.toList) ++ [_] at hp
        rcases List.mem_append.mp hp with hp | hp
        · exact hok p hp
        · rw [List.mem_singleton.mp hp]; exact hpok
      · change liveTuples ((bs.blocks ++ bs.currentPage.toList) ++ [_]) = _
        rw [liveTuples_append, hlive, liveTuples_single _ hpok, hdata]
        rfl
  unfold buildCallback at h
  cases hcur : bs.currentPage with
  | none =>
    rw [hcur] at h
    simp only at h
    rw [← hcur] at h
    exact hfresh bs1 h
  | some page =>
    rw [hcur] at h
    simp only at h
    by_cases hadd : (addItem bs.blstate page (formTuple bs.blstate htup.1 htup.2)).2 = false
    · rw [if_pos hadd] at h
      rw [← hcur] at h
      exact hfresh bs1 h
    · rw [if_neg hadd] at h
      injection h with h
      subst h
      have hpage : pageOK page := hok page (by simp [hcur])
      obtain ⟨hpok, hdata⟩ := addItem_ok bs.blstate page
        (formTuple bs.blstate htup.1 htup.2) hpage hadd
      refine ⟨rfl, ?_, ?_⟩
      · intro p hp
        change p ∈ bs.blocks ++ [_] at hp
        rcases List.mem_append.mp hp with hp | hp
        · exact hok p (List.mem_append.mpr (Or.inl hp))
        · rw [List.mem_singleton.mp hp]; exact hpok
      · change liveTuples (bs.blocks ++ [_]) = _
        rw [liveTuples_append, liveTuples_single _ hpok, hdata, ← hlive, hcur]
        change _ = liveTuples (bs.blocks ++ [page]) ++ _
        rw [liveTuples_append, liveTuples_single _ hpage, List.append_assoc]

theorem buildHeapScan_inv {α : Type} [LinearOrderedField α] :
    ∀ (heap : List (ItemPointer × Option (List α))) (bs final : BuildState α)
      (T : List Tuple), buildInv bs T → buildHeapScan bs heap = Except.ok final →
      buildInv final (T ++ heap.map (fun h => formTuple bs.blstate h.1 h.2)) := by
  intro heap
  induction heap with
  | nil =>
    intro bs final T hinv h
    simp only [buildHeapScan] at h
    injection h with h
    subst h
    simpa using hinv
  | cons htup rest ih =>
    intro bs final T hinv h
    simp only [buildHeapScan] at h
    cases hcb : buildCallback bs htup with
    | error e => rw [hcb] at h; cases h
    | ok bs1 =>
      rw [hcb] at h
      simp only at h
      obtain ⟨hst, hinv1⟩ := buildCallback_inv bs bs1 htup T hinv hcb
      have := ih bs1 final _ hinv1 h
      rw [hst] at this
      simpa using this

theorem vaBuild_liveTuples {α : Type} [LinearOrderedField α] (marks : List (List α))
    (heap : List (ItemPointer × Option (List α))) (nblocks : Nat) (index : IndexRel α)
    (h : vaBuild nblocks marks heap = Except.ok index) :
    index.metaPage = initMetabuffer ∧ index.reltuples = (heap.length : α) ∧
    liveTuples index.blocks =
      heap.map (fun h => formTuple (initStateOptions marks) h.1 h.2) := by
  unfold vaBuild at h
  by_cases hn : nblocks ≠ 0
  · rw [if_pos hn] at h; cases h
  · rw [if_neg hn] at h
    cases hscan : buildHeapScan (initBuildState marks) heap with
    | error e => rw [hscan] at h; cases h
    | ok final =>
      rw [hscan] at h
      simp only at h
      injection h with h
      subst h
      have hinv0 : buildInv (initBuildState marks) [] := by
        constructor
        · intro p hp; simp [initBuildState] at hp
        · rfl
      have := buildHeapScan_inv heap _ final [] hinv0 hscan
      exact ⟨rfl, rfl, by simpa [initBuildState] using this.2⟩

theorem staleCheck_fresh {α : Type} [LinearOrderedField α] (n : Nat) :
    staleCheck initMetabuffer (n : α) = false := by
  have h1 : ¬ (initMetabuffer.nChanges > 1000) := by decide
  have h2 : ¬ (((initMetabuffer.nChanges : Nat) : α) > (n : α) * (2 / 10)) := by
    have h0 : ((initMetabuffer.nChanges : Nat) : α) = 0 := by
      simp [initMetabuffer]
    rw [h0]
    have : (0 : α) ≤ (n : α) * (2 / 10) :=
      mul_nonneg (Nat.cast_nonneg n) (by norm_num)
    exact not_lt.mpr this
  simp [staleCheck, h1, h2]

/-- Build followed by a scan without limit: when the norm passes the norm test of the
scan and the key is not null, every heap TID is added once, in build order, and the
count is the number of heap tuples. -/
theorem vaBuild_scan_all {α : Type} [LinearOrderedField α] [FloorRing α] [Inhabited α]
    (dpow : α → α → α) (junk : Int → α) (marks : List (List α))
    (heap : List (ItemPointer × Option (List α))) (index : IndexRel α)
    (scan : IndexScanDesc α) (tbm : List ItemPointer)
    (hbuild : vaBuild 0 marks heap = Except.ok index)
    (hrel : scan.indexRelation = index)
    (hlimit : scan.adamScanClause.nn_limit ≤ 0)
    (hnorm : normCheckFails scan.adamScanClause.nn_minkowski = false)
    (hkey : scan.keyData.isnull = false) :
    bitmapSingleSearch dpow junk scan tbm =
      Except.ok { ntids := heap.length, tbm := tbm ++ heap.map Prod.fst,
                  staleWarning := false } := by
  obtain ⟨hmeta, hrt, hlive⟩ := vaBuild_liveTuples marks heap 0 index hbuild
  unfold bitmapSingleSearch
  have hk : ¬ (scan.adamScanClause.nn_limit > 0) := by omega
  have hmagic : scan.indexRelation.metaPage.magickNumber = VA_MAGICK_NUMBER := by
    rw [hrel, hmeta]; rfl
  simp only [hnorm, hkey, hmagic, Bool.and_false, ne_eq, not_true_eq_false, if_false,
    if_neg hk, Bool.false_eq_true]
  rw [hrel, hlive, hmeta, hrt, staleCheck_fresh]
  simp [formTuple]
  intro a b _
  cases b <;> rfl

/-- C10 (violated by the code): the index built by `vaBuild` over the two heap tuples
with the vectors 11 and 1 (TIDs 101 and 102) is scanned without limit (`nn_limit = 0`),
with a non-null key and the valid norm `MAX`: the scan raises the error of the norm test
instead of adding the two TIDs and returning 2. -/
theorem vaBuild_scan_all_rejects_max_norm (dpow : ℚ → ℚ → ℚ) (junk : Int → ℚ) :
    ∃ index : IndexRel ℚ,
      vaBuild 0 [unitMarks] [(101, some [11]), (102, some [1])] = Except.ok index ∧
      bitmapSingleSearch dpow junk
        (mkScan index [unitMarks]
          { check_tid := false, nn_limit := 0, nn_minkowski := MINKOWSKI_MAX_NORM } 1
          { isnull := false, sk_argument := [0] }) [] = Except.error ScanError.notMinkowski ∧
      vaGetBitmap dpow junk 0
        (mkScan index [unitMarks]
          { check_tid := false, nn_limit := 0, nn_minkowski := MINKOWSKI_MAX_NORM } 1
          { isnull := false, sk_argument := [0] }) [] = Except.error ScanError.notMinkowski := by
  refine ⟨_, rfl, ?_, ?_⟩
  · exact bitmapSingleSearch_norm_error dpow junk _ [] (by decide)
  · unfold vaGetBitmap
    simp only [mkScan, Bool.false_and, if_false, Bool.false_eq_true]
    exact bitmapSingleSearch_norm_error dpow junk _ [] (by decide)

/-! ### Lower and upper bound against the distance -/

theorem map_sum_le {α β : Type} [LinearOrderedField α] (f g : β → α) :
    ∀ l : List β, (∀ i ∈ l, f i ≤ g i) → (l.map f).sum ≤ (l.map g).sum := by
  intro l
  induction l with
  | nil => intro _; simp
  | cons x tl ih =>
    intro h
    simp only [List.map_cons, List.sum_cons]
    exact add_le_add (h x (List.mem_cons_self _ _))
      (ih (fun i hi => h i (List.mem_cons_of_mem _ hi)))

theorem zip_eq_map_range {α : Type} [LinearOrderedField α] (v q : List α) (D : Nat)
    (hv : v.length = D) (hq : q.length = D) :
    List.zip v q = (List.range D).map (fun d => (v.getD d 0, q.getD d 0)) := by
  apply List.ext_getElem
  · simp [hv, hq]
  · intro i h1 h2
    have hi : i < D := by simpa using h2
    rw [List.getElem_zip, List.getElem_map, List.getElem_range,
      List.getD_eq_getElem _ _ (by omega), List.getD_eq_getElem _ _ (by omega)]

theorem cell_contains {α : Type} [LinearOrderedField α] (x : α) (r : List α) (n : Nat)
    (hlen : r.length = n) (hn : 2 ≤ n) (hn255 : n ≤ 255) (hsorted : r.Sorted (fun a b => a ≤ b))
    (hlo : r.getD 0 0 ≤ x) (hhi : x ≤ r.getD (n - 1) 0) :
    cellOf x r + 1 < n ∧ r.getD (cellOf x r) 0 ≤ x ∧ x ≤ r.getD (cellOf x r + 1) 0 := by
  have hex : ∃ k, k < n ∧ ¬ (r.getD k 0 < x) := ⟨n - 1, by omega, not_lt.mpr hhi⟩
  classical
  have hk := Nat.find_spec hex
  have hmin := fun i (hi : i < Nat.find hex) => Nat.find_min hex hi
  generalize Nat.find hex = k at hk hmin
  have hlt : ∀ i < k, r.getD i 0 < x := by
    intro i hi
    by_contra hcon
    exact hmin i hi ⟨by omega, hcon⟩
  rw [cellOf_stop x r k (by omega) (by omega) hlt hk.2]
  cases k with
  | zero =>
    refine ⟨by omega, hlo, ?_⟩
    have h01 : r.getD 0 0 ≤ r.getD (0 + 1) 0 := by
      rw [List.getD_eq_getElem _ _ (show 0 < r.length by omega),
        List.getD_eq_getElem _ _ (show 0 + 1 < r.length by omega)]
      exact hsorted.rel_get_of_le (a := ⟨0, by omega⟩) (b := ⟨0 + 1, by omega⟩)
        (by simp [Fin.le_def])
    exact le_trans (not_lt.mp hk.2) h01
  | succ k' =>
    have : k' + 1 - 1 = k' := by omega
    rw [this]
    exact ⟨by omega, le_of_lt (hlt k' (by omega)), not_lt.mp hk.2⟩

theorem lboundEntry_le {α : Type} [LinearOrderedField α] (dpow : α → α → α) (s x y m mp1 : α)
    (hmono : ∀ a b, 0 ≤ a → a ≤ b → dpow a s ≤ dpow b s) (hzero : dpow 0 s = 0)
    (h1 : m ≤ x) (h2 : x ≤ mp1) : lboundEntry dpow s y m mp1 ≤ dpow |x - y| s := by
  unfold lboundEntry
  by_cases hy : y < m
  · rw [if_pos hy]
    exact hmono _ _ (by linarith) (le_trans (by linarith) (le_abs_self _))
  · rw [if_neg hy]
    by_cases hy2 : y > mp1
    · rw [if_pos hy2]
      exact hmono _ _ (by linarith) (le_trans (by linarith) (neg_le_abs _))
    · rw [if_neg hy2, ← hzero]
      exact hmono _ _ (le_refl _) (abs_nonneg _)

theorem le_uboundEntry {α : Type} [LinearOrderedField α] (dpow : α → α → α) (s x y m mp1 : α)
    (hmono : ∀ a b, 0 ≤ a → a ≤ b → dpow a s ≤ dpow b s)
    (h1 : m ≤ x) (h2 : x ≤ mp1) : dpow |x - y| s ≤ uboundEntry dpow s y m mp1 := by
  unfold uboundEntry
  by_cases hy : y ≤ (m + mp1) / 2
  · simp only [if_pos hy]
    apply hmono _ _ (abs_nonneg _)
    rw [abs_le]
    constructor <;> linarith
  · simp only [if_neg hy]
    have hy1 : (m + mp1) / 2 < y := not_le.mp hy
    apply hmono _ _ (abs_nonneg _)
    rw [abs_le]
    constructor <;> linarith

theorem calculateMinkowski_natural {α : Type} [LinearOrderedField α] (dpow : α → α → α)
    (v q : List α) (k : Nat) (hk : 1 ≤ k) (hone : ∀ x, 0 ≤ x → dpow x 1 = x) :
    calculateMinkowski dpow v q (k : α) =
      ((List.zip v q).map (fun p => dpow |p.1 - p.2| (k : α))).sum := by
  unfold calculateMinkowski
  have hk1 : (1 : α) ≤ k := by exact_mod_cast hk
  by_cases h : (k : α) - 1 < EPSILON ∧ (k : α) > 0
  · rw [if_pos h]
    have hk2 : k = 1 := by
      by_contra hne
      have : 2 ≤ k := by omega
      have h2 : (2 : α) ≤ k := by exact_mod_cast this
      have h3 := h.1
      unfold EPSILON at h3
      linarith [show (1 : α) / 1000 < 1 by norm_num]
    subst hk2
    unfold calculateMinkowskiL1
    rw [foldl_add_eq_sum, zero_add]
    congr 1
    apply List.map_congr_left
    intro p _
    rw [Nat.cast_one, hone _ (abs_nonneg _)]
  · rw [if_neg h]
    have h2 : ¬ ((k : α) < EPSILON ∧ (k : α) > 0) := by
      intro hc
      have := hc.1
      unfold EPSILON at this
      linarith [show (1 : α) / 1000 < 1 by norm_num]
    rw [if_neg h2]
    unfold calculateMinkowskiLn
    rw [foldl_add_eq_sum, zero_add]

theorem get?_eq_some_getD {β : Type} (l : List β) (i : Nat) (h : i < l.length) (d : β) :
    l.get? i = some (l.getD i d) := by
  rw [List.getD_eq_getElem _ _ h, List.get?_eq_getElem?, List.getElem?_eq_getElem h]

theorem natCast_norm_is_lnorm {α : Type} [LinearOrderedField α] (k : Nat) (hk100 : k < 100) :
    ((k : α) < 100 ∧ (k : α) ≠ MINKOWSKI_MAX_NORM) := by
  constructor
  · exact_mod_cast hk100
  · unfold MINKOWSKI_MAX_NORM
    intro h
    have : (0 : α) ≤ k := Nat.cast_nonneg k
    linarith

/-- C3 (counterexample): for the non-decreasing marks 0, 1, ..., 63, the query `(-5)`, the
indexed vector `(-5)` (below the first mark, stored in cell 0) and the norm 2, the lower
bound is 25 while the distance is 0. -/
theorem lower_bound_exceeds_distance :
    unitMarks.Sorted (fun a b => a ≤ b) ∧
    get_bound (set_bitstring [(-5 : ℚ)] [unitMarks] [0])
      (precompute_differences_lbound qpow [-5] [unitMarks] 2 (fun _ => 0)) 1 64 2 = 25 ∧
    calculateMinkowski qpow [(-5 : ℚ)] [-5] 2 = 0 ∧
    ¬ (get_bound (set_bitstring [(-5 : ℚ)] [unitMarks] [0])
        (precompute_differences_lbound qpow [-5] [unitMarks] 2 (fun _ => 0)) 1 64 2
      ≤ calculateMinkowski qpow [(-5 : ℚ)] [-5] 2) := by
  suffices h : get_bound (set_bitstring [(-5 : ℚ)] [unitMarks] [0])
        (precompute_differences_lbound qpow [-5] [unitMarks] 2 (fun _ => 0)) 1 64 2 = 25 ∧
      calculateMinkowski qpow [(-5 : ℚ)] [-5] 2 = 0 by
    refine ⟨unitMarks_sorted, h.1, h.2, ?_⟩
    rw [h.1, h.2]
    norm_num
  refine ⟨?_, ?_⟩
  · have hapx : set_bitstring [(-5 : ℚ)] [unitMarks] [0] = [0] := by decide
    have hnorm := natCast_norm_is_lnorm (α := ℚ) 2 (by decide)
    rw [Nat.cast_ofNat] at hnorm
    rw [hapx, get_bound_sum _ _ _ _ _ hnorm]
    have hr : List.range (1 : Int).toNat = [0] := by decide
    have hi : boundIndex [0] 64 0 = ((0 : Int) + (0 : Nat)) * (64 : Nat) + (0 : Nat) := by
      decide
    rw [hr]
    simp only [List.map_cons, List.map_nil, List.sum_cons, List.sum_nil, add_zero, hi,
      precompute_differences_lbound, if_neg hnorm.2, precompute_differences_lbound_lnorm]
    rw [tableLoop_get (lboundEntry qpow 2) 64 [-5] [unitMarks] 0 (fun _ => 0) 0 0 (-5)
      unitMarks ((0 : Nat) : ℚ) ((0 + 1 : Nat) : ℚ) unitMarks_rows rfl rfl
      (unitMarks_get 0 (by decide)) (unitMarks_get 1 (by decide))]
    have h1 : (-5 : ℚ) < ((0 : Nat) : ℚ) := by norm_num
    simp only [lboundEntry, if_pos h1, qpow]
    norm_num
  · have := calculateMinkowski_natural qpow [(-5 : ℚ)] [-5] 2 (by decide)
      (fun x _ => qpow_one x)
    rw [Nat.cast_ofNat] at this
    rw [this]
    simp [qpow]

/-- C3 (amended): for `D` rows of `n` non-decreasing marks (`2 <= n <= 255`), a query
`q` and an indexed vector `v` of `D` components each, every component of `v` lying
between the first and the last mark of its row, and an integer norm `s = k` with
`1 <= k < 100`: the lower bound is at most the distance `calculateMinkowski(v, q, s)`,
which is at most the upper bound. The host power function `dpow` is monotone in a
non-negative base, with `dpow(0, s) = 0` and `dpow(x, 1) = x`. -/
theorem bounds_enclose_distance {α : Type} [LinearOrderedField α] [FloorRing α]
    (dpow : α → α → α) (marks : List (List α)) (q v : List α) (k n D : Nat)
    (junk : Int → α)
    (hD : marks.length = D) (hq : q.length = D) (hv : v.length = D)
    (hrows : ∀ r ∈ marks, r.length = n ∧ r.Sorted (fun a b => a ≤ b))
    (hn : 2 ≤ n) (hn255 : n ≤ 255)
    (hrange : ∀ d, d < D → (marks.getD d []).getD 0 0 ≤ v.getD d 0 ∧
      v.getD d 0 ≤ (marks.getD d []).getD (n - 1) 0)
    (hk1 : 1 ≤ k) (hk100 : k < 100)
    (hmono : ∀ a b, 0 ≤ a → a ≤ b → dpow a (k : α) ≤ dpow b (k : α))
    (hzero : dpow 0 (k : α) = 0) (hone : ∀ x, 0 ≤ x → dpow x 1 = x) :
    get_bound (set_bitstring v marks (List.replicate D 0))
        (precompute_differences_lbound dpow q marks (k : α) junk) D n (k : α)
      ≤ calculateMinkowski dpow v q (k : α) ∧
    calculateMinkowski dpow v q (k : α)
      ≤ get_bound (set_bitstring v marks (List.replicate D 0))
        (precompute_differences_ubound dpow q marks (k : α) junk) D n (k : α) := by
  have hnorm := natCast_norm_is_lnorm (α := α) k hk100
  have hlen : ∀ r ∈ marks, r.length = n := fun r hr => (hrows r hr).1
  rw [calculateMinkowski_natural dpow v q k hk1 hone, zip_eq_map_range v q D hv hq,
    List.map_map, get_bound_sum _ _ _ _ _ hnorm, get_bound_sum _ _ _ _ _ hnorm]
  simp only [precompute_differences_lbound, precompute_differences_ubound, if_neg hnorm.2,
    precompute_differences_lbound_lnorm, precompute_differences_ubound_lnorm,
    i4tod_Int32GetDatum, Nat.floor_natCast, Int.toNat_ofNat]
  have hpoint : ∀ d ∈ List.range D,
      tableLoop (lboundEntry dpow (k : α)) q marks 0 junk
          (boundIndex (set_bitstring v marks (List.replicate D 0)) n d)
        ≤ dpow |v.getD d 0 - q.getD d 0| (k : α) ∧
      dpow |v.getD d 0 - q.getD d 0| (k : α)
        ≤ tableLoop (uboundEntry dpow (k : α)) q marks 0 junk
          (boundIndex (set_bitstring v marks (List.replicate D 0)) n d) := by
    intro d hd
    have hdD : d < D := List.mem_range.mp hd
    have hvd : v.get? d = some (v.getD d 0) := by
      exact get?_eq_some_getD _ _ (by omega) _
    have hqd : q.get? d = some (q.getD d 0) := by
      exact get?_eq_some_getD _ _ (by omega) _
    have hmd : marks.get? d = some (marks.getD d []) := by
      exact get?_eq_some_getD _ _ (by omega) _
    have hr := hrows _ (List.get?_mem hmd)
    obtain ⟨hlo, hhi⟩ := hrange d hdD
    obtain ⟨hc, hc1, hc2⟩ := cell_contains (v.getD d 0) (marks.getD d []) n hr.1 hn hn255
      hr.2 hlo hhi
    have hapx : (set_bitstring v marks (List.replicate D 0)).getD d 0
        = cellOf (v.getD d 0) (marks.getD d []) :=
      set_bitstring_get v marks _ d _ _ hvd hmd (by simpa using hdD)
    have hidx : boundIndex (set_bitstring v marks (List.replicate D 0)) n d
        = ((0 : Int) + (d : Nat)) * (n : Nat) + (cellOf (v.getD d 0) (marks.getD d []) : Nat) := by
      unfold boundIndex
      rw [hapx, min_eq_left (by omega)]
      ring
    have hg1 : (marks.getD d []).get? (cellOf (v.getD d 0) (marks.getD d []))
        = some ((marks.getD d []).getD (cellOf (v.getD d 0) (marks.getD d [])) 0) := by
      exact get?_eq_some_getD _ _ (by omega) _
    have hg2 : (marks.getD d []).get? (cellOf (v.getD d 0) (marks.getD d []) + 1)
        = some ((marks.getD d []).getD (cellOf (v.getD d 0) (marks.getD d []) + 1) 0) := by
      exact get?_eq_some_getD _ _ (by omega) _
    rw [hidx, tableLoop_get (lboundEntry dpow (k : α)) n q marks 0 junk d _ _ _ _ _ hlen hqd
      hmd hg1 hg2, tableLoop_get (uboundEntry dpow (k : α)) n q marks 0 junk d _ _ _ _ _ hlen
      hqd hmd hg1 hg2]
    exact ⟨lboundEntry_le dpow _ _ _ _ _ hmono hzero hc1 hc2,
      le_uboundEntry dpow _ _ _ _ _ hmono hc1 hc2⟩
  exact ⟨map_sum_le _ _ _ (fun d hd => (hpoint d hd).1),
    map_sum_le _ _ _ (fun d hd => (hpoint d hd).2)⟩

theorem qpow_mono (k : Nat) (a b : ℚ) (ha : 0 ≤ a) (hab : a ≤ b) :
    qpow a (k : ℚ) ≤ qpow b (k : ℚ) := by
  unfold qpow
  rw [Nat.floor_natCast]
  exact pow_le_pow_left₀ ha hab k

/-- C3 (amended), at the marks 0, 1, ..., 63, the query `(0)`, the vector `(3)` and the
norm 2. -/
theorem bounds_enclose_distance_witness :
    get_bound (set_bitstring [(3 : ℚ)] [unitMarks] (List.replicate 1 0))
        (precompute_differences_lbound qpow [0] [unitMarks] ((2 : Nat) : ℚ) (fun _ => 0))
        (1 : Nat) (64 : Nat) ((2 : Nat) : ℚ)
      ≤ calculateMinkowski qpow [3] [0] ((2 : Nat) : ℚ) ∧
    calculateMinkowski qpow [3] [0] ((2 : Nat) : ℚ)
      ≤ get_bound (set_bitstring [(3 : ℚ)] [unitMarks] (List.replicate 1 0))
        (precompute_differences_ubound qpow [0] [unitMarks] ((2 : Nat) : ℚ) (fun _ => 0))
        (1 : Nat) (64 : Nat) ((2 : Nat) : ℚ) :=
  bounds_enclose_distance qpow [unitMarks] [0] [3] 2 64 1 (fun _ => 0) rfl rfl rfl
    (fun r hr => by
      rw [List.mem_singleton] at hr
      rw [hr]
      exact ⟨unitMarks_length, unitMarks_sorted⟩)
    (by decide) (by decide)
    (fun d hd => by
      have hd0 : d = 0 := by omega
      subst hd0
      decide)
    (by decide) (by decide) (qpow_mono 2)
    (by simp [qpow]) (fun x _ => qpow_one x)

/-! ### The build produces an index -/

theorem buildCallback_ok {α : Type} [LinearOrderedField α] (bs : BuildState α)
    (htup : ItemPointer × Option (List α)) (hsize : bs.blstate.sizeOfTuple ≤ 8160) :
    ∃ bs1, buildCallback bs htup = Except.ok bs1 := by
  have hfree : ¬ (GetFreePageSpace bs.blstate (initPage 0 0) < bs.blstate.sizeOfTuple) := by
    have : GetFreePageSpace bs.blstate (initPage 0 0) = 8160 := by
      simp [GetFreePageSpace, initPage, BLCKSZ, pageHeaderSize, opaqueSize]
    omega
  have hadd : ¬ ((addItem bs.blstate (initPage 0 0)
      (formTuple bs.blstate htup.1 htup.2)).2 = false) := by
    unfold addItem
    rw [if_neg hfree]
    simp
  unfold buildCallback
  cases hcur : bs.currentPage with
  | none =>
    simp only
    rw [if_neg hadd]
    exact ⟨_, rfl⟩
  | some page =>
    simp only
    by_cases h : (addItem bs.blstate page (formTuple bs.blstate htup.1 htup.2)).2 = false
    · rw [if_pos h, if_neg hadd]
      exact ⟨_, rfl⟩
    · rw [if_neg h]
      exact ⟨_, rfl⟩

theorem buildCallback_blstate {α : Type} [LinearOrderedField α] (bs bs1 : BuildState α)
    (htup : ItemPointer × Option (List α)) (h : buildCallback bs htup = Except.ok bs1) :
    bs1.blstate = bs.blstate := by
  unfold buildCallback at h
  cases hcur : bs.currentPage with
  | none =>
    rw [hcur] at h
    simp only at h
    split at h
    · cases h
    · injection h with h
      rw [← h]
  | some page =>
    rw [hcur] at h
    simp only at h
    split at h
    · split at h
      · cases h
      · injection h with h
        rw [← h]
    · injection h with h
      rw [← h]

theorem buildHeapScan_ok {α : Type} [LinearOrderedField α] :
    ∀ (heap : List (ItemPointer × Option (List α))) (bs : BuildState α),
      bs.blstate.sizeOfTuple ≤ 8160 → ∃ final, buildHeapScan bs heap = Except.ok final := by
  intro heap
  induction heap with
  | nil => intro bs _; exact ⟨bs, rfl⟩
  | cons htup rest ih =>
    intro bs hsize
    obtain ⟨bs1, h1⟩ := buildCallback_ok bs htup hsize
    have hst : bs1.blstate = bs.blstate := buildCallback_blstate bs bs1 htup h1
    obtain ⟨final, hf⟩ := ih bs1 (by rw [hst]; exact hsize)
    exact ⟨final, by simp only [buildHeapScan, h1, hf]⟩

/-- The build of a fresh index succeeds whenever one tuple fits on an empty page, that
is for at most 8152 dimensions. -/
theorem vaBuild_ok {α : Type} [LinearOrderedField α] (marks : List (List α))
    (heap : List (ItemPointer × Option (List α))) (hD : marks.length ≤ 8152) :
    ∃ index, vaBuild 0 marks heap = Except.ok index := by
  obtain ⟨final, hf⟩ := buildHeapScan_ok heap (initBuildState marks)
    (by simp only [initBuildState, initStateOptions, sizeof_Tuple]; omega)
  refine ⟨{ metaPage := initMetabuffer, blocks := final.blocks ++ final.currentPage.toList,
            reltuples := (heap.length : α) }, ?_⟩
  simp only [vaBuild, ne_eq, not_true_eq_false, if_false, hf]

/-! ### The warning for a stale index -/

theorem bitmapSingleSearch_staleWarning {α : Type} [LinearOrderedField α] [FloorRing α]
    [Inhabited α] (dpow : α → α → α) (junk : Int → α) (scan : IndexScanDesc α)
    (tbm : List ItemPointer)
    (hnorm : normCheckFails scan.adamScanClause.nn_minkowski = false)
    (hkey : scan.keyData.isnull = false)
    (hmagic : scan.indexRelation.metaPage.magickNumber = VA_MAGICK_NUMBER) :
    ∃ r, bitmapSingleSearch dpow junk scan tbm = Except.ok r ∧
      r.staleWarning = staleCheck scan.indexRelation.metaPage scan.indexRelation.reltuples := by
  unfold bitmapSingleSearch
  simp only [hnorm, hkey, hmagic, Bool.and_false, ne_eq, not_true_eq_false, if_false,
    Bool.false_eq_true]
  by_cases hk : scan.adamScanClause.nn_limit > 0
  · rw [if_pos hk]
    exact ⟨_, rfl, rfl⟩
  · rw [if_neg hk]
    exact ⟨_, rfl, rfl⟩

/-- C20 (counterexample): a scan over a meta page with `nChanges = 1000` of an index with
`reltuples = 10` raises the warning for a stale index, because 1000 exceeds 20% of 10. -/
theorem stale_warning_at_1000_changes :
    bitmapSingleSearch qpow (fun _ => 0) (staleScan 1000 10) [] =
      Except.ok { ntids := 3, tbm := [101, 102, 103], staleWarning := true } := by
  have hst : staleCheck ({ initMetabuffer with nChanges := 1000 } : MetaPageData) (10 : ℚ)
      = true := by
    simp only [staleCheck]
    norm_num
  have hlive : (liveTuples demoBlocks).map Tuple.heapPtr = [101, 102, 103] := by decide
  have hlen : (liveTuples demoBlocks).length = 3 := by decide
  unfold bitmapSingleSearch
  have hn : normCheckFails (staleScan 1000 10).adamScanClause.nn_minkowski = false := by decide
  have hk : ¬ ((staleScan 1000 10).adamScanClause.nn_limit > 0) := by decide
  have hmagic : (staleScan 1000 10).indexRelation.metaPage.magickNumber = VA_MAGICK_NUMBER := by
    decide
  have hkey : (staleScan 1000 10).keyData.isnull = false := rfl
  simp only [hn, hkey, hmagic, Bool.and_false, ne_eq, not_true_eq_false, if_false, if_neg hk,
    Bool.false_eq_true]
  simp only [staleScan, mkScan, hst, hlive, hlen, List.nil_append]

/-- C20 (amended): a scan that passes the norm test, with a non-null key and an intact
magic number, raises the warning for a stale index whenever `nChanges = 1001`; with
`nChanges = 1000` it raises the warning exactly when 20% of `reltuples` is below 1000,
and no warning otherwise. -/
theorem stale_warning_threshold {α : Type} [LinearOrderedField α] [FloorRing α]
    [Inhabited α] (dpow : α → α → α) (junk : Int → α) (scan : IndexScanDesc α)
    (tbm : List ItemPointer)
    (hnorm : normCheckFails scan.adamScanClause.nn_minkowski = false)
    (hkey : scan.keyData.isnull = false)
    (hmagic : scan.indexRelation.metaPage.magickNumber = VA_MAGICK_NUMBER) :
    ∃ r, bitmapSingleSearch dpow junk scan tbm = Except.ok r ∧
      (scan.indexRelation.metaPage.nChanges = 1001 → r.staleWarning = true) ∧
      (scan.indexRelation.metaPage.nChanges = 1000 →
        (r.staleWarning = true ↔ scan.indexRelation.reltuples * (2 / 10) < 1000)) := by
  obtain ⟨r, hr, hw⟩ := bitmapSingleSearch_staleWarning dpow junk scan tbm hnorm hkey hmagic
  refine ⟨r, hr, ?_, ?_⟩
  · intro h
    rw [hw]
    simp [staleCheck, h]
  · intro h
    rw [hw]
    simp [staleCheck, h]

/-- C20 (amended), for the scan of `demoBlocks` over a meta page with `nChanges = 1000`
and `reltuples = 6000`. -/
theorem stale_warning_threshold_witness :
    ∃ r, bitmapSingleSearch qpow (fun _ => 0) (staleScan 1000 6000) [] = Except.ok r ∧
      ((staleScan 1000 6000).indexRelation.metaPage.nChanges = 1001 → r.staleWarning = true) ∧
      ((staleScan 1000 6000).indexRelation.metaPage.nChanges = 1000 →
        (r.staleWarning = true ↔
          (staleScan 1000 6000).indexRelation.reltuples * (2 / 10) < 1000)) :=
  stale_warning_threshold qpow (fun _ => 0) (staleScan 1000 6000) [] (by decide) rfl
    (by decide)

/-! ### Equidistant marks -/

theorem foldl_update_get {α : Type} (val : Nat → α) (base : Nat) :
    ∀ (l : List Nat) (res : Nat → α) (i : Nat),
      (l.foldl (fun res k => Function.update res (base + k) (val k)) res) i =
        if ∃ k ∈ l, base + k = i then val (i - base) else res i := by
  intro l
  induction l with
  | nil => intro res i; simp
  | cons k tl ih =>
    intro res i
    simp only [List.foldl_cons]
    rw [ih]
    by_cases h : ∃ k1 ∈ tl, base + k1 = i
    · have h2 : ∃ k1 ∈ k :: tl, base + k1 = i := by
        obtain ⟨k1, hk1, e⟩ := h
        exact ⟨k1, List.mem_cons_of_mem _ hk1, e⟩
      rw [if_pos h, if_pos h2]
    · rw [if_neg h]
      by_cases hk : base + k = i
      · have h2 : ∃ k1 ∈ k :: tl, base + k1 = i := ⟨k, List.mem_cons_self _ _, hk⟩
        rw [if_pos h2, ← hk, Function.update_same]
        congr 1
        omega
      · have h2 : ¬ ∃ k1 ∈ k :: tl, base + k1 = i := by
          rintro ⟨k1, hk1, e⟩
          rcases List.mem_cons.mp hk1 with h3 | h3
          · exact hk (h3 ▸ e)
          · exact h ⟨k1, h3, e⟩
        rw [if_neg h2, Function.update_noteq (Ne.symm hk)]

theorem equidistantRow_get {α : Type} [LinearOrderedField α] (min_val max_val : α)
    (base : Nat) (result : Nat → α) (k : Nat) (hk : k < 64) :
    equidistantRow min_val max_val base result (base + k) =
      if k = 0 then min_val else if k = 63 then max_val
      else min_val + (max_val - min_val) * ((k : α) / 63) := by
  unfold equidistantRow
  simp only [MAX_MARKS]
  rw [foldl_update_get (fun mark_ctr => min_val + (max_val - min_val)
    * ((mark_ctr : α) / ((64 - 1 : Nat) : α))) base]
  by_cases h0 : k = 0
  · have h : ¬ ∃ k1 ∈ List.range' 1 (64 - 1 - 1), base + k1 = base + k := by
      rintro ⟨k1, hk1, e⟩
      rw [List.mem_range'_1] at hk1
      omega
    rw [if_neg h, if_pos h0, h0,
      Function.update_noteq (by omega), Function.update_same]
  · by_cases h63 : k = 63
    · have h : ¬ ∃ k1 ∈ List.range' 1 (64 - 1 - 1), base + k1 = base + k := by
        rintro ⟨k1, hk1, e⟩
        rw [List.mem_range'_1] at hk1
        omega
      rw [if_neg h, if_neg h0, if_pos h63, h63]
      have : base + 63 = base + 64 - 1 := by omega
      rw [this, Function.update_same]
    · have h : ∃ k1 ∈ List.range' 1 (64 - 1 - 1), base + k1 = base + k := by
        refine ⟨k, ?_, rfl⟩
        rw [List.mem_range'_1]
        omega
      rw [if_pos h, if_neg h0, if_neg h63]
      have : base + k - base = k := by omega
      rw [this]
      norm_num

theorem equidistantRow_frame {α : Type} [LinearOrderedField α] (min_val max_val : α)
    (base : Nat) (result : Nat → α) (i : Nat) (hi : i < base ∨ base + 64 ≤ i) :
    equidistantRow min_val max_val base result i = result i := by
  unfold equidistantRow
  simp only [MAX_MARKS]
  rw [foldl_update_get (fun mark_ctr => min_val + (max_val - min_val)
    * ((mark_ctr : α) / ((64 - 1 : Nat) : α))) base]
  have h : ¬ ∃ k1 ∈ List.range' 1 (64 - 1 - 1), base + k1 = i := by
    rintro ⟨k1, hk1, e⟩
    rw [List.mem_range'_1] at hk1
    omega
  rw [if_neg h, Function.update_noteq (by omega), Function.update_noteq (by omega)]

theorem equidistantRows_frame {α : Type} [LinearOrderedField α] :
    ∀ (mins maxs : List α) (dim_ctr : Nat) (result : Nat → α) (i : Nat),
      i < dim_ctr * 64 → equidistantRows mins maxs dim_ctr result i = result i := by
  intro mins
  induction mins with
  | nil => intro maxs dim_ctr result i _; simp [equidistantRows]
  | cons mn mins ih =>
    intro maxs dim_ctr result i hi
    cases maxs with
    | nil => simp [equidistantRows]
    | cons mx maxs =>
      simp only [equidistantRows, MAX_MARKS]
      rw [ih maxs (dim_ctr + 1) _ i (by omega)]
      exact equidistantRow_frame mn mx _ result i (Or.inl hi)

theorem equidistantRows_get {α : Type} [LinearOrderedField α] :
    ∀ (mins maxs : List α) (dim_ctr : Nat) (result : Nat → α) (d k : Nat) (mn mx : α),
      mins.get? d = some mn → maxs.get? d = some mx → k < 64 →
      equidistantRows mins maxs dim_ctr result ((dim_ctr + d) * 64 + k) =
        if k = 0 then mn else if k = 63 then mx else mn + (mx - mn) * ((k : α) / 63) := by
  intro mins
  induction mins with
  | nil => intro maxs dim_ctr result d k mn mx h; simp at h
  | cons mn0 mins ih =>
    intro maxs dim_ctr result d k mn mx hmn hmx hk
    cases maxs with
    | nil => simp at hmx
    | cons mx0 maxs =>
      simp only [equidistantRows, MAX_MARKS]
      cases d with
      | zero =>
        simp only [List.get?_cons_zero, Option.some.injEq] at hmn hmx
        subst hmn hmx
        rw [equidistantRows_frame mins maxs (dim_ctr + 1) _ _ (by omega)]
        exact equidistantRow_get mn0 mx0 (dim_ctr * 64) result k hk
      | succ d' =>
        simp only [List.get?_cons_succ] at hmn hmx
        have := ih maxs (dim_ctr + 1) (equidistantRow mn0 mx0 (dim_ctr * 64) result) d' k mn mx
          hmn hmx hk
        rw [← this]
        congr 1
        ring

theorem construct_md_array_get {α : Type} (marks : Nat → α) (dims0 dims1 d : Nat)
    (hd : d < dims0) :
    (construct_md_array marks dims0 dims1).get? d =
      some (List.map (fun (k : Nat) => marks (d * dims1 + k)) (List.range dims1)) := by
  unfold construct_md_array
  rw [List.get?_eq_getElem?, List.getElem?_map, List.getElem?_range hd]
  rfl

theorem map_range_getD {α : Type} (g : Nat → α) (n k : Nat) (hk : k < n) (dflt : α) :
    (List.map g (List.range n)).getD k dflt = g k := by
  rw [List.getD_eq_getElem _ _ (by simpa using hk)]
  simp

/-- C12: for every dimension `d` (with minimum `mn` and maximum `mx`), row `d` of the
array built from `getEquidistantMarks` has exactly 64 marks, with `M[d][0] = mn`,
`M[d][63] = mx` and `M[d][k] = mn + k * (mx - mn) / 63` for `1 <= k <= 62`. -/
theorem getEquidistantMarks_row {α : Type} [LinearOrderedField α] (min max : List α)
    (junk : Nat → α) (d : Nat) (mn mx : α)
    (hmn : min.get? d = some mn) (hmx : max.get? d = some mx) :
    ∃ row, (construct_md_array
        (getEquidistantMarks (Nat.min min.length max.length) min max junk)
        (Nat.min min.length max.length) MAX_MARKS).get? d = some row ∧
      row.length = 64 ∧ row.getD 0 0 = mn ∧ row.getD MAX_PARTITIONS 0 = mx ∧
      ∀ k, 1 ≤ k → k ≤ MAX_PARTITIONS - 1 →
        row.getD k 0 = mn + (k : α) * (mx - mn) / (MAX_PARTITIONS : α) := by
  have hd1 : d < min.length := by
    rcases Nat.lt_or_ge d min.length with h | h
    · exact h
    · rw [List.get?_eq_none.mpr h] at hmn; cases hmn
  have hd2 : d < max.length := by
    rcases Nat.lt_or_ge d max.length with h | h
    · exact h
    · rw [List.get?_eq_none.mpr h] at hmx; cases hmx
  have hd : d < Nat.min min.length max.length := Nat.lt_min.mpr ⟨hd1, hd2⟩
  have hP : MAX_PARTITIONS = 63 := by decide
  have hM : MAX_MARKS = 64 := by decide
  refine ⟨_, construct_md_array_get _ _ _ d hd, ?_, ?_, ?_, ?_⟩
  · simp [hM]
  · rw [hM, map_range_getD _ 64 0 (by omega)]
    have := equidistantRows_get min max 0 junk d 0 mn mx hmn hmx (by omega)
    rw [zero_add, if_pos rfl] at this
    exact this
  · rw [hM, hP, map_range_getD _ 64 63 (by omega)]
    have := equidistantRows_get min max 0 junk d 63 mn mx hmn hmx (by omega)
    rw [zero_add, if_neg (by omega), if_pos rfl] at this
    exact this
  · intro k hk1 hk2
    rw [hP] at hk2 ⊢
    rw [hM, map_range_getD _ 64 k (by omega)]
    have := equidistantRows_get min max 0 junk d k mn mx hmn hmx (by omega)
    rw [zero_add, if_neg (by omega), if_neg (by omega)] at this
    unfold getEquidistantMarks
    rw [this]
    push_cast
    ring

/-- C12, for the unit cube in three dimensions. -/
theorem getEquidistantMarks_row_witness :
    ∃ row, (construct_md_array
        (getEquidistantMarks (Nat.min ([0, 0, 0] : List ℚ).length ([1, 1, 1] : List ℚ).length)
          [0, 0, 0] [1, 1, 1] (fun _ => 0))
        (Nat.min ([0, 0, 0] : List ℚ).length ([1, 1, 1] : List ℚ).length) MAX_MARKS).get? 2
          = some row ∧
      row.length = 64 ∧ row.getD 0 0 = 0 ∧ row.getD MAX_PARTITIONS 0 = 1 ∧
      ∀ k, 1 ≤ k → k ≤ MAX_PARTITIONS - 1 →
        row.getD k 0 = 0 + (k : ℚ) * (1 - 0) / (MAX_PARTITIONS : ℚ) :=
  getEquidistantMarks_row [0, 0, 0] [1, 1, 1] (fun _ => 0) 2 0 1 rfl rfl

/-! ### Equifrequent marks -/

theorem foldl_update_pairs_frame {α β : Type} (g : β → α) (base : Nat) :
    ∀ (l : List (Nat × β)) (res : Nat → α) (i : Nat), (∀ p ∈ l, base + p.1 ≠ i) →
      (l.foldl (fun res p => Function.update res (base + p.1) (g p.2)) res) i = res i := by
  intro l
  induction l with
  | nil => intro res i _; rfl
  | cons p tl ih =>
    intro res i h
    simp only [List.foldl_cons]
    rw [ih _ i (fun q hq => h q (List.mem_cons_of_mem _ hq)),
      Function.update_noteq (Ne.symm (h p (List.mem_cons_self _ _)))]

theorem foldl_update_pairs_get {α β : Type} (g : β → α) (base : Nat) :
    ∀ (l : List (Nat × β)) (res : Nat → α) (k : Nat) (v : β),
      (l.map Prod.fst).Nodup → (k, v) ∈ l →
      (l.foldl (fun res p => Function.update res (base + p.1) (g p.2)) res) (base + k)
        = g v := by
  intro l
  induction l with
  | nil => intro res k v _ h; simp at h
  | cons p tl ih =>
    intro res k v hnd hmem
    simp only [List.foldl_cons]
    simp only [List.map_cons, List.nodup_cons] at hnd
    rcases List.mem_cons.mp hmem with h | h
    · subst h
      rw [foldl_update_pairs_frame g base tl _ _ (by
        intro q hq hcon
        have hqk : q.1 = k := by omega
        have hq1 : q.1 ∈ tl.map Prod.fst := List.mem_map_of_mem Prod.fst hq
        rw [hqk] at hq1
        exact hnd.1 hq1)]
      exact Function.update_same _ _ _
    · exact ih _ k v hnd.2 h

theorem walk_some_cases (n : Int) :
    ∀ (cells : List Int) (sum k : Int) (r : List Int × Int × Int),
      walk n cells sum k = some r → k ≤ r.2.2 := by
  intro cells
  induction cells with
  | nil =>
    intro sum k r h
    simp only [walk] at h
    split at h
    · cases h
    · injection h with h; subst h; exact le_refl _
  | cons c tl ih =>
    intro sum k r h
    simp only [walk] at h
    split at h
    · have := ih _ _ r h
      omega
    · injection h with h; subst h; exact le_refl _

theorem zip_range_mem (ks : List Int) (hlen : ks.length = 62) (k : Nat) (hk1 : 1 ≤ k)
    (hk2 : k ≤ 62) : (k, ks.getD (k - 1) 0) ∈ List.zip (List.range' 1 62) ks := by
  have hlt : k - 1 < (List.zip (List.range' 1 62) ks).length := by
    simp [hlen]
    omega
  have := List.getElem_mem hlt
  rw [List.getElem_zip] at this
  have hb : k - 1 < (List.range' 1 62).length := by
    simp
    omega
  have h1 : (List.range' 1 62)[k - 1] = k := by
    rw [List.getElem_range'_1]
    omega
  rw [h1, ← List.getD_eq_getElem ks 0 (by omega)] at this
  exact this

theorem equifrequentRow_get {α : Type} [LinearOrderedField α] (min_val max_val : α)
    (base : Nat) (ks : List Int) (result : Nat → α) (hlen : ks.length = 62) (k : Nat)
    (hk : k < 64) :
    equifrequentRow min_val max_val base ks result (base + k) =
      if k = 0 then min_val else if k = 63 then max_val
      else min_val + ((ks.getD (k - 1) 0 : Int) : α) * ((max_val - min_val) / 10000) := by
  unfold equifrequentRow
  simp only [MAX_MARKS, SAMPLING_FREQUENCY]
  have hkeys : (List.map Prod.fst (List.zip (List.range' 1 (64 - 1 - 1)) ks)).Nodup := by
    rw [List.map_fst_zip _ _ (by simp [hlen])]
    exact List.nodup_range' 1 _
  have hmemk : ∀ p ∈ List.zip (List.range' 1 (64 - 1 - 1)) ks, 1 ≤ p.1 ∧ p.1 ≤ 62 := by
    intro p hp
    have := (List.of_mem_zip hp).1
    rw [List.mem_range'_1] at this
    omega
  by_cases h0 : k = 0
  · rw [if_pos h0, h0, foldl_update_pairs_frame
      (fun (v : Int) => min_val + ((v : Int) : α) * ((max_val - min_val) / ((10000 : Nat) : α))) base _ _ _ (by
      intro p hp
      have := hmemk p hp
      omega), Function.update_noteq (by omega), Function.update_same]
  · by_cases h63 : k = 63
    · rw [if_neg h0, if_pos h63, h63, foldl_update_pairs_frame
        (fun (v : Int) => min_val + ((v : Int) : α) * ((max_val - min_val) / ((10000 : Nat) : α))) base _ _ _ (by
        intro p hp
        have := hmemk p hp
        omega)]
      have : base + 63 = base + 64 - 1 := by omega
      rw [this, Function.update_same]
    · rw [if_neg h0, if_neg h63]
      have := foldl_update_pairs_get
        (fun (v : Int) => min_val + ((v : Int) : α) * ((max_val - min_val) / ((10000 : Nat) : α)))
        base _ (Function.update (Function.update result (base + 0) min_val) (base + 64 - 1)
          max_val) k (ks.getD (k - 1) 0) hkeys
        (zip_range_mem ks hlen k (by omega) (by omega))
      rw [this]
      norm_num

/-- C13 (violated by the code): for one dimension with minimum 0 and maximum 10000, the
histogram `demoHist` (8, 2 and 620 rows in the cells 0, 1, 2) and `n = 630` rows, the
threshold of partition index 1 is `630 / 64 - 1 = 8` in the code and `630 / 63 = 10` in
the specification; the code stops after 1 cell and places the mark at
`0 + 1 * (10000 - 0) / 10000 = 1`, while the walk of the specification consumes 2
cells. -/
theorem getEquifrequentMarks_threshold (junk : Nat → ℚ) :
    markThreshold 630 1 = 8 ∧ specThreshold 630 1 = 10 ∧
    equifrequentCuts 630 demoHist 10000 0 = some (1 :: List.replicate 61 3) ∧
    specCuts 630 demoHist 10000 0 = some (2 :: List.replicate 61 3) ∧
    ∃ marks, getEquifrequentMarks 630 1 [0] [10000] demoHist junk = some marks ∧
      marks 1 = 1 := by
  have hcuts : equifrequentCuts 630 demoHist 10000 0 = some (1 :: List.replicate 61 3) := by
    set_option maxRecDepth 100000 in decide
  have hspec : specCuts 630 demoHist 10000 0 = some (2 :: List.replicate 61 3) := by
    set_option maxRecDepth 100000 in decide
  refine ⟨by decide, by decide, hcuts, hspec, ?_⟩
  have hsize : 1 * SAMPLING_FREQUENCY = 10000 := by decide
  refine ⟨equifrequentRow 0 10000 (0 * MAX_MARKS) (1 :: List.replicate 61 3) junk, ?_, ?_⟩
  · simp only [getEquifrequentMarks, equifrequentRows, hsize, hcuts]
  · have := equifrequentRow_get (0 : ℚ) 10000 (0 * MAX_MARKS) (1 :: List.replicate 61 3) junk
      (by decide) 1 (by omega)
    rw [if_neg (by omega), if_neg (by omega)] at this
    have hb : 0 * MAX_MARKS + 1 = 1 := by decide
    rw [hb] at this
    rw [this]
    simp

/-! ### Minimum and maximum of the sample -/

theorem take_set_succ {β : Type} (a : β) :
    ∀ (l : List β) (n : Nat), n < l.length → (l.set n a).take (n + 1) = l.take n ++ [a] := by
  intro l
  induction l with
  | nil => intro n h; simp at h
  | cons x l ih =>
    intro n h
    cases n with
    | zero => simp
    | succ n =>
      simp only [List.set_cons_succ, List.take_succ_cons, List.cons_append]
      rw [ih n (by simpa using h)]

theorem drop_set_lt {β : Type} (a : β) :
    ∀ (l : List β) (n m : Nat), n < m → (l.set n a).drop m = l.drop m := by
  intro l
  induction l with
  | nil => intro n m _; simp
  | cons x l ih =>
    intro n m h
    cases m with
    | zero => omega
    | succ m =>
      cases n with
      | zero => simp
      | succ n =>
        simp only [List.set_cons_succ, List.drop_succ_cons]
        exact ih n m (by omega)

theorem take_succ_get {β : Type} :
    ∀ (l : List β) (i : Nat) (t : β), l.get? i = some t → l.take (i + 1) = l.take i ++ [t] := by
  intro l
  induction l with
  | nil => intro i t h; simp at h
  | cons x l ih =>
    intro i t h
    cases i with
    | zero =>
      simp only [List.get?_cons_zero, Option.some.injEq] at h
      simp [h]
    | succ i =>
      simp only [List.get?_cons_succ] at h
      simp only [List.take_succ_cons, List.cons_append]
      rw [ih i t h]

theorem drop_eq_get {β : Type} :
    ∀ (l1 l2 : List β) (i : Nat), l1.drop i = l2.drop i →
      l1.get? i = l2.get? i ∧ l1.drop (i + 1) = l2.drop (i + 1) := by
  intro l1 l2 i h
  constructor
  · have := congrArg (fun l => List.get? l 0) h
    simpa [List.getElem?_drop] using this
  · have := congrArg (List.drop 1) h
    simpa [List.drop_drop, Nat.add_comm] using this

theorem sweepStep_inv (callback : ItemPointer → Bool) (data0 : List Tuple) (m : Nat)
    (stats0 : IndexBulkDeleteResult) (hm : m ≤ data0.length) (i : Nat) (hi : i < m)
    (st : SweepState) (h : SweepInv callback data0 m stats0 i st) :
    SweepInv callback data0 m stats0 (i + 1) (sweepStep callback st i) := by
  obtain ⟨hlen, hptr, htake, hdrop, hmax, hstats⟩ := h
  have hwr : st.itupPtr ≤ i := by
    rw [hptr]
    exact le_trans (List.length_filter_le _ _) (by simp)
  obtain ⟨hget, hdrop1⟩ := drop_eq_get st.data data0 i hdrop
  obtain ⟨t, hsome⟩ : ∃ t, data0.get? i = some t :=
    ⟨data0.get ⟨i, by omega⟩, List.get?_eq_get (by omega)⟩
  have hsplit := take_succ_get data0 i t hsome
  unfold sweepStep
  rw [hget, hsome]
  simp only
  cases hc : callback t.heapPtr with
  | true =>
    rw [if_pos rfl]
    have hf : (data0.take (i + 1)).filter (fun t => !callback t.heapPtr)
        = (data0.take i).filter (fun t => !callback t.heapPtr) := by
      rw [hsplit, List.filter_append]
      simp [hc]
    refine ⟨hlen, ?_, ?_, hdrop1, ?_, ?_⟩
    · show st.itupPtr = _
      rw [hf]; exact hptr
    · show st.data.take st.itupPtr = _
      rw [hf]; exact htake
    · show st.maxoff - 1 + (i + 1) = m + st.itupPtr
      omega
    · show ({ st.stats with tuples_removed := st.stats.tuples_removed + 1 }
          : IndexBulkDeleteResult) = _
      rw [hstats]
      simp only [IndexBulkDeleteResult.mk.injEq, true_and, and_true]
      omega
  | false =>
    rw [if_neg (by simp)]
    have hf : (data0.take (i + 1)).filter (fun t => !callback t.heapPtr)
        = (data0.take i).filter (fun t => !callback t.heapPtr) ++ [t] := by
      rw [hsplit, List.filter_append]
      simp [hc]
    have hl : ((data0.take (i + 1)).filter (fun t => !callback t.heapPtr)).length
        = st.itupPtr + 1 := by
      rw [hf, List.length_append, List.length_singleton, hptr]
    have hst : ({ st.stats with num_index_tuples := st.stats.num_index_tuples + 1 }
          : IndexBulkDeleteResult) = { stats0 with
        tuples_removed := stats0.tuples_removed + (i + 1 - (st.itupPtr + 1))
        num_index_tuples := stats0.num_index_tuples + (st.itupPtr + 1) } := by
      rw [hstats]
      simp only [IndexBulkDeleteResult.mk.injEq, true_and, and_true]
      omega
    by_cases hw : st.itupPtr = i
    · rw [if_neg (by simpa using hw)]
      refine ⟨hlen, hl.symm, ?_, hdrop1, ?_, hst⟩
      · show st.data.take (st.itupPtr + 1) = _
        rw [hf, ← htake, hw]
        exact take_succ_get st.data i t (by rw [hget, hsome])
      · show st.maxoff + (i + 1) = m + (st.itupPtr + 1)
        omega
    · rw [if_pos (by simpa using hw)]
      have hlt : st.itupPtr < i := by omega
      refine ⟨?_, hl.symm, ?_, ?_, ?_, hst⟩
      · show (st.data.set st.itupPtr t).length = _
        rw [List.length_set]
        exact hlen
      · show (st.data.set st.itupPtr t).take (st.itupPtr + 1) = _
        rw [hf, ← htake]
        exact take_set_succ t st.data st.itupPtr (by omega)
      · show (st.data.set st.itupPtr t).drop (i + 1) = _
        rw [drop_set_lt t st.data st.itupPtr (i + 1) (by omega)]
        exact hdrop1
      · show st.maxoff + (i + 1) = m + (st.itupPtr + 1)
        omega

theorem sweep_inv (callback : ItemPointer → Bool) (data0 : List Tuple) (m : Nat)
    (stats0 : IndexBulkDeleteResult) (hm : m ≤ data0.length) :
    ∀ i, i ≤ m → SweepInv callback data0 m stats0 i
      ((List.range i).foldl (sweepStep callback)
        { data := data0, itupPtr := 0, maxoff := m, stats := stats0 }) := by
  intro i
  induction i with
  | zero =>
    intro _
    refine ⟨rfl, by simp, by simp, rfl, by simp, ?_⟩
    simp
  | succ i ih =>
    intro hi
    rw [List.range_succ, List.foldl_append]
    exact sweepStep_inv callback data0 m stats0 hm i (by omega) _ (ih (by omega))

theorem isDeleted_or (p : Page) (f : Nat) (hf : p.flags = f ||| VA_DELETED) :
    isDeleted p = true := by
  have h2 : Nat.testBit 2 1 = true := by decide
  have h : ((f ||| VA_DELETED) &&& VA_DELETED).testBit 1 = true := by
    simp [Nat.testBit_and, Nat.testBit_or, VA_DELETED, h2]
  have hne : (f ||| VA_DELETED) &&& VA_DELETED ≠ 0 := by
    intro e
    rw [e] at h
    simp at h
  simp [isDeleted, hf, hne]

theorem isDeleted_flags (p q : Page) (h : p.flags = q.flags) : isDeleted p = isDeleted q := by
  simp [isDeleted, h]

theorem bulkDeletePage_spec (callback : ItemPointer → Bool) (page : Page)
    (stats : IndexBulkDeleteResult) (hwf : page.maxoff ≤ page.data.length) :
    (bulkDeletePage callback page stats).1.maxoff
        = ((pageTuples page).filter (fun t => !callback t.heapPtr)).length ∧
    pageTuples (bulkDeletePage callback page stats).1
        = (pageTuples page).filter (fun t => !callback t.heapPtr) ∧
    (bulkDeletePage callback page stats).1.data.length = page.data.length ∧
    (bulkDeletePage callback page stats).1.flags
        = (if (pageTuples page).filter (fun t => !callback t.heapPtr) = [] ∧ page.maxoff ≠ 0
           then page.flags ||| VA_DELETED else page.flags) ∧
    (bulkDeletePage callback page stats).2 = { stats with
      tuples_removed := stats.tuples_removed
        + (page.maxoff - ((pageTuples page).filter (fun t => !callback t.heapPtr)).length)
      num_index_tuples := stats.num_index_tuples
        + ((pageTuples page).filter (fun t => !callback t.heapPtr)).length } := by
  obtain ⟨hlen, hptr, htake, _, hmax, hstats⟩ :=
    sweep_inv callback page.data page.maxoff stats hwf page.maxoff (le_refl _)
  have hmo : ((List.range page.maxoff).foldl (sweepStep callback)
      { data := page.data, itupPtr := 0, maxoff := page.maxoff, stats := stats }).maxoff
      = ((List.range page.maxoff).foldl (sweepStep callback)
      { data := page.data, itupPtr := 0, maxoff := page.maxoff, stats := stats }).itupPtr := by
    omega
  unfold pageTuples
  unfold bulkDeletePage
  simp only
  refine ⟨?_, ?_, hlen, ?_, ?_⟩
  · rw [hmo]; exact hptr
  · rw [hmo]; exact htake
  · rw [hptr]
    by_cases hK : (page.data.take page.maxoff).filter (fun t => !callback t.heapPtr) = []
    · rw [hK, List.length_nil]
      by_cases h0 : page.maxoff = 0
      · simp [h0]
      · have h1 : (0 : Nat) ≠ page.maxoff := fun e => h0 e.symm
        simp [h0, h1]
    · have hpos : ((page.data.take page.maxoff).filter (fun t => !callback t.heapPtr)).length
          ≠ 0 := fun e => hK (List.eq_nil_of_length_eq_zero e)
      simp [hK, hpos]
  · rw [hstats, hptr]

theorem bulkDeletePage_wf (callback : ItemPointer → Bool) (page : Page)
    (stats : IndexBulkDeleteResult) (hwf : page.maxoff ≤ page.data.length) :
    (bulkDeletePage callback page stats).1.maxoff
      ≤ (bulkDeletePage callback page stats).1.data.length := by
  obtain ⟨h1, _, h3, _, _⟩ := bulkDeletePage_spec callback page stats hwf
  rw [h1, h3]
  apply le_trans (List.length_filter_le _ _)
  unfold pageTuples
  simp

theorem sweep_stats_irrel (callback : ItemPointer → Bool) :
    ∀ (is : List Nat) (st1 st2 : SweepState), st1.data = st2.data →
      st1.itupPtr = st2.itupPtr → st1.maxoff = st2.maxoff →
      (is.foldl (sweepStep callback) st1).data = (is.foldl (sweepStep callback) st2).data ∧
      (is.foldl (sweepStep callback) st1).itupPtr
        = (is.foldl (sweepStep callback) st2).itupPtr ∧
      (is.foldl (sweepStep callback) st1).maxoff
        = (is.foldl (sweepStep callback) st2).maxoff := by
  intro is
  induction is with
  | nil => intro st1 st2 h1 h2 h3; exact ⟨h1, h2, h3⟩
  | cons i is ih =>
    intro st1 st2 h1 h2 h3
    simp only [List.foldl_cons]
    apply ih
    · unfold sweepStep
      rw [h1, h2]
      cases st2.data.get? i with
      | none => exact h1
      | some t =>
        simp only
        split_ifs <;> simp [h1]
    · unfold sweepStep
      rw [h1]
      cases st2.data.get? i with
      | none => exact h2
      | some t =>
        simp only
        split_ifs <;> simp [h2]
    · unfold sweepStep
      rw [h1]
      cases st2.data.get? i with
      | none => exact h3
      | some t =>
        simp only
        split_ifs <;> simp [h3]

theorem bulkDeletePage_fst (callback : ItemPointer → Bool) (page : Page)
    (s1 s2 : IndexBulkDeleteResult) :
    (bulkDeletePage callback page s1).1 = (bulkDeletePage callback page s2).1 := by
  obtain ⟨h1, h2, h3⟩ := sweep_stats_irrel callback (List.range page.maxoff)
    { data := page.data, itupPtr := 0, maxoff := page.maxoff, stats := s1 }
    { data := page.data, itupPtr := 0, maxoff := page.maxoff, stats := s2 } rfl rfl rfl
  unfold bulkDeletePage
  simp only
  rw [h1, h2, h3]

theorem bulkDeleteBlock_blocks {α : Type} (state : StateOptions α)
    (callback : ItemPointer → Bool) (acc : BulkDeleteState) (page : Page) :
    (bulkDeleteBlock state callback acc page).blocks
      = acc.blocks ++ [sweptPage callback page] := by
  unfold bulkDeleteBlock sweptPage
  by_cases hd : isDeleted page = true
  · simp [hd]
  · simp only [hd]
    rw [bulkDeletePage_fst callback page acc.stats palloc0Stats]
    split_ifs <;> rfl

theorem bulkDelete_blocks {α : Type} (state : StateOptions α)
    (callback : ItemPointer → Bool) :
    ∀ (blocks : List Page) (acc : BulkDeleteState),
      (blocks.foldl (bulkDeleteBlock state callback) acc).blocks
        = acc.blocks ++ blocks.map (sweptPage callback) := by
  intro blocks
  induction blocks with
  | nil => intro acc; simp
  | cons page blocks ih =>
    intro acc
    simp only [List.foldl_cons, List.map_cons]
    rw [ih, bulkDeleteBlock_blocks]
    simp

theorem vaBulkDelete_blocks {α : Type} (state : StateOptions α) (index : IndexRel α)
    (stats : Option IndexBulkDeleteResult) (callback : ItemPointer → Bool) :
    (vaBulkDelete state index stats callback).1.blocks
      = index.blocks.map (sweptPage callback) := by
  unfold vaBulkDelete
  simp only
  rw [bulkDelete_blocks]
  simp

/-! ### Tuple counts of bulk deletion and cleanup -/

theorem liveTuples_cons (p : Page) (ps : List Page) :
    liveTuples (p :: ps) = (if isDeleted p then [] else pageTuples p) ++ liveTuples ps := by
  unfold liveTuples
  by_cases h : isDeleted p = true
  · simp [List.filter_cons, h]
  · simp [List.filter_cons, h]

theorem liveTuples_all_deleted :
    ∀ (l : List Page), (∀ p ∈ l, isDeleted p = true) → liveTuples l = [] := by
  intro l
  induction l with
  | nil => intro _; rfl
  | cons p ps ih =>
    intro h
    rw [liveTuples_cons, if_pos (h p (List.mem_cons_self _ _)),
      ih (fun q hq => h q (List.mem_cons_of_mem _ hq))]
    rfl

theorem liveTuples_swept (callback : ItemPointer → Bool) (page : Page)
    (hwf : isDeleted page = false → page.maxoff ≤ page.data.length) :
    liveTuples [sweptPage callback page]
      = (liveTuples [page]).filter (fun t => !callback t.heapPtr) := by
  unfold sweptPage
  by_cases hd : isDeleted page = true
  · rw [if_pos hd, liveTuples_cons, if_pos hd]
    rfl
  · have hd1 : isDeleted page = false := by
      cases h : isDeleted page
      · rfl
      · exact absurd h hd
    obtain ⟨_, h2, _, h4, _⟩ := bulkDeletePage_spec callback page palloc0Stats (hwf hd1)
    rw [if_neg hd, liveTuples_cons, liveTuples_cons, if_neg hd]
    have hnil : liveTuples [] = [] := rfl
    rw [hnil, List.append_nil, List.append_nil, h2]
    by_cases hc : (pageTuples page).filter (fun t => !callback t.heapPtr) = [] ∧
        page.maxoff ≠ 0
    · rw [if_pos hc] at h4
      rw [if_pos (isDeleted_or _ page.flags h4), hc.1]
    · rw [if_neg hc] at h4
      rw [isDeleted_flags _ page h4, if_neg hd]

theorem liveTuples_map_swept (callback : ItemPointer → Bool) :
    ∀ (blocks : List Page),
      (∀ p ∈ blocks, isDeleted p = false → p.maxoff ≤ p.data.length) →
      liveTuples (blocks.map (sweptPage callback))
        = (liveTuples blocks).filter (fun t => !callback t.heapPtr) := by
  intro blocks
  induction blocks with
  | nil => intro _; rfl
  | cons p ps ih =>
    intro h
    have e1 : List.map (sweptPage callback) (p :: ps)
        = [sweptPage callback p] ++ List.map (sweptPage callback) ps := rfl
    have e2 : p :: ps = [p] ++ ps := rfl
    rw [e1, liveTuples_append, liveTuples_swept callback p (h p (List.mem_cons_self _ _)),
      ih (fun q hq => h q (List.mem_cons_of_mem _ hq)), e2, liveTuples_append,
      List.filter_append]

theorem sweptPage_wf (callback : ItemPointer → Bool) (page : Page)
    (hwf : isDeleted page = false → page.maxoff ≤ page.data.length)
    (hlive : isDeleted (sweptPage callback page) = false) :
    (sweptPage callback page).maxoff ≤ (sweptPage callback page).data.length := by
  unfold sweptPage at hlive ⊢
  by_cases hd : isDeleted page = true
  · rw [if_pos hd] at hlive
    rw [hlive] at hd
    cases hd
  · have hd1 : isDeleted page = false := by
      cases h : isDeleted page
      · rfl
      · exact absurd h hd
    rw [if_neg hd]
    exact bulkDeletePage_wf callback page palloc0Stats (hwf hd1)

theorem bulkDelete_count {α : Type} (state : StateOptions α)
    (callback : ItemPointer → Bool) :
    ∀ (blocks : List Page) (acc : BulkDeleteState),
      (∀ p ∈ blocks, isDeleted p = false → p.maxoff ≤ p.data.length) →
      (blocks.foldl (bulkDeleteBlock state callback) acc).stats.num_index_tuples
        = acc.stats.num_index_tuples
          + (liveTuples (blocks.map (sweptPage callback))).length := by
  intro blocks
  induction blocks with
  | nil => intro acc _; rfl
  | cons p ps ih =>
    intro acc h
    have e1 : List.map (sweptPage callback) (p :: ps)
        = [sweptPage callback p] ++ List.map (sweptPage callback) ps := rfl
    simp only [List.foldl_cons]
    rw [ih _ (fun q hq => h q (List.mem_cons_of_mem _ hq)), e1, liveTuples_append,
      List.length_append, liveTuples_swept callback p (h p (List.mem_cons_self _ _)),
      ← Nat.add_assoc]
    congr 1
    unfold bulkDeleteBlock
    by_cases hd : isDeleted p = true
    · rw [if_pos hd, liveTuples_cons, if_pos hd]
      rfl
    · have hd1 : isDeleted p = false := by
        cases h1 : isDeleted p
        · rfl
        · exact absurd h1 hd
      obtain ⟨_, _, _, _, h5⟩ := bulkDeletePage_spec callback p acc.stats
        (h p (List.mem_cons_self _ _) hd1)
      have hst : ∀ b : Bool, (if b = true then
            ({ blocks := acc.blocks ++ [(bulkDeletePage callback p acc.stats).1]
               notFullPage := acc.notFullPage ++ [acc.blocks.length + VA_HEAD_BLKNO]
               stats := (bulkDeletePage callback p acc.stats).2 } : BulkDeleteState)
          else { blocks := acc.blocks ++ [(bulkDeletePage callback p acc.stats).1]
                 notFullPage := acc.notFullPage
                 stats := (bulkDeletePage callback p acc.stats).2 }).stats
          = (bulkDeletePage callback p acc.stats).2 := by
        intro b
        cases b <;> rfl
      rw [if_neg hd]
      simp only
      rw [hst, h5, liveTuples_cons, if_neg hd]
      have hnil : liveTuples [] = [] := rfl
      rw [hnil, List.append_nil]

theorem cleanupBlock_deleted (acc : CleanupState) (q : Page) (hd : isDeleted q = true) :
    (cleanupBlock acc q).blkno = acc.blkno + 1 ∧
    (cleanupBlock acc q).lastFilledBlock = acc.lastFilledBlock ∧
    (cleanupBlock acc q).stats = acc.stats := by
  unfold cleanupBlock
  rw [if_pos hd]
  exact ⟨rfl, rfl, rfl⟩

theorem cleanupBlock_live (acc : CleanupState) (q : Page) (hd : ¬ isDeleted q = true) :
    (cleanupBlock acc q).blkno = acc.blkno + 1 ∧
    (cleanupBlock acc q).lastFilledBlock = acc.blkno ∧
    (cleanupBlock acc q).stats.num_index_tuples = acc.stats.num_index_tuples + q.maxoff := by
  unfold cleanupBlock
  rw [if_neg hd]
  exact ⟨rfl, rfl, rfl⟩

theorem cleanup_fold :
    ∀ (blocks : List Page) (acc : CleanupState),
      (∀ p ∈ blocks, isDeleted p = false → p.maxoff ≤ p.data.length) →
      acc.lastFilledBlock ≤ acc.blkno →
      (blocks.foldl cleanupBlock acc).stats.num_index_tuples
        = acc.stats.num_index_tuples + (liveTuples blocks).length ∧
      acc.lastFilledBlock ≤ (blocks.foldl cleanupBlock acc).lastFilledBlock ∧
      ∀ j p, blocks.get? j = some p →
        (blocks.foldl cleanupBlock acc).lastFilledBlock < acc.blkno + j →
        isDeleted p = true := by
  intro blocks
  induction blocks with
  | nil =>
    intro acc _ _
    refine ⟨rfl, le_refl _, ?_⟩
    intro j p h
    simp at h
  | cons q qs ih =>
    intro acc h hacc
    simp only [List.foldl_cons]
    by_cases hd : isDeleted q = true
    · obtain ⟨e1, e2, e3⟩ := cleanupBlock_deleted acc q hd
      obtain ⟨a, b, c⟩ := ih (cleanupBlock acc q)
        (fun p hp => h p (List.mem_cons_of_mem _ hp)) (by rw [e1, e2]; omega)
      rw [e3] at a
      rw [e2] at b
      rw [e1] at c
      refine ⟨?_, b, ?_⟩
      · rw [a, liveTuples_cons, if_pos hd]
        rfl
      · intro j p hj hlt
        cases j with
        | zero =>
          simp only [List.get?_cons_zero, Option.some.injEq] at hj
          rw [← hj]; exact hd
        | succ j =>
          simp only [List.get?_cons_succ] at hj
          exact c j p hj (by omega)
    · have hd1 : isDeleted q = false := by
        cases h1 : isDeleted q
        · rfl
        · exact absurd h1 hd
      obtain ⟨e1, e2, e3⟩ := cleanupBlock_live acc q hd
      obtain ⟨a, b, c⟩ := ih (cleanupBlock acc q)
        (fun p hp => h p (List.mem_cons_of_mem _ hp)) (by rw [e1, e2]; omega)
      rw [e3] at a
      rw [e2] at b
      rw [e1] at c
      refine ⟨?_, by omega, ?_⟩
      · rw [a, liveTuples_cons, if_neg hd, List.length_append]
        have hq : (pageTuples q).length = q.maxoff := by
          unfold pageTuples
          rw [List.length_take]
          exact Nat.min_eq_left (h q (List.mem_cons_self _ _) hd1)
        rw [hq]
        omega
      · intro j p hj hlt
        cases j with
        | zero => omega
        | succ j =>
          simp only [List.get?_cons_succ] at hj
          exact c j p hj (by omega)

theorem vaVacuumCleanup_count {α : Type} (index : IndexRel α) (fsm : List Nat)
    (stats0 : IndexBulkDeleteResult)
    (hwf : ∀ p ∈ index.blocks, isDeleted p = false → p.maxoff ≤ p.data.length) :
    ∃ stats, (vaVacuumCleanup false index fsm (some stats0)).2.2 = some stats ∧
      stats.num_index_tuples = stats0.num_index_tuples + (liveTuples index.blocks).length ∧
      liveTuples (vaVacuumCleanup false index fsm (some stats0)).1.blocks
        = liveTuples index.blocks := by
  obtain ⟨a, b, c⟩ := cleanup_fold index.blocks
    ⟨VA_HEAD_BLKNO, fsm, 0, VA_HEAD_BLKNO, stats0⟩ hwf (le_refl _)
  unfold vaVacuumCleanup
  simp only [Bool.false_eq_true, if_false, Option.getD_some]
  split_ifs with hl
  · refine ⟨_, rfl, a, ?_⟩
    simp only
    have hV : VA_HEAD_BLKNO = 1 := rfl
    have hsplit := List.take_append_drop
      ((index.blocks.foldl cleanupBlock
        ⟨VA_HEAD_BLKNO, fsm, 0, VA_HEAD_BLKNO, stats0⟩).lastFilledBlock + 1 - VA_HEAD_BLKNO)
      index.blocks
    have hdel : liveTuples (index.blocks.drop
        ((index.blocks.foldl cleanupBlock
          ⟨VA_HEAD_BLKNO, fsm, 0, VA_HEAD_BLKNO, stats0⟩).lastFilledBlock + 1 - VA_HEAD_BLKNO))
        = [] := by
      apply liveTuples_all_deleted
      intro p hp
      obtain ⟨j, hj⟩ := List.get?_of_mem hp
      rw [List.get?_eq_getElem?, List.getElem?_drop, ← List.get?_eq_getElem?] at hj
      apply c _ p hj
      show _ < VA_HEAD_BLKNO + _
      rw [hV]
      omega
    have := congrArg liveTuples hsplit
    rw [liveTuples_append, hdel, List.append_nil] at this
    exact this
  · exact ⟨_, rfl, a, rfl⟩

theorem vaBulkDelete_count {α : Type} (state : StateOptions α) (index : IndexRel α)
    (callback : ItemPointer → Bool)
    (hwf : ∀ p ∈ index.blocks, isDeleted p = false → p.maxoff ≤ p.data.length) :
    (vaBulkDelete state index none callback).2.num_index_tuples
      = ((liveTuples index.blocks).filter (fun t => !callback t.heapPtr)).length ∧
    liveTuples (vaBulkDelete state index none callback).1.blocks
      = (liveTuples index.blocks).filter (fun t => !callback t.heapPtr) ∧
    ∀ p ∈ (vaBulkDelete state index none callback).1.blocks,
      isDeleted p = false → p.maxoff ≤ p.data.length := by
  refine ⟨?_, ?_, ?_⟩
  · unfold vaBulkDelete
    simp only
    rw [bulkDelete_count state callback index.blocks _ hwf,
      liveTuples_map_swept callback index.blocks hwf]
    show 0 + _ = _
    omega
  · rw [vaBulkDelete_blocks, liveTuples_map_swept callback index.blocks hwf]
  · rw [vaBulkDelete_blocks]
    intro p hp hlive
    obtain ⟨q, hq, e⟩ := List.mem_map.mp hp
    rw [← e] at hlive ⊢
    exact sweptPage_wf callback q (hwf q hq) hlive

theorem vacuum_counts_twice {α : Type} (state : StateOptions α) (index : IndexRel α)
    (fsm : List Nat) (callback : ItemPointer → Bool)
    (hwf : ∀ p ∈ index.blocks, isDeleted p = false → p.maxoff ≤ p.data.length) :
    ∃ stats, (vaVacuumCleanup false (vaBulkDelete state index none callback).1 fsm
        (some (vaBulkDelete state index none callback).2)).2.2 = some stats ∧
      liveTuples (vaVacuumCleanup false (vaBulkDelete state index none callback).1 fsm
        (some (vaBulkDelete state index none callback).2)).1.blocks
        = (liveTuples index.blocks).filter (fun t => !callback t.heapPtr) ∧
      stats.num_index_tuples
        = 2 * ((liveTuples index.blocks).filter (fun t => !callback t.heapPtr)).length := by
  obtain ⟨h1, h2, h3⟩ := vaBulkDelete_count state index callback hwf
  obtain ⟨stats, e, hn, hl⟩ := vaVacuumCleanup_count
    (vaBulkDelete state index none callback).1 fsm
    (vaBulkDelete state index none callback).2 h3
  refine ⟨stats, e, ?_, ?_⟩
  · rw [hl, h2]
  · rw [hn, h1, h2]
    omega

theorem vaBuild_pages {α : Type} [LinearOrderedField α] (marks : List (List α))
    (heap : List (ItemPointer × Option (List α))) (nblocks : Nat) (index : IndexRel α)
    (h : vaBuild nblocks marks heap = Except.ok index) :
    ∀ p ∈ index.blocks, pageOK p := by
  unfold vaBuild at h
  by_cases hn : nblocks ≠ 0
  · rw [if_pos hn] at h; cases h
  · rw [if_neg hn] at h
    cases hscan : buildHeapScan (initBuildState marks) heap with
    | error e => rw [hscan] at h; cases h
    | ok final =>
      rw [hscan] at h
      simp only at h
      injection h with h
      subst h
      have hinv0 : buildInv (initBuildState marks) [] := by
        constructor
        · intro p hp; simp [initBuildState] at hp
        · rfl
      exact (buildHeapScan_inv heap _ final [] hinv0 hscan).1

theorem formTuple_heapPtr {α : Type} [LinearOrderedField α] (state : StateOptions α)
    (iptr : ItemPointer) (value : Option (List α)) :
    (formTuple state iptr value).heapPtr = iptr := by
  unfold formTuple
  cases value <;> rfl

theorem everyOther_count :
    ∀ n, ((List.range (2 * n)).filter (fun k => !everyOther k)).length = n := by
  intro n
  induction n with
  | zero => rfl
  | succ n ih =>
    have e : 2 * (n + 1) = 2 * n + 1 + 1 := by ring
    rw [e, List.range_succ, List.range_succ, List.filter_append, List.filter_append,
      List.length_append, List.length_append, ih]
    have h1 : everyOther (2 * n) = true := by
      unfold everyOther
      simp
    have h2 : everyOther (2 * n + 1) = false := by
      unfold everyOther
      simp
      omega
    simp [h1, h2]

/-- C19, refuted: an index is built over 1000 tuples, `vaBulkDelete` is called without
previous statistics and removes every other tuple, and `vaVacuumCleanup` follows; 500
tuples remain, and the statistics report `num_index_tuples = 1000`, since the survivors
are counted once by each of the two functions. -/
theorem vacuum_reports_twice_the_tuples :
    ∃ index, vaBuild 0 [unitMarks] heap1000 = Except.ok index ∧
      ∃ stats,
        (vaVacuumCleanup false
          (vaBulkDelete (initStateOptions [unitMarks]) index none everyOther).1 []
          (some (vaBulkDelete (initStateOptions [unitMarks]) index none everyOther).2)).2.2
          = some stats ∧
        (liveTuples (vaVacuumCleanup false
          (vaBulkDelete (initStateOptions [unitMarks]) index none everyOther).1 []
          (some (vaBulkDelete (initStateOptions [unitMarks]) index none everyOther).2)).1.blocks
          ).length = 500 ∧
        stats.num_index_tuples = 1000 := by
  obtain ⟨index, hb⟩ := vaBuild_ok [unitMarks] heap1000 (by simp)
  obtain ⟨_, _, hlive⟩ := vaBuild_liveTuples [unitMarks] heap1000 0 index hb
  have hwf : ∀ p ∈ index.blocks, isDeleted p = false → p.maxoff ≤ p.data.length := by
    intro p hp _
    exact le_of_eq (vaBuild_pages [unitMarks] heap1000 0 index hb p hp).2
  obtain ⟨stats, e, hl, hn⟩ := vacuum_counts_twice (initStateOptions [unitMarks]) index []
    everyOther hwf
  have hcount : ((liveTuples index.blocks).filter (fun t => !everyOther t.heapPtr)).length
      = 500 := by
    rw [hlive]
    unfold heap1000
    rw [List.map_map, List.filter_map, List.length_map]
    have := everyOther_count 500
    simpa [Function.comp, formTuple_heapPtr] using this
  refine ⟨index, hb, stats, e, ?_, ?_⟩
  · rw [hl, hcount]
  · rw [hn, hcount]

/-- C16, refuted: `vaInsert` into the index over `demoBlocks` as the build leaves it (no
block in the ring) stores the tuple on a new page and leaves `nChanges` as it was, while
the next `vaInsert`, which finds that page in the ring, increases `nChanges` by one; and
`vaBulkDelete` with a callback that removes all three tuples of that index leaves
`nChanges` as it was. -/
theorem nChanges_misses_new_page_and_emptied_index :
    (∃ r1, vaInsert (initStateOptions [unitMarks]) demoIndex [] 104 (some [5]) = Except.ok r1 ∧
      liveTuples r1.1.blocks = liveTuples demoIndex.blocks
        ++ [formTuple (initStateOptions [unitMarks]) 104 (some [5])] ∧
      r1.1.metaPage.nChanges = demoIndex.metaPage.nChanges ∧
      ∃ r2, vaInsert (initStateOptions [unitMarks]) r1.1 r1.2 105 (some [7]) = Except.ok r2 ∧
        liveTuples r2.1.blocks = liveTuples r1.1.blocks
          ++ [formTuple (initStateOptions [unitMarks]) 105 (some [7])] ∧
        r2.1.metaPage.nChanges = r1.1.metaPage.nChanges + 1) ∧
    (vaBulkDelete (initStateOptions [unitMarks]) demoIndex none (fun _ => true)).2.tuples_removed
      = 3 ∧
    liveTuples (vaBulkDelete (initStateOptions [unitMarks]) demoIndex none
      (fun _ => true)).1.blocks = [] ∧
    (vaBulkDelete (initStateOptions [unitMarks]) demoIndex none
      (fun _ => true)).1.metaPage.nChanges = demoIndex.metaPage.nChanges :=
  ⟨⟨_, rfl, by decide, by decide, _, rfl, by decide, by decide⟩,
    by decide, by decide, by decide⟩

/-- C18, refuted: an index is built over an empty heap and one tuple is inserted, which
puts block 1 in the ring; `vaBulkDelete` with a callback that removes the tuple, followed
by `vaVacuumCleanup`, flags block 1 as deleted and leaves it listed in
`notFullPage[nStart .. nEnd - 1]`; the next `vaInsert` stores its tuple on that deleted
page, where no scan sees it. -/
theorem vacuum_keeps_deleted_block_in_ring :
    ∃ index0, vaBuild 0 [unitMarks] [] = Except.ok index0 ∧
      ∃ r, vaInsert (initStateOptions [unitMarks]) index0 [] 201 (some [1]) = Except.ok r ∧
        ∃ page,
          (vaVacuumCleanup false
            (vaBulkDelete (initStateOptions [unitMarks]) r.1 none (fun _ => true)).1 r.2
            (some (vaBulkDelete (initStateOptions [unitMarks]) r.1 none
              (fun _ => true)).2)).1.metaPage
            = { magickNumber := VA_MAGICK_NUMBER, nChanges := 0, nStart := 0, nEnd := 1,
                notFullPage := [1] } ∧
          (vaVacuumCleanup false
            (vaBulkDelete (initStateOptions [unitMarks]) r.1 none (fun _ => true)).1 r.2
            (some (vaBulkDelete (initStateOptions [unitMarks]) r.1 none
              (fun _ => true)).2)).1.blocks.get? (1 - VA_HEAD_BLKNO) = some page ∧
          isDeleted page = true ∧
          ∃ r3, vaInsert (initStateOptions [unitMarks])
              (vaVacuumCleanup false
                (vaBulkDelete (initStateOptions [unitMarks]) r.1 none (fun _ => true)).1 r.2
                (some (vaBulkDelete (initStateOptions [unitMarks]) r.1 none
                  (fun _ => true)).2)).1
              (vaVacuumCleanup false
                (vaBulkDelete (initStateOptions [unitMarks]) r.1 none (fun _ => true)).1 r.2
                (some (vaBulkDelete (initStateOptions [unitMarks]) r.1 none
                  (fun _ => true)).2)).2.1
              202 (some [2]) = Except.ok r3 ∧
            liveTuples r3.1.blocks = [] :=
  ⟨_, rfl, _, rfl, _, by decide, rfl, by decide, _, rfl, by decide⟩


/-! ### The unit cube -/

theorem calculateMinkowski_small_norm {α : Type} [LinearOrderedField α] (dpow : α → α → α)
    (f1 f2 : List α) (n : α) (h0 : 0 < n) (h1 : n < 1 + EPSILON) :
    calculateMinkowski dpow f1 f2 n = calculateMinkowskiL1 f1 f2 := by
  unfold calculateMinkowski
  rw [if_pos ⟨by linarith, h0⟩]

/-- C21 (violated by the code): for the vectors (1, 1) and (0, 0) and the norm
`n = 1/2000`, which lies between 0 and `EPSILON`, `calculateMinkowski` returns the L1
distance 2, whatever the power function, while the L-infinity distance computed by
`calculateMinkowskiLmax` is 1: the test `n - 1 < EPSILON && n > 0` of the first branch
holds for every `n` between 0 and `1 + EPSILON`. -/
theorem calculateMinkowski_never_takes_max_branch (dpow : ℚ → ℚ → ℚ) :
    (0 : ℚ) < 1 / 2000 ∧ (1 / 2000 : ℚ) < EPSILON ∧
    calculateMinkowski dpow [1, 1] [0, 0] (1 / 2000) = 2 ∧
    calculateMinkowskiLmax ([1, 1] : List ℚ) [0, 0] = 1 ∧
    calculateMinkowskiL1 ([1, 1] : List ℚ) [0, 0] = 2 := by
  have hE : (EPSILON : ℚ) = 1 / 1000 := rfl
  have hL1 : calculateMinkowskiL1 ([1, 1] : List ℚ) [0, 0] = 2 := by
    simp [calculateMinkowskiL1]
    norm_num
  refine ⟨by norm_num, by rw [hE]; norm_num, ?_, ?_, hL1⟩
  · rw [calculateMinkowski_small_norm dpow _ _ _ (by norm_num) (by rw [hE]; norm_num), hL1]
  · simp [calculateMinkowskiLmax]

theorem weighted_unit_L1 {α : Type} [LinearOrderedField α] :
    ∀ (f1 f2 : List α) (acc : α), f1.length = f2.length →
      (List.zip f1 (List.zip f2 (List.replicate f1.length 1))).foldl
        (fun transResult p =>
          let diff := p.1 - p.2.1
          transResult + p.2.2 * (if diff < 0 then -diff else diff)) acc
      = (List.zip f1 f2).foldl (fun transResult p => transResult + |p.1 - p.2|) acc := by
  intro f1
  induction f1 with
  | nil => intro f2 acc _; rfl
  | cons x xs ih =>
    intro f2 acc h
    cases f2 with
    | nil => simp at h
    | cons y ys =>
      simp only [List.length_cons, List.replicate_succ, List.zip_cons_cons, List.foldl_cons]
      rw [ih ys _ (by simpa using h)]
      congr 1
      by_cases hd : x - y < 0
      · simp only [hd, if_true, one_mul, abs_of_neg hd]
      · simp only [hd, if_false, one_mul, abs_of_nonneg (not_lt.mp hd)]

theorem weighted_unit_Lmax {α : Type} [LinearOrderedField α] :
    ∀ (f1 f2 : List α) (acc : α), f1.length = f2.length →
      (List.zip f1 (List.zip f2 (List.replicate f1.length 1))).foldl
        (fun maxResult p =>
          let transResult := p.2.2 * |p.1 - p.2.1|
          if transResult > maxResult then transResult else maxResult) acc
      = (List.zip f1 f2).foldl
        (fun maxResult p => if |p.1 - p.2| > maxResult then |p.1 - p.2| else maxResult)
        acc := by
  intro f1
  induction f1 with
  | nil => intro f2 acc _; rfl
  | cons x xs ih =>
    intro f2 acc h
    cases f2 with
    | nil => simp at h
    | cons y ys =>
      simp only [List.length_cons, List.replicate_succ, List.zip_cons_cons, List.foldl_cons]
      rw [ih ys _ (by simpa using h)]
      simp only [one_mul]

theorem weighted_unit_Ln {α : Type} [LinearOrderedField α] (dpow : α → α → α) (n : α)
    (hsym : ∀ x, dpow x n = dpow |x| n) :
    ∀ (f1 f2 : List α) (acc : α), f1.length = f2.length →
      (List.zip f1 (List.zip f2 (List.replicate f1.length 1))).foldl
        (fun transResult p =>
          let diff := p.1 - p.2.1
          let pow := dpow diff n
          transResult + p.2.2 * pow) acc
      = (List.zip f1 f2).foldl (fun transResult p => transResult + dpow |p.1 - p.2| n)
        acc := by
  intro f1
  induction f1 with
  | nil => intro f2 acc _; rfl
  | cons x xs ih =>
    intro f2 acc h
    cases f2 with
    | nil => simp at h
    | cons y ys =>
      simp only [List.length_cons, List.replicate_succ, List.zip_cons_cons, List.foldl_cons]
      rw [ih ys _ (by simpa using h)]
      simp only [one_mul, hsym (x - y)]

/-- With unit weights the weighted distance is the plain one whenever the norm selects the
L1 or the L-infinity branch, or the power function does not see the sign of its base. -/
theorem calculateWeightedMinkowski_unit {α : Type} [LinearOrderedField α]
    (dpow : α → α → α) (f1 f2 : List α) (n : α) (hlen : f1.length = f2.length)
    (hsym : (n - 1 < EPSILON ∧ n > 0) ∨ ∀ x, dpow x n = dpow |x| n) :
    calculateWeightedMinkowski dpow f1 f2 n (List.replicate f1.length 1)
      = calculateMinkowski dpow f1 f2 n := by
  unfold calculateWeightedMinkowski calculateMinkowski
  by_cases h1 : n - 1 < EPSILON ∧ n > 0
  · rw [if_pos h1, if_pos h1]
    exact weighted_unit_L1 f1 f2 0 hlen
  · rw [if_neg h1, if_neg h1]
    by_cases h2 : n < EPSILON ∧ n > 0
    · rw [if_pos h2, if_pos h2]
      exact weighted_unit_Lmax f1 f2 0 hlen
    · rw [if_neg h2, if_neg h2]
      rcases hsym with h | h
      · exact absurd h h1
      · exact weighted_unit_Ln dpow n h f1 f2 0 hlen

theorem qpow_three (x : ℚ) : qpow x 3 = x ^ 3 := by
  unfold qpow
  have : Nat.floor (3 : ℚ) = 3 := by simp
  rw [this]

/-- C29 (violated by the code): for the vectors (0) and (1), the norm 3 and the weight
vector (1), `calculateWeightedMinkowski` returns `(0 - 1)^3 = -1`, because
`calculateWeightedMinkowskiLn` raises the difference itself to the power, while
`calculateMinkowski` returns `|0 - 1|^3 = 1`. -/
theorem weighted_distance_keeps_sign :
    calculateWeightedMinkowski qpow [0] [1] 3 [1] = -1 ∧
    calculateMinkowski qpow [0] [1] 3 = 1 := by
  have hE : (EPSILON : ℚ) = 1 / 1000 := rfl
  have h1 : ¬ ((3 : ℚ) - 1 < EPSILON ∧ (3 : ℚ) > 0) := by rw [hE]; norm_num
  have h2 : ¬ ((3 : ℚ) < EPSILON ∧ (3 : ℚ) > 0) := by rw [hE]; norm_num
  constructor
  · unfold calculateWeightedMinkowski
    rw [if_neg h1, if_neg h2]
    simp only [calculateWeightedMinkowskiLn, List.zip_cons_cons, List.zip_nil_right,
      List.foldl_cons, List.foldl_nil, qpow_three]
    norm_num
  · unfold calculateMinkowski
    rw [if_neg h1, if_neg h2]
    simp only [calculateMinkowskiLn, List.zip_cons_cons, List.zip_nil_right,
      List.foldl_cons, List.foldl_nil, qpow_three]
    norm_num

/-! ### Normalisation and complement -/

/-- C22, refuted as stated: for the distance 0 and the parameter `max = -2`,
`normalizeMinMax` returns 1, while `min(1, 0 / -2)` clamped to `[0, 1]` is 0. -/
theorem normalizeMinMax_negative_max :
    normalizeMinMax (0 : ℚ) (-2) = Except.ok 1 ∧
    max 0 (min 1 ((0 : ℚ) / (-2))) = 0 := by
  constructor
  · unfold normalizeMinMax
    simp only
    rw [if_pos (by norm_num)]
    simp
  · norm_num

/-- C22, amended: for a positive parameter `max`, `normalizeMinMax(d, max)` is
`min(1, d / max)` clamped to `[0, 1]`; for a negative `max` it is 1 for every distance;
for every non-zero `max` a value in `[0, 1]` is returned. -/
theorem normalizeMinMax_cases {α : Type} [LinearOrderedField α] (d mx : α) :
    (0 < mx → normalizeMinMax d mx = Except.ok (max 0 (min 1 (d / mx)))) ∧
    (mx < 0 → normalizeMinMax d mx = Except.ok 1) ∧
    (mx ≠ 0 → ∃ r, normalizeMinMax d mx = Except.ok r ∧ 0 ≤ r ∧ r ≤ 1) := by
  have hpos : 0 < mx → normalizeMinMax d mx = Except.ok (max 0 (min 1 (d / mx))) := by
    intro h
    unfold normalizeMinMax
    simp only
    by_cases hge : d ≥ mx
    · rw [if_pos hge]
      have h1 : 1 ≤ d / mx := by rw [le_div_iff₀ h]; linarith
      simp only [gt_iff_lt, lt_self_iff_false, if_false]
      rw [if_neg (by norm_num), min_eq_left h1, max_eq_right (by norm_num)]
    · rw [if_neg hge]
      have hne : mx ≠ 0 := ne_of_gt h
      simp only [numeric_div, if_neg hne]
      have hlt : d / mx < 1 := by rw [div_lt_one h]; exact not_le.mp hge
      have he : 1 / mx * d = d / mx := by field_simp
      rw [he, if_neg (not_lt.mpr (le_of_lt hlt)), min_eq_right (le_of_lt hlt)]
      by_cases hn : d / mx < 0
      · rw [if_pos hn, max_eq_left (le_of_lt hn)]
      · rw [if_neg hn, max_eq_right (not_lt.mp hn)]
  have hneg : mx < 0 → normalizeMinMax d mx = Except.ok 1 := by
    intro h
    unfold normalizeMinMax
    simp only
    by_cases hge : d ≥ mx
    · rw [if_pos hge]
      simp only [gt_iff_lt, lt_self_iff_false, if_false]
      rw [if_neg (by norm_num)]
    · rw [if_neg hge]
      have hne : mx ≠ 0 := ne_of_lt h
      simp only [numeric_div, if_neg hne]
      have he : 1 / mx * d = d / mx := by field_simp
      have hgt : 1 < d / mx := by
        rw [lt_div_iff_of_neg h]
        linarith [not_le.mp hge]
      rw [he, if_pos hgt, if_neg (by norm_num)]
  refine ⟨hpos, hneg, ?_⟩
  intro hne
  rcases lt_or_gt_of_ne hne with h | h
  · exact ⟨1, hneg h, by norm_num, le_refl _⟩
  · exact ⟨_, hpos h, le_max_left _ _, max_le (by norm_num) (min_le_left _ _)⟩

/-- C22, amended, for the distance 1 and `max = 4`. -/
theorem normalizeMinMax_cases_witness :
    (0 : ℚ) < 4 ∧ normalizeMinMax (1 : ℚ) 4 = Except.ok (max 0 (min 1 ((1 : ℚ) / 4))) :=
  ⟨by norm_num, (normalizeMinMax_cases (1 : ℚ) 4).1 (by norm_num)⟩

/-- C23, refuted as stated: called with the value 1/2 and the parameter 1,
`sugeno_except` returns 2/3, while `(1 - 1/2) / (1 + 1 * 1/2)` is 1/3. -/
theorem sugeno_except_returns_distance :
    sugeno_except [(1 / 2 : ℚ), 1] = Except.ok (2 / 3) ∧
    ((1 : ℚ) - 1 / 2) / (1 + 1 * (1 / 2)) = 1 / 3 := by
  constructor
  · simp only [sugeno_except, distance_to_similarity, similarity_to_distance]
    norm_num
  · norm_num

/-- C23, amended: the argument of `sugeno_except` is a distance `d` in `[0, 1]`, which
stands for the membership value `m = 1 - d`; for every parameter above -1 the function
returns the distance `1 - (1 - m) / (1 + l * m)`, that is, the Sugeno complement of `m`
converted back to a distance. -/
theorem sugeno_except_complement {α : Type} [LinearOrderedField α] (d l : α)
    (h0 : 0 ≤ d) (h1 : d ≤ 1) (hl : -1 < l) :
    sugeno_except [d, l] = Except.ok (1 - (1 - (1 - d)) / (1 + l * (1 - d))) := by
  have hden : 0 < 1 + l * (1 - d) := by
    have hm0 : 0 ≤ 1 - d := by linarith
    have hm1 : 1 - d ≤ 1 := by linarith
    by_cases hl0 : 0 ≤ l
    · have := mul_nonneg hl0 hm0
      linarith
    · have hlneg : l ≤ 0 := le_of_lt (not_le.mp hl0)
      have : l * 1 ≤ l * (1 - d) := mul_le_mul_of_nonpos_left hm1 hlneg
      linarith
  have hnum : distance_to_similarity d = 1 - d := by
    unfold distance_to_similarity
    simp only
    rw [if_neg (not_lt.mpr h1), if_neg (not_lt.mpr h0)]
  have hc0 : 0 ≤ (1 - (1 - d)) / (1 + l * (1 - d)) :=
    div_nonneg (by linarith) (le_of_lt hden)
  have hc1 : (1 - (1 - d)) / (1 + l * (1 - d)) ≤ 1 := by
    rw [div_le_one hden]
    have hm0 : 0 ≤ 1 - d := by linarith
    have : 0 ≤ (l + 1) * (1 - d) := mul_nonneg (by linarith) hm0
    nlinarith
  simp only [sugeno_except, hnum]
  unfold similarity_to_distance
  simp only
  rw [if_neg (not_lt.mpr hc1), if_neg (not_lt.mpr hc0)]

/-- C23, amended, for the distance 1/2 and the parameter 1. -/
theorem sugeno_except_complement_witness :
    (0 : ℚ) ≤ 1 / 2 ∧ (1 / 2 : ℚ) ≤ 1 ∧ (-1 : ℚ) < 1 ∧
    sugeno_except [(1 / 2 : ℚ), 1]
      = Except.ok (1 - (1 - (1 - 1 / 2)) / (1 + 1 * (1 - 1 / 2))) :=
  ⟨by norm_num, by norm_num, by norm_num,
    sugeno_except_complement (1 / 2 : ℚ) 1 (by norm_num) (by norm_num) (by norm_num)⟩

/-! ### The queue check -/

/-- C24: for every queue and every key, `insertIntoQueueCheck` returns true if and only
if `currentSize < maxSize` or the comparator applied to the key and the slot
`maxSize - 1` returns a value `<= 0`. The source assigns to no field of the queue in this
function, so its embedding has the queue as an argument only. -/
theorem insertIntoQueueCheck_iff {α : Type} [Inhabited α] (cmp : α → α → Int)
    (q : PriorityQueue α) (key : α) :
    (insertIntoQueueCheck cmp q key = true ↔
      (q.currentSize < q.maxSize ∨ cmp key (q.queue.getD (q.maxSize - 1) default) ≤ 0)) := by
  unfold insertIntoQueueCheck
  by_cases h1 : q.currentSize < q.maxSize
  · simp [h1]
  · by_cases h2 : cmp key (q.queue.getD (q.maxSize - 1) default) ≤ 0
    · simp [h1, h2]
    · simp [h1, h2]

/-! ### The last slot of a table row -/

theorem tableLoop_last_head {α : Type} (entry : α → α → α → α) (n : Nat) (hn : 1 ≤ n)
    (f : α) (fs : List α) (row : List α) (ms : List (List α)) (j : Int) (results : Int → α)
    (hlen : row.length = n) (hrows : ∀ r ∈ ms, r.length = n) :
    tableLoop entry (f :: fs) (row :: ms) j results (j * n + n - 1) = results (j * n - 2) := by
  simp only [tableLoop, hlen]
  rw [tableLoop_frame entry n hn fs ms (j + 1) _ _ hrows (by
    have : (1 : Int) ≤ n := by exact_mod_cast hn
    linarith), Function.update_same]
  exact rowLoop_frame _ _ _ _ _ _ (Or.inl (by omega))

theorem tableLoop_last {α : Type} (entry : α → α → α → α) (n : Nat) (hn : 2 ≤ n) :
    ∀ (fs : List α) (ms : List (List α)) (j : Int) (results : Int → α) (d : Nat)
      (f0 f : α) (row0 row : List α) (m mp1 : α),
      (∀ r ∈ ms, r.length = n) → fs.get? d = some f0 → ms.get? d = some row0 →
      fs.get? (d + 1) = some f → ms.get? (d + 1) = some row →
      row0.get? (n - 2) = some m → row0.get? (n - 1) = some mp1 →
      tableLoop entry fs ms j results ((j + d + 1) * n + n - 1) = entry f0 m mp1 := by
  intro fs
  induction fs with
  | nil => intro ms j results d f0 f row0 row m mp1 _ h; simp at h
  | cons g fs ih =>
    intro ms j results d f0 f row0 row m mp1 hrows hf0 hrow0 hf hrow hm hmp1
    cases ms with
    | nil => simp at hrow0
    | cons r0 ms =>
      have hlen0 : r0.length = n := hrows r0 (List.mem_cons_self _ _)
      have hrows1 : ∀ r ∈ ms, r.length = n := fun r hr => hrows r (List.mem_cons_of_mem _ hr)
      cases d with
      | zero =>
        simp only [List.get?_cons_zero, Option.some.injEq] at hf0 hrow0
        simp only [zero_add, List.get?_cons_succ] at hf hrow
        subst hf0 hrow0
        cases fs with
        | nil => simp at hf
        | cons f1 fs1 =>
          cases ms with
          | nil => simp at hrow
          | cons r1 ms1 =>
            have hlen1 : r1.length = n := hrows1 r1 (List.mem_cons_self _ _)
            have hrows2 : ∀ r ∈ ms1, r.length = n :=
              fun r hr => hrows1 r (List.mem_cons_of_mem _ hr)
            have hn1 : ((n - 2 : Nat) : Int) = (n : Int) - 2 := by
              rw [Nat.cast_sub hn]
              rfl
            have hidx : (j + ((0 : Nat) : Int) + 1) * (n : Int) + n - 1
                = (j + 1) * (n : Int) + n - 1 := by
              push_cast
              ring
            have hstep : tableLoop entry (g :: f1 :: fs1) (r0 :: r1 :: ms1) j results
                = tableLoop entry (f1 :: fs1) (r1 :: ms1) (j + 1)
                    (Function.update (rowLoop (entry g) (j * (n : Int)) r0 0 results)
                      (j * (n : Int) + n - 1)
                      (rowLoop (entry g) (j * (n : Int)) r0 0 results (j * (n : Int) - 2))) := by
              simp only [tableLoop, hlen0]
            rw [hidx, hstep, tableLoop_last_head entry n (by omega) f1 fs1 r1 ms1 (j + 1) _
              hlen1 hrows2]
            have hne : (j + 1) * (n : Int) - 2 ≠ j * (n : Int) + n - 1 := by
              intro e
              have : (j + 1) * (n : Int) = j * (n : Int) + n := by ring
              omega
            rw [Function.update_noteq hne]
            have hm1 : r0.get? (n - 2 + 1) = some mp1 := by
              have : n - 2 + 1 = n - 1 := by omega
              rw [this]
              exact hmp1
            have := rowLoop_get (entry g) (j * (n : Int)) r0 0 results (n - 2) m mp1 hm hm1
            rw [← this]
            congr 1
            rw [hn1]
            ring
      | succ d' =>
        simp only [List.get?_cons_succ] at hf0 hrow0 hf hrow
        have hstep : tableLoop entry (g :: fs) (r0 :: ms) j results
            = tableLoop entry fs ms (j + 1)
                (Function.update (rowLoop (entry g) (j * (n : Int)) r0 0 results)
                  (j * (n : Int) + n - 1)
                  (rowLoop (entry g) (j * (n : Int)) r0 0 results (j * (n : Int) - 2))) := by
          simp only [tableLoop, hlen0]
        rw [hstep]
        have := ih ms (j + 1) (Function.update (rowLoop (entry g) (j * (n : Int)) r0 0 results)
          (j * (n : Int) + n - 1)
          (rowLoop (entry g) (j * (n : Int)) r0 0 results (j * (n : Int) - 2)))
          d' f0 f row0 row m mp1 hrows1 hf0 hrow0 hf hrow hm hmp1
        rw [← this]
        congr 1
        push_cast
        ring

theorem unitMarks_rows2 : ∀ r ∈ [unitMarks, unitMarks], r.length = 64 := by
  intro r hr
  simp only [List.mem_cons, List.mem_singleton, List.not_mem_nil, or_false, or_self] at hr
  rw [hr, unitMarks_length]

/-- C25 (violated by the code): for two dimensions with the marks 0, 1, ..., 63, the query
(10, 0) and the norm 1, the last slot of row 1 (index 127) of the lower table holds 52 and
that of the upper table 53, which are the values of slot 62 of row 0, while slot 62 of
row 1 (index 126) holds 62 and 63; the last slot of row 0 (index 63) holds what the memory
held two slots before the table. The statement executed after the inner loop is
`results[j * i_max + i_max - 1] = results[j * i_max - 2]`. -/
theorem last_slot_copies_previous_row (junk : Int → ℚ) :
    precompute_differences_lbound_lnorm qpow [10, 0] [unitMarks, unitMarks] 1 junk 127 = 52 ∧
    precompute_differences_lbound_lnorm qpow [10, 0] [unitMarks, unitMarks] 1 junk 126 = 62 ∧
    precompute_differences_lbound_lnorm qpow [10, 0] [unitMarks, unitMarks] 1 junk 63
      = junk (-2) ∧
    precompute_differences_ubound_lnorm qpow [10, 0] [unitMarks, unitMarks] 1 junk 127 = 53 ∧
    precompute_differences_ubound_lnorm qpow [10, 0] [unitMarks, unitMarks] 1 junk 126 = 63 ∧
    precompute_differences_ubound_lnorm qpow [10, 0] [unitMarks, unitMarks] 1 junk 63
      = junk (-2) := by
  have i127 : (127 : Int) = (0 + ((0 : Nat) : Int) + 1) * ((64 : Nat) : Int) + ((64 : Nat) : Int) - 1 := by
    norm_num
  have i126 : (126 : Int) = (0 + ((1 : Nat) : Int)) * ((64 : Nat) : Int) + ((62 : Nat) : Int) := by
    norm_num
  have i63 : (63 : Int) = 0 * ((64 : Nat) : Int) + ((64 : Nat) : Int) - 1 := by norm_num
  have im2 : (-2 : Int) = 0 * ((64 : Nat) : Int) - 2 := by norm_num
  have h62 : unitMarks.get? (64 - 2) = some ((62 : Nat) : ℚ) := unitMarks_get 62 (by omega)
  have h63 : unitMarks.get? (64 - 1) = some ((63 : Nat) : ℚ) := unitMarks_get 63 (by omega)
  have hfl : i4tod_Int32GetDatum (1 : ℚ) = 1 := by
    unfold i4tod_Int32GetDatum
    simp
  refine ⟨?_, ?_, ?_, ?_, ?_, ?_⟩
  · unfold precompute_differences_lbound_lnorm
    rw [i127, tableLoop_last (lboundEntry qpow 1) 64 (by omega) [10, 0] [unitMarks, unitMarks]
      0 junk 0 10 0 unitMarks unitMarks _ _ unitMarks_rows2 rfl rfl rfl rfl h62 h63]
    simp only [lboundEntry, qpow_one]
    norm_num
  · unfold precompute_differences_lbound_lnorm
    rw [i126, tableLoop_get (lboundEntry qpow 1) 64 [10, 0] [unitMarks, unitMarks] 0 junk 1 62
      0 unitMarks _ _ unitMarks_rows2 rfl rfl (unitMarks_get 62 (by omega))
      (unitMarks_get 63 (by omega))]
    simp only [lboundEntry, qpow_one]
    norm_num
  · unfold precompute_differences_lbound_lnorm
    rw [i63, tableLoop_last_head (lboundEntry qpow 1) 64 (by omega) 10 [0] unitMarks [unitMarks]
      0 junk unitMarks_length unitMarks_rows, ← im2]
  · unfold precompute_differences_ubound_lnorm
    rw [hfl, i127, tableLoop_last (uboundEntry qpow 1) 64 (by omega) [10, 0]
      [unitMarks, unitMarks] 0 junk 0 10 0 unitMarks unitMarks _ _ unitMarks_rows2 rfl rfl rfl
      rfl h62 h63]
    simp only [uboundEntry, qpow_one]
    norm_num
  · unfold precompute_differences_ubound_lnorm
    rw [hfl, i126, tableLoop_get (uboundEntry qpow 1) 64 [10, 0] [unitMarks, unitMarks] 0 junk
      1 62 0 unitMarks _ _ unitMarks_rows2 rfl rfl (unitMarks_get 62 (by omega))
      (unitMarks_get 63 (by omega))]
    simp only [uboundEntry, qpow_one]
    norm_num
  · unfold precompute_differences_ubound_lnorm
    rw [hfl, i63, tableLoop_last_head (uboundEntry qpow 1) 64 (by omega) 10 [0] unitMarks
      [unitMarks] 0 junk unitMarks_length unitMarks_rows, ← im2]

/-! ### Table entries and the distance in one dimension -/

/-- C28: for a positive integer exponent `k` (with `dpow x k = x ^ k` on non-negative `x`),
a cell `p` of row `d` with marks `m <= mp1`, a value `v` with `m <= v <= mp1` and the query
component `qd`, the entries `d * n + p` of the tables built by
`precompute_differences_lbound_lnorm` and `precompute_differences_ubound_lnorm` satisfy
`0 <= lb <= |v - qd| ^ k <= ub`. -/
theorem table_entries_enclose {α : Type} [LinearOrderedField α] [FloorRing α]
    (dpow : α → α → α) (q : List α) (marks : List (List α)) (k : Nat) (junk : Int → α)
    (n d p : Nat) (qd v : α) (row : List α) (m mp1 : α)
    (hk : 1 ≤ k) (hpow : ∀ x, 0 ≤ x → dpow x (k : α) = x ^ k)
    (hrows : ∀ r ∈ marks, r.length = n) (hq : q.get? d = some qd)
    (hrow : marks.get? d = some row) (hm : row.get? p = some m)
    (hmp1 : row.get? (p + 1) = some mp1) (hle : m ≤ mp1) (h1 : m ≤ v) (h2 : v ≤ mp1) :
    0 ≤ precompute_differences_lbound_lnorm dpow q marks (k : α) junk ((d : Int) * n + p) ∧
    precompute_differences_lbound_lnorm dpow q marks (k : α) junk ((d : Int) * n + p)
      ≤ |v - qd| ^ k ∧
    |v - qd| ^ k
      ≤ precompute_differences_ubound_lnorm dpow q marks (k : α) junk ((d : Int) * n + p) := by
  have hmono : ∀ a b, 0 ≤ a → a ≤ b → dpow a (k : α) ≤ dpow b (k : α) := by
    intro a b ha hab
    rw [hpow a ha, hpow b (le_trans ha hab)]
    exact pow_le_pow_left₀ ha hab k
  have hzero : dpow 0 (k : α) = 0 := by
    rw [hpow 0 (le_refl _)]
    exact zero_pow (by omega)
  have hlb : precompute_differences_lbound_lnorm dpow q marks (k : α) junk ((d : Int) * n + p)
      = lboundEntry dpow (k : α) qd m mp1 := by
    unfold precompute_differences_lbound_lnorm
    have h := tableLoop_get (lboundEntry dpow (k : α)) n q marks 0 junk d p qd row m mp1 hrows
      hq hrow hm hmp1
    rw [zero_add] at h
    exact h
  have hub : precompute_differences_ubound_lnorm dpow q marks (k : α) junk ((d : Int) * n + p)
      = uboundEntry dpow (k : α) qd m mp1 := by
    rw [ubound_entry_eq dpow q marks (k : α) junk n d p qd row m mp1 hrows hq hrow hm hmp1,
      Nat.floor_natCast]
  rw [hlb, hub]
  refine ⟨?_, ?_, ?_⟩
  · unfold lboundEntry
    split_ifs with a b
    · rw [hpow _ (by linarith)]
      exact pow_nonneg (by linarith) k
    · rw [hpow _ (by linarith)]
      exact pow_nonneg (by linarith) k
    · exact le_refl _
  · have := lboundEntry_le dpow (k : α) v qd m mp1 hmono hzero h1 h2
    rw [hpow _ (abs_nonneg _)] at this
    exact this
  · have := le_uboundEntry dpow (k : α) v qd m mp1 hmono h1 h2
    rw [hpow _ (abs_nonneg _)] at this
    exact this

/-- C28, for the marks 0, 1, ..., 63, the query component 10, the cell 3, the value 7/2
and the exponent 2. -/
theorem table_entries_enclose_witness :
    0 ≤ precompute_differences_lbound_lnorm qpow [10] [unitMarks] ((2 : Nat) : ℚ) (fun _ => 0)
        (((0 : Nat) : Int) * (64 : Nat) + (3 : Nat)) ∧
    precompute_differences_lbound_lnorm qpow [10] [unitMarks] ((2 : Nat) : ℚ) (fun _ => 0)
        (((0 : Nat) : Int) * (64 : Nat) + (3 : Nat)) ≤ |(7 / 2 : ℚ) - 10| ^ 2 ∧
    |(7 / 2 : ℚ) - 10| ^ 2
      ≤ precompute_differences_ubound_lnorm qpow [10] [unitMarks] ((2 : Nat) : ℚ) (fun _ => 0)
        (((0 : Nat) : Int) * (64 : Nat) + (3 : Nat)) :=
  table_entries_enclose qpow [10] [unitMarks] 2 (fun _ => 0) 64 0 3 10 (7 / 2) unitMarks
    ((3 : Nat) : ℚ) ((3 + 1 : Nat) : ℚ) (by omega)
    (by intro x _; simp [qpow])
    unitMarks_rows rfl rfl (unitMarks_get 3 (by omega)) (unitMarks_get 4 (by omega))
    (by norm_num) (by norm_num) (by norm_num)

/-! ### The scan for the nearest neighbour -/

theorem btfloat8cmp_le {α : Type} [LinearOrder α] (a b : α) :
    btfloat8cmp a b ≤ 0 ↔ a ≤ b := by
  unfold btfloat8cmp
  by_cases h1 : a < b
  · simp [h1, le_of_lt h1]
  · by_cases h2 : b < a
    · simp [h1, h2]
    · simp [h1, h2, not_lt.mp h2]

theorem firstPassTuple_one {α : Type} [LinearOrderedField α] [Inhabited α]
    (lb ub : Tuple → α) (u : α) (t : Tuple) (hLU : lb t ≤ ub t) :
    firstPassTuple lb ub { maxSize := 1, currentSize := 1, queue := [u] } t
      = { maxSize := 1, currentSize := 1, queue := [min u (ub t)] } := by
  unfold firstPassTuple insertIntoQueueCheck insertIntoQueue
  simp only [lt_self_iff_false, if_false, Nat.sub_self, List.getD_cons_zero, btfloat8cmp_le]
  by_cases h1 : lb t ≤ u
  · by_cases h2 : ub t ≤ u
    · simp [h1, h2, qsort_arg, min_eq_right h2]
    · simp [h1, h2, min_eq_left (le_of_lt (not_le.mp h2))]
  · have h2 : u ≤ ub t := le_trans (le_of_lt (not_le.mp h1)) hLU
    simp [h1, min_eq_left h2]

theorem firstPass_one {α : Type} [LinearOrderedField α] [Inhabited α]
    (lb ub : Tuple → α) :
    ∀ (ts : List Tuple) (u : α), (∀ t ∈ ts, lb t ≤ ub t) →
      ts.foldl (firstPassTuple lb ub) { maxSize := 1, currentSize := 1, queue := [u] }
        = { maxSize := 1, currentSize := 1,
            queue := [ts.foldl (fun m t => min m (ub t)) u] } := by
  intro ts
  induction ts with
  | nil => intro u _; rfl
  | cons t ts ih =>
    intro u h
    simp only [List.foldl_cons]
    rw [firstPassTuple_one lb ub u t (h t (List.mem_cons_self _ _)),
      ih _ (fun s hs => h s (List.mem_cons_of_mem _ hs))]

theorem firstPassTuple_first {α : Type} [LinearOrderedField α] [Inhabited α]
    (lb ub : Tuple → α) (j : α) (t : Tuple) :
    firstPassTuple lb ub (createQueue 1 j) t
      = { maxSize := 1, currentSize := 1, queue := [ub t] } := by
  simp [firstPassTuple, insertIntoQueueCheck, insertIntoQueue, createQueue, qsort_arg,
    List.insertionSort]

theorem foldl_min_spec {α β : Type} [LinearOrder α] (g : β → α) :
    ∀ (ts : List β) (u : α),
      ts.foldl (fun m t => min m (g t)) u ≤ u ∧
      (∀ t ∈ ts, ts.foldl (fun m t => min m (g t)) u ≤ g t) ∧
      (ts.foldl (fun m t => min m (g t)) u = u ∨
        ∃ t ∈ ts, ts.foldl (fun m t => min m (g t)) u = g t) := by
  intro ts
  induction ts with
  | nil => intro u; exact ⟨le_refl _, by simp, Or.inl rfl⟩
  | cons s ts ih =>
    intro u
    simp only [List.foldl_cons]
    obtain ⟨a, b, c⟩ := ih (min u (g s))
    refine ⟨le_trans a (min_le_left _ _), ?_, ?_⟩
    · intro t ht
      rcases List.mem_cons.mp ht with h | h
      · rw [h]; exact le_trans a (min_le_right _ _)
      · exact b t h
    · rcases c with c | ⟨t, ht, e⟩
      · rcases le_total u (g s) with h | h
        · left; rw [c, min_eq_left h]
        · right; exact ⟨s, List.mem_cons_self _ _, by rw [c, min_eq_right h]⟩
      · right; exact ⟨t, List.mem_cons_of_mem _ ht, e⟩

theorem passes_one {α : Type} [LinearOrderedField α] [Inhabited α] (lb ub : Tuple → α)
    (j : α) (ts : List Tuple) (hne : ts ≠ []) (hLU : ∀ t ∈ ts, lb t ≤ ub t) :
    ts.filter (fun itup => insertIntoQueueCheck btfloat8cmp
        (ts.foldl (firstPassTuple lb ub) (createQueue 1 j)) (lb itup))
      = ts.filter (fun t => ts.all (fun s => decide (lb t ≤ ub s))) := by
  cases ts with
  | nil => exact absurd rfl hne
  | cons t0 rest =>
    have hq : (t0 :: rest).foldl (firstPassTuple lb ub) (createQueue 1 j)
        = { maxSize := 1, currentSize := 1,
            queue := [rest.foldl (fun m t => min m (ub t)) (ub t0)] } := by
      simp only [List.foldl_cons]
      rw [firstPassTuple_first, firstPass_one lb ub rest _
        (fun s hs => hLU s (List.mem_cons_of_mem _ hs))]
    rw [hq]
    obtain ⟨a, b, c⟩ := foldl_min_spec ub rest (ub t0)
    apply List.filter_congr
    intro t _
    have hcheck : insertIntoQueueCheck btfloat8cmp
        ({ maxSize := 1, currentSize := 1,
           queue := [rest.foldl (fun m t => min m (ub t)) (ub t0)] } : PriorityQueue α) (lb t)
        = decide (lb t ≤ rest.foldl (fun m t => min m (ub t)) (ub t0)) := by
      unfold insertIntoQueueCheck
      simp only [lt_self_iff_false, if_false, Nat.sub_self, List.getD_cons_zero,
        btfloat8cmp_le]
      by_cases h : lb t ≤ rest.foldl (fun m t => min m (ub t)) (ub t0)
      · simp [h]
      · simp [h]
    rw [hcheck]
    by_cases h : lb t ≤ rest.foldl (fun m t => min m (ub t)) (ub t0)
    · have hall : ∀ s ∈ t0 :: rest, lb t ≤ ub s := by
        intro s hs
        rcases List.mem_cons.mp hs with e | e
        · rw [e]; exact le_trans h a
        · exact le_trans h (b s e)
      simp only [h, decide_True]
      symm
      rw [List.all_eq_true]
      intro s hs
      exact decide_eq_true (hall s hs)
    · simp only [h, decide_False]
      symm
      rw [Bool.eq_false_iff]
      intro hall
      rw [List.all_eq_true] at hall
      apply h
      rcases c with c | ⟨s, hs, e⟩
      · rw [c]
        exact of_decide_eq_true (hall t0 (List.mem_cons_self _ _))
      · rw [e]
        exact of_decide_eq_true (hall s (List.mem_cons_of_mem _ hs))

/-- C26: for the limit `k = 1`, a scan that passes the norm test with a non-null key over
an intact index with at least one tuple on a page that is not deleted, and bounds with
`L(T) <= U(T)` for every such tuple: `bitmapSingleSearch` adds to the bitmap exactly the
tuples `T` with `L(T) <= U(S)` for every scanned tuple `S`, in scan order, and returns
their number; hence, for every function `dist` with `L(T) <= dist(T) <= U(T)` on the
scanned tuples, every tuple of least `dist` is emitted. -/
theorem nearest_scan_emits_below_least_upper_bound {α : Type} [LinearOrderedField α]
    [FloorRing α] [Inhabited α] (dpow : α → α → α) (junk : Int → α) (scan : IndexScanDesc α)
    (tbm : List ItemPointer)
    (hnorm : normCheckFails scan.adamScanClause.nn_minkowski = false)
    (hkey : (decide (scan.numberOfKeys > 0) && scan.keyData.isnull) = false)
    (hmagic : scan.indexRelation.metaPage.magickNumber = VA_MAGICK_NUMBER)
    (hk : scan.adamScanClause.nn_limit = 1)
    (hne : liveTuples scan.indexRelation.blocks ≠ [])
    (hLU : ∀ t ∈ liveTuples scan.indexRelation.blocks,
      scanLowerBound dpow junk scan t ≤ scanUpperBound dpow junk scan t) :
    ∃ r, bitmapSingleSearch dpow junk scan tbm = Except.ok r ∧
      r.tbm = tbm ++ ((liveTuples scan.indexRelation.blocks).filter
        (fun t => (liveTuples scan.indexRelation.blocks).all
          (fun s => decide (scanLowerBound dpow junk scan t
            ≤ scanUpperBound dpow junk scan s)))).map Tuple.heapPtr ∧
      r.ntids = ((liveTuples scan.indexRelation.blocks).filter
        (fun t => (liveTuples scan.indexRelation.blocks).all
          (fun s => decide (scanLowerBound dpow junk scan t
            ≤ scanUpperBound dpow junk scan s)))).length ∧
      ∀ (dist : Tuple → α),
        (∀ t ∈ liveTuples scan.indexRelation.blocks,
          scanLowerBound dpow junk scan t ≤ dist t ∧
          dist t ≤ scanUpperBound dpow junk scan t) →
        ∀ t ∈ liveTuples scan.indexRelation.blocks,
          (∀ s ∈ liveTuples scan.indexRelation.blocks, dist t ≤ dist s) →
          t.heapPtr ∈ r.tbm := by
  have hsearch := bitmapSingleSearch_limited dpow junk scan tbm
    (scanLowerBound dpow junk scan) (scanUpperBound dpow junk scan) hnorm hkey hmagic
    (by rw [hk]; decide) (fun t _ => ⟨rfl, rfl⟩)
  have hone : scan.adamScanClause.nn_limit.toNat = 1 := by rw [hk]; rfl
  have hpass := passes_one (scanLowerBound dpow junk scan) (scanUpperBound dpow junk scan)
    (junk 0) (liveTuples scan.indexRelation.blocks) hne hLU
  have hsec : secondPass (scanLowerBound dpow junk scan)
      (firstPass (scanLowerBound dpow junk scan) (scanUpperBound dpow junk scan)
        (createQueue scan.adamScanClause.nn_limit.toNat (junk 0)) scan.indexRelation.blocks)
      scan.indexRelation.blocks
      = (liveTuples scan.indexRelation.blocks).filter
        (fun t => (liveTuples scan.indexRelation.blocks).all
          (fun s => decide (scanLowerBound dpow junk scan t
            ≤ scanUpperBound dpow junk scan s))) := by
    rw [hone]
    exact hpass
  rw [hsec] at hsearch
  refine ⟨_, hsearch, rfl, rfl, ?_⟩
  intro dist hd t ht hmin
  apply List.mem_append_right
  apply List.mem_map_of_mem
  rw [List.mem_filter]
  refine ⟨ht, ?_⟩
  rw [List.all_eq_true]
  intro s hs
  apply decide_eq_true
  exact le_trans (hd t ht).1 (le_trans (hmin s hs) (hd s hs).2)

/-- C26, for the scan of `demoBlocks` (lower bounds 10, 0, 2 and upper bounds 11, 1, 3)
for the nearest neighbour of the query 0 under the norm 1. -/
theorem nearest_scan_emits_below_least_upper_bound_witness :
    ∃ r, bitmapSingleSearch qpow (fun _ => 0) (demoScan 1 1) [] = Except.ok r ∧
      r.tbm = [] ++ ((liveTuples (demoScan 1 1).indexRelation.blocks).filter
        (fun t => (liveTuples (demoScan 1 1).indexRelation.blocks).all
          (fun s => decide (scanLowerBound qpow (fun _ => 0) (demoScan 1 1) t
            ≤ scanUpperBound qpow (fun _ => 0) (demoScan 1 1) s)))).map Tuple.heapPtr ∧
      r.ntids = ((liveTuples (demoScan 1 1).indexRelation.blocks).filter
        (fun t => (liveTuples (demoScan 1 1).indexRelation.blocks).all
          (fun s => decide (scanLowerBound qpow (fun _ => 0) (demoScan 1 1) t
            ≤ scanUpperBound qpow (fun _ => 0) (demoScan 1 1) s)))).length ∧
      ∀ (dist : Tuple → ℚ),
        (∀ t ∈ liveTuples (demoScan 1 1).indexRelation.blocks,
          scanLowerBound qpow (fun _ => 0) (demoScan 1 1) t ≤ dist t ∧
          dist t ≤ scanUpperBound qpow (fun _ => 0) (demoScan 1 1) t) →
        ∀ t ∈ liveTuples (demoScan 1 1).indexRelation.blocks,
          (∀ s ∈ liveTuples (demoScan 1 1).indexRelation.blocks, dist t ≤ dist s) →
          t.heapPtr ∈ r.tbm := by
  have hlive : liveTuples demoBlocks = [⟨101, [10]⟩, ⟨102, [0]⟩, ⟨103, [2]⟩] := by decide
  have hdim : (min (((demoScan 1 1).state.dimensions : Nat) : Int)
      (((demoScan 1 1).keyData.sk_argument.length : Nat) : Int)) = 1 := by decide
  have hpart : (((demoScan 1 1).state.partitions : Nat) : Int) = 64 := by
    simp [demoScan, mkScan, initStateOptions, unitMarks_length]
  have hb : ∀ t ∈ liveTuples demoBlocks,
      scanLowerBound qpow (fun _ => 0) (demoScan 1 1) t = ((t.apx.headD 0 : Nat) : ℚ) ∧
      scanUpperBound qpow (fun _ => 0) (demoScan 1 1) t = ((t.apx.headD 0 + 1 : Nat) : ℚ) := by
    intro t ht
    unfold scanLowerBound scanUpperBound
    rw [hdim, hpart]
    rw [hlive] at ht
    simp only [List.mem_cons, List.mem_singleton, List.not_mem_nil, or_false] at ht
    rcases ht with h | h | h <;> subst h
    · exact ⟨unit_lbound _ 10 (by omega), unit_ubound _ 10 (by omega)⟩
    · exact ⟨unit_lbound _ 0 (by omega), unit_ubound _ 0 (by omega)⟩
    · exact ⟨unit_lbound _ 2 (by omega), unit_ubound _ 2 (by omega)⟩
  exact nearest_scan_emits_below_least_upper_bound qpow (fun _ => 0) (demoScan 1 1) []
    (by decide) (by decide) (by decide) rfl
    (by
      show liveTuples demoBlocks ≠ []
      rw [hlive]
      simp)
    (by
      intro t ht
      have ht1 : t ∈ liveTuples demoBlocks := ht
      rw [(hb t ht1).1, (hb t ht1).2]
      exact_mod_cast Nat.le_succ _)

/-! ### Insertion after a bulk deletion -/

/-- C27 (violated by the code): an index is built over one tuple (TID 201), a tuple with
TID 202 is inserted (new block 2, which enters the ring), `vaBulkDelete` removes both
tuples (both pages are flagged deleted, the ring is left as it was), and a tuple with TID
203 is inserted: it is stored on block 2, which is flagged deleted, and the scan without
limit emits no TID. -/
theorem insert_after_bulk_delete_is_lost :
    ∃ index0, vaBuild 0 [unitMarks] [(201, some [1])] = Except.ok index0 ∧
      ∃ r1, vaInsert (initStateOptions [unitMarks]) index0 [] 202 (some [2]) = Except.ok r1 ∧
        ∃ r3, vaInsert (initStateOptions [unitMarks])
            (vaBulkDelete (initStateOptions [unitMarks]) r1.1 none (fun _ => true)).1 r1.2
            203 (some [3]) = Except.ok r3 ∧
          (∃ page, r3.1.blocks.get? (2 - VA_HEAD_BLKNO) = some page ∧ isDeleted page = true ∧
            pageTuples page = [formTuple (initStateOptions [unitMarks]) 203 (some [3])]) ∧
          ∃ r, bitmapSingleSearch qpow (fun _ => 0)
              (mkScan r3.1 [unitMarks] { check_tid := false, nn_limit := 0, nn_minkowski := 2 }
                1 { isnull := false, sk_argument := [0] }) [] = Except.ok r ∧
            r.ntids = 0 ∧ r.tbm = [] :=
  ⟨_, rfl, _, rfl, _, rfl, ⟨_, rfl, by decide, by decide⟩, _, rfl, by decide, by decide⟩

/-! ### The walk stays within the row of its dimension -/

end ADAM
